import Mathlib

/-!
# I/O dispatch and collision resolution of the Plus4 ($FD00-$FEFF)

A shallow embedding of `src/vice/src/plus4/plus4io.c`.

* A region list (`io_source_list_t` with its dummy head node) is a `List io_source_t`:
  the nodes after the head, oldest registration first.
* `uint16_t`/`uint8_t` values are natural numbers, reduced `% 65536` / `% 256` where the
  C code casts or returns them.
* A device callback is a function giving the byte the device drives for a (masked) address;
  the call itself is recorded, in program order, as an `Event` in the run's event list, together
  with every call to a collaborator (`log_message`, `ui_error`, `cartridge_detach_image`,
  `resources_set_int`).
* Undefined behaviour of the C code (a store outside the allocated `detach_list`, a NULL
  message handed to `util_concat` or to the logger, a failed `assert`) is the result `none`.
-/

set_option autoImplicit false

namespace Plus4Bus

/-! ## Constants of the headers -/

/-- Modelled from the spec: `cartio.h` is not among the sources. The priority of a device is
"one of LOW, NORMAL, HIGH"; the three are distinct integers. -/
def IO_PRIO_HIGH : Int := 1

/-- Modelled from the spec: `cartio.h` is not among the sources; see `IO_PRIO_HIGH`. -/
def IO_PRIO_NORMAL : Int := 0

/-- Modelled from the spec: `cartio.h` is not among the sources; see `IO_PRIO_HIGH`. -/
def IO_PRIO_LOW : Int := -1

/-- Collision method 0 of the help text of `-iocollision`:
"0: error message and detach all involved carts". -/
def IO_COLLISION_METHOD_DETACH_ALL : Int := 0

/-- Collision method 1 of the help text of `-iocollision`:
"1: error message and detach last attached involved carts". -/
def IO_COLLISION_METHOD_DETACH_LAST : Int := 1

/-- Collision method 2 of the help text of `-iocollision`:
"2: warning in log and AND the valid return values". -/
def IO_COLLISION_METHOD_AND_WIRES : Int := 2

/-- Modelled from the spec: `cartio.h` is not among the sources. The removal reason
"cartridge type"; distinct from `IO_DETACH_RESOURCE`. -/
def IO_DETACH_CART : Int := 0

/-- Modelled from the spec: `cartio.h` is not among the sources. The removal reason
"named resource". -/
def IO_DETACH_RESOURCE : Int := 1

/-- Modelled from the spec: `cartridge.h` is not among the sources. The "none" cartridge id. -/
def CARTRIDGE_NONE : Int := -1

/-- Modelled from the spec: `cartridge.h` is not among the sources. The generic CRT
cartridge id, which must never reach `cartridge_detach_image`. -/
def CARTRIDGE_CRT : Int := 0

/-! ## Data model -/

/-- Modelled from the spec: the declaration of `io_source_t` (`cartio.h`) is not among the
sources; the fields are the ones `plus4io.c` accesses (the Device Descriptor of the spec).
`read` and `peek` are `none` for a NULL callback; `store` is `true` for a non-NULL store
callback (it returns nothing, its call is an `Event`). -/
structure io_source_t where
  name : String
  detach_id : Int
  resource_name : String
  start_address : Nat
  end_address : Nat
  address_mask : Nat
  io_source_valid : Int
  store : Bool
  read : Option (Nat → Nat)
  peek : Option (Nat → Nat)
  cart_id : Int
  io_source_prio : Int
  order : Nat

/-- Modelled from the spec: the declaration of `io_source_detach_t` (`cartio.h`) is not among
the sources; the fields are the ones `plus4io.c` accesses. -/
structure io_source_detach_t where
  det_id : Int
  det_name : String
  det_devname : String
  det_cartid : Int
  order : Nat

/-- What a run does besides computing its result: the callbacks of devices it calls and the
calls to collaborators, in program order. -/
inductive Event where
  | read (d : io_source_t) (address : Nat)
  | peek (d : io_source_t) (address : Nat)
  | store (d : io_source_t) (address : Nat) (data : Nat)
  | log_message (format : String) (addr : Nat)
  | ui_error (format : String) (addr : Nat)
  | cartridge_detach_image (cartid : Int)
  | resources_set_int (name : String) (value : Int)

/-- The event is a call of a device callback (not a call to a collaborator). -/
def Event.isCallback : Event → Bool
  | .read _ _ => true
  | .peek _ _ => true
  | .store _ _ _ => true
  | _ => false

/-- The event is a call of the store callback of a device whose priority is not LOW. -/
def Event.isRealStore : Event → Bool
  | .store d _ _ => decide (d.io_source_prio ≠ IO_PRIO_LOW)
  | _ => false

/-- The test `addr >= start_address && addr <= end_address` of every walk. -/
def io_source_t.covers (d : io_source_t) (addr : Nat) : Prop :=
  d.start_address ≤ addr ∧ addr ≤ d.end_address

instance (d : io_source_t) (addr : Nat) : Decidable (d.covers addr) := by
  unfold io_source_t.covers; exact inferInstance

/-- The argument `(uint16_t)(addr & address_mask)` of a callback. -/
def io_source_t.masked (d : io_source_t) (addr : Nat) : Nat :=
  (addr &&& d.address_mask) % 65536

/-- The byte `read(addr & address_mask)` of a device (0 stands in for a NULL callback,
which is never called). -/
def io_source_t.read_byte (d : io_source_t) (addr : Nat) : Nat :=
  match d.read with
  | some f => f (d.masked addr) % 256
  | none => 0

/-- Modelled from the spec: `util_concat` (`util.c`) is not among the sources. It concatenates
its first argument and the following ones up to the terminating NULL (`none`) of the call. -/
def util_concat (s : String) : List (Option String) → String
  | [] => s
  | none :: _ => s
  | some a :: rest => util_concat (s ++ a) rest

/-! ## The detach coordinator -/

/-- `io_source_detach`: `none` is the failed `assert`. -/
def io_source_detach (source : io_source_detach_t) : Option (List Event) :=
  if source.det_id = IO_DETACH_CART then
    if source.det_cartid ≠ CARTRIDGE_NONE then
      if source.det_cartid ≠ CARTRIDGE_CRT then
        some [Event.cartridge_detach_image source.det_cartid]
      else none
    else some []
  else if source.det_id = IO_DETACH_RESOURCE then
    some [Event.resources_set_int source.det_name 0]
  else some []

/-- The loop `for (i = 0; i < found; i++) io_source_detach(&detach_list[i])`, with the
filter of `io_source_msg_detach_last` as `keep`. -/
def detach_each (keep : io_source_detach_t → Bool) : List io_source_detach_t → Option (List Event)
  | [] => some []
  | r :: rest =>
    if keep r then detach_each keep rest
    else
      match io_source_detach r with
      | none => none
      | some ev =>
        match detach_each keep rest with
        | none => none
        | some evs => some (ev ++ evs)

/-! ## The collision handlers -/

/-- The local variables of the three collision handlers (`first_cart` is used by
`io_source_msg_detach_last` only, `detach_list` not by `io_source_log_collisions`);
`none` is the NULL pointer. `detach_list` holds the entries written so far, entries
`0 .. found - 1` of the allocated array. -/
structure msg_vars where
  found : Int
  new_msg : Option String
  first_cart : Option String
  detach_list : List io_source_detach_t

/-- The initial values of the handlers' local variables. -/
def msg_vars.init : msg_vars :=
  { found := 0, new_msg := none, first_cart := none, detach_list := [] }

/-- The three `if`s that extend the message for one conflicting device, the same in the three
handlers but for the text `suffix` that follows the last name. The result `none` is a NULL
`old_msg` handed to `util_concat`. -/
def msg_step (found amount : Int) (name : String) (suffix : List (Option String))
    (new_msg : Option String) : Option (Option String) :=
  let m1 : Option String :=
    if found = 0 then some (util_concat "I/O read collision at %X from " [some name])
    else new_msg
  let m2 : Option (Option String) :=
    if found ≠ amount - 1 ∧ found ≠ 0 then
      match m1 with
      | none => none
      | some m => some (some (util_concat m [some ", ", some name]))
    else some m1
  match m2 with
  | none => none
  | some m2 =>
    if found = amount - 1 then
      match m2 with
      | none => none
      | some m => some (some (util_concat m ([some " and ", some name] ++ suffix)))
    else some m2

/-- The `while (current)` loop of `io_source_msg_detach_all`. The result `none` is a store
outside `detach_list` (which has `amount` entries) or a NULL `old_msg`. The field `order` of an
entry is not written by this function (and not read). -/
def io_source_msg_detach_all_walk (addr : Nat) (amount : Int) :
    List io_source_t → msg_vars → Option msg_vars
  | [], v => some v
  | d :: rest, v =>
    if d.io_source_valid ≠ 0 ∧ d.covers addr ∧ d.io_source_prio = IO_PRIO_NORMAL then
      if 0 ≤ v.found ∧ v.found < amount then
        match msg_step v.found amount d.name
            [some ".\nAll the named devices will be detached."] v.new_msg with
        | none => none
        | some m =>
          let v1 : msg_vars :=
            { found := v.found + 1, new_msg := m, first_cart := v.first_cart,
              detach_list := v.detach_list ++
                [{ det_id := d.detach_id, det_name := d.resource_name, det_devname := d.name,
                   det_cartid := d.cart_id, order := 0 }] }
          if v.found + 1 = amount then some v1
          else io_source_msg_detach_all_walk addr amount rest v1
      else none
    else io_source_msg_detach_all_walk addr amount rest v

/-- `io_source_msg_detach_all(addr, amount, start)`: the calls it makes. -/
def io_source_msg_detach_all (addr : Nat) (amount : Int) (start : List io_source_t) :
    Option (List Event) :=
  match io_source_msg_detach_all_walk addr amount start msg_vars.init with
  | none => none
  | some v =>
    if v.found ≠ 0 then
      match v.new_msg with
      | none => none
      | some m =>
        match detach_each (fun _ => false) v.detach_list with
        | none => none
        | some evs => some ([Event.log_message m addr, Event.ui_error m addr] ++ evs)
    else some []

/-- The `while (current)` loop of `io_source_msg_detach_last`. -/
def io_source_msg_detach_last_walk (addr : Nat) (amount : Int) (lowest : Nat) :
    List io_source_t → msg_vars → Option msg_vars
  | [], v => some v
  | d :: rest, v =>
    if d.io_source_valid ≠ 0 ∧ d.covers addr ∧ d.io_source_prio = IO_PRIO_NORMAL then
      if 0 ≤ v.found ∧ v.found < amount then
        let first_cart : Option String := if d.order = lowest then some d.name else v.first_cart
        match msg_step v.found amount d.name
            [some ".\nAll devices except ", first_cart, some " will be detached."] v.new_msg with
        | none => none
        | some m =>
          let v1 : msg_vars :=
            { found := v.found + 1, new_msg := m, first_cart := first_cart,
              detach_list := v.detach_list ++
                [{ det_id := d.detach_id, det_name := d.resource_name, det_devname := d.name,
                   det_cartid := d.cart_id, order := d.order }] }
          if v.found + 1 = amount then some v1
          else io_source_msg_detach_last_walk addr amount lowest rest v1
      else none
    else io_source_msg_detach_last_walk addr amount lowest rest v

/-- `io_source_msg_detach_last(addr, amount, start, lowest)`: the calls it makes. -/
def io_source_msg_detach_last (addr : Nat) (amount : Int) (start : List io_source_t)
    (lowest : Nat) : Option (List Event) :=
  match io_source_msg_detach_last_walk addr amount lowest start msg_vars.init with
  | none => none
  | some v =>
    if v.found ≠ 0 then
      match v.new_msg with
      | none => none
      | some m =>
        match detach_each (fun r => decide (r.order = lowest)) v.detach_list with
        | none => none
        | some evs => some ([Event.log_message m addr, Event.ui_error m addr] ++ evs)
    else some []

/-- The `while (current)` loop of `io_source_log_collisions` (no `detach_list` here). -/
def io_source_log_collisions_walk (addr : Nat) (amount : Int) :
    List io_source_t → msg_vars → Option msg_vars
  | [], v => some v
  | d :: rest, v =>
    if d.io_source_valid ≠ 0 ∧ d.covers addr ∧ d.io_source_prio = IO_PRIO_NORMAL then
      match msg_step v.found amount d.name [] v.new_msg with
      | none => none
      | some m =>
        let v1 : msg_vars := { v with found := v.found + 1, new_msg := m }
        if v.found + 1 = amount then some v1
        else io_source_log_collisions_walk addr amount rest v1
    else io_source_log_collisions_walk addr amount rest v

/-- `io_source_log_collisions(addr, amount, start)`: the calls it makes. -/
def io_source_log_collisions (addr : Nat) (amount : Int) (start : List io_source_t) :
    Option (List Event) :=
  match io_source_log_collisions_walk addr amount start msg_vars.init with
  | none => none
  | some v =>
    if v.found ≠ 0 then
      match v.new_msg with
      | none => none
      | some m => some [Event.log_message m addr]
    else some []

/-! ## The bus: read and store -/

/-- The local variables of `io_read`. -/
structure io_read_vars where
  io_source_counter : Int
  io_source_valid : Int
  realval : Nat
  retval : Nat
  firstval : Nat
  lowest_order : Nat

/-- The initial values of the local variables of `io_read`. -/
def io_read_vars.init : io_read_vars :=
  { io_source_counter := 0, io_source_valid := 0, realval := 0, retval := 0, firstval := 0,
    lowest_order := 0xffffffff }

/-- How the `while (current)` loop of `io_read` ends: by the `return retval` for a HIGH
priority device, or at the end of the list. Both carry the callbacks called so far. -/
inductive io_read_walk_result where
  | returned (retval : Nat) (calls : List Event)
  | finished (v : io_read_vars) (calls : List Event)

/-- The `while (current)` loop of `io_read`, under collision method `chm`
(the variable `io_source_collision_handling`). -/
def io_read_walk (chm : Int) (addr : Nat) :
    List io_source_t → io_read_vars → List Event → io_read_walk_result
  | [], v, tr => .finished v tr
  | d :: rest, v, tr =>
    match d.read with
    | none => io_read_walk chm addr rest v tr
    | some f =>
      if d.covers addr then
        let retval := f (d.masked addr) % 256
        let tr1 := tr ++ [Event.read d (d.masked addr)]
        if d.io_source_valid ≠ 0 then
          if d.io_source_prio = IO_PRIO_HIGH then .returned retval tr1
          else if v.io_source_valid = 0 then
            io_read_walk chm addr rest
              { io_source_counter :=
                  if d.io_source_prio ≠ IO_PRIO_LOW then v.io_source_counter + 1
                  else v.io_source_counter,
                io_source_valid := 1,
                realval := retval,
                retval := retval,
                firstval := retval,
                lowest_order := d.order } tr1
          else
            let retval1 := if d.io_source_prio = IO_PRIO_LOW then v.realval else retval
            io_read_walk chm addr rest
              { io_source_counter :=
                  if d.io_source_prio ≠ IO_PRIO_LOW then
                    if retval1 ≠ v.firstval then v.io_source_counter + 1
                    else v.io_source_counter
                  else v.io_source_counter,
                io_source_valid := v.io_source_valid,
                realval :=
                  if chm = IO_COLLISION_METHOD_DETACH_LAST then
                    if d.order < v.lowest_order then retval1 else v.realval
                  else if chm = IO_COLLISION_METHOD_AND_WIRES then v.realval &&& retval1
                  else v.realval,
                retval := retval1,
                firstval := v.firstval,
                lowest_order :=
                  if chm = IO_COLLISION_METHOD_DETACH_LAST then
                    if d.order < v.lowest_order then d.order else v.lowest_order
                  else v.lowest_order } tr1
        else io_read_walk chm addr rest { v with retval := retval } tr1
      else io_read_walk chm addr rest v tr

/-- `io_read(list, addr)` with `read_unused` (of `plus4mem`, not among the sources) and the
collision method `chm` as parameters: the byte returned and the calls made. -/
def io_read (read_unused : Nat → Nat) (chm : Int) (list : List io_source_t) (addr : Nat) :
    Option (Nat × List Event) :=
  match io_read_walk chm addr list io_read_vars.init [] with
  | .returned retval tr => some (retval, tr)
  | .finished v tr =>
    if v.io_source_valid = 0 then some (read_unused addr % 256, tr)
    else if ¬ (v.io_source_counter > 1) then some (v.retval, tr)
    else if chm = IO_COLLISION_METHOD_DETACH_ALL then
      match io_source_msg_detach_all addr v.io_source_counter list with
      | none => none
      | some ev => some (read_unused addr % 256, tr ++ ev)
    else if chm = IO_COLLISION_METHOD_DETACH_LAST then
      match io_source_msg_detach_last addr v.io_source_counter list v.lowest_order with
      | none => none
      | some ev => some (v.realval, tr ++ ev)
    else if chm = IO_COLLISION_METHOD_AND_WIRES then
      match io_source_log_collisions addr v.io_source_counter list with
      | none => none
      | some ev => some (v.realval, tr ++ ev)
    else some (read_unused addr % 256, tr)

/-- The local variables of `io_store`; `store` is the device whose store callback the
pointer `store` holds (`none` for NULL). -/
structure io_store_vars where
  writes : Int
  addy : Nat
  store : Option io_source_t

/-- The initial values of the local variables of `io_store`. -/
def io_store_vars.init : io_store_vars :=
  { writes := 0, addy := 0xffff, store := none }

/-- The `while (current)` loop of `io_store`. -/
def io_store_walk (addr value : Nat) :
    List io_source_t → io_store_vars → List Event → io_store_vars × List Event
  | [], v, tr => (v, tr)
  | d :: rest, v, tr =>
    if d.store = true then
      if d.covers addr then
        if d.io_source_prio ≠ IO_PRIO_LOW then
          io_store_walk addr value rest { v with writes := v.writes + 1 }
            (tr ++ [Event.store d (d.masked addr) value])
        else
          io_store_walk addr value rest { v with addy := d.masked addr, store := some d } tr
      else io_store_walk addr value rest v tr
    else io_store_walk addr value rest v tr

/-- `io_store(list, addr, value)`: the store callbacks it calls. -/
def io_store (list : List io_source_t) (addr value : Nat) : List Event :=
  match io_store_walk addr value list io_store_vars.init [] with
  | (v, tr) =>
    match v.store with
    | some d => if v.writes = 0 ∧ v.addy ≠ 0xffff then tr ++ [Event.store d v.addy value] else tr
    | none => tr

/-! ## Vocabulary of the statements -/

/-- The device is called by the walk of `io_read`: its read callback is not NULL and its
range covers the address. -/
def io_source_t.responds (d : io_source_t) (addr : Nat) : Bool :=
  d.read.isSome && decide (d.covers addr)

/-- The device is called by the walk of `io_store`: its store callback is not NULL and its
range covers the address. -/
def io_source_t.accepts (d : io_source_t) (addr : Nat) : Bool :=
  d.store && decide (d.covers addr)

/-- The priority is one of the three of the data model. -/
def io_source_t.prio_ok (d : io_source_t) : Prop :=
  d.io_source_prio = IO_PRIO_LOW ∨ d.io_source_prio = IO_PRIO_NORMAL ∨
    d.io_source_prio = IO_PRIO_HIGH

instance (d : io_source_t) : Decidable d.prio_ok := by
  unfold io_source_t.prio_ok; exact inferInstance

/-- The read callbacks of all the devices of the list that respond at the address, in
registration order, each called once with the masked address. -/
def read_calls (list : List io_source_t) (addr : Nat) : List Event :=
  (list.filter (fun d => d.responds addr)).map (fun d => Event.read d (d.masked addr))

/-- The bytes read from the devices of the list that cover the address, in registration
order. -/
def read_bytes (list : List io_source_t) (addr : Nat) : List Nat :=
  (list.filter (fun d => decide (d.covers addr))).map (fun d => d.read_byte addr)

/-- The bitwise AND of a list of bytes. -/
def and_of_bytes (bs : List Nat) : Nat :=
  bs.foldr (fun b acc => b &&& acc) 0xff

/-- The entry of `detach_list` that a collision handler writes for a device
(`io_source_msg_detach_all` leaves `order` unwritten: 0 here). -/
def io_source_t.detach_entry (d : io_source_t) (order : Nat) : io_source_detach_t :=
  { det_id := d.detach_id, det_name := d.resource_name, det_devname := d.name,
    det_cartid := d.cart_id, order := order }

/-- The text of the collision message for two devices, before the suffix of the method. -/
def collision_text (a b : String) : String :=
  "I/O read collision at %X from " ++ a ++ " and " ++ b

/-- The variables of `io_read` after the first valid response, of a device `d` that is not
HIGH priority (the branch `io_source_valid == 0` of the loop body). -/
def io_read_vars.first_valid (v : io_read_vars) (d : io_source_t) (addr : Nat) : io_read_vars :=
  { io_source_counter :=
      if d.io_source_prio ≠ IO_PRIO_LOW then v.io_source_counter + 1 else v.io_source_counter,
    io_source_valid := 1,
    realval := d.read_byte addr,
    retval := d.read_byte addr,
    firstval := d.read_byte addr,
    lowest_order := d.order }

/-- The variables of `io_read` after a later valid response, of a NORMAL priority device `d`
(the `else` branch of the loop body, where `retval` stays the byte read). -/
def io_read_vars.next_normal (chm : Int) (v : io_read_vars) (d : io_source_t) (addr : Nat) :
    io_read_vars :=
  { io_source_counter :=
      if d.read_byte addr ≠ v.firstval then v.io_source_counter + 1 else v.io_source_counter,
    io_source_valid := v.io_source_valid,
    realval :=
      if chm = IO_COLLISION_METHOD_DETACH_LAST then
        if d.order < v.lowest_order then d.read_byte addr else v.realval
      else if chm = IO_COLLISION_METHOD_AND_WIRES then v.realval &&& d.read_byte addr
      else v.realval,
    retval := d.read_byte addr,
    firstval := v.firstval,
    lowest_order :=
      if chm = IO_COLLISION_METHOD_DETACH_LAST then
        if d.order < v.lowest_order then d.order else v.lowest_order
      else v.lowest_order }

/-- Consecutive reads of one address on an unchanged list: the results of `n` calls. -/
def io_read_repeat (read_unused : Nat → Nat) (chm : Int) (list : List io_source_t)
    (addr : Nat) : Nat → List (Option (Nat × List Event))
  | 0 => []
  | n + 1 => io_read read_unused chm list addr :: io_read_repeat read_unused chm list addr n

/-! ## Concrete devices and lists -/

/-- A device of the $FD00 page: 16 registers mirrored over $FD00-$FDFF, detached through the
resource named after it, driving the constant byte `byte`. -/
def sample_device (name : String) (valid prio : Int) (order byte : Nat) : io_source_t :=
  { name := name, detach_id := IO_DETACH_RESOURCE, resource_name := name ++ "Enabled",
    start_address := 0xfd00, end_address := 0xfdff, address_mask := 0x0f,
    io_source_valid := valid, store := true, read := some (fun _ => byte), peek := none,
    cart_id := 0, io_source_prio := prio, order := order }

/-- A floating bus that reads $EE everywhere. -/
def sample_unused : Nat → Nat := fun _ => 0xee

/-- A LOW priority device whose range $FE00-$FFFF and mask $FFFF let the masked address
$FFFF through. -/
def sample_wide_mirror : io_source_t :=
  { name := "Mirror", detach_id := IO_DETACH_RESOURCE, resource_name := "MirrorEnabled",
    start_address := 0xfe00, end_address := 0xffff, address_mask := 0xffff,
    io_source_valid := 1, store := true, read := none, peek := none,
    cart_id := 0, io_source_prio := IO_PRIO_LOW, order := 0 }

/-! ## Peek -/

/-- `io_peek(list, addr)`: the byte returned and the callback called (one at most). -/
def io_peek (read_unused : Nat → Nat) : List io_source_t → Nat → Nat × List Event
  | [], addr => (read_unused addr % 256, [])
  | d :: rest, addr =>
    if d.covers addr then
      match d.peek with
      | some f => (f (d.masked addr) % 256, [Event.peek d (d.masked addr)])
      | none =>
        match d.read with
        | some g => (g (d.masked addr) % 256, [Event.read d (d.masked addr)])
        | none => io_peek read_unused rest addr
    else io_peek read_unused rest addr

/-! ## The registry and its global variables -/

/-- The file-scope variables of `plus4io.c`: the collision method, the order counter
(`unsigned int`, 32 bits as the constant `0xffffffff` of `io_read` has it) and the two region
lists (the nodes after each dummy head, oldest first; a node is the descriptor it points to,
with the `order` it was given). -/
structure io_state where
  io_source_collision_handling : Int
  order : Nat
  plus4io_fd00_head : List io_source_t
  plus4io_fe00_head : List io_source_t

/-- The variables as the initialisers of the file leave them. -/
def io_state.init : io_state :=
  { io_source_collision_handling := 0, order := 0, plus4io_fd00_head := [],
    plus4io_fe00_head := [] }

/-- A pointer to a node of a region list, as `io_source_register` returns it and
`io_source_unregister` takes it: the page of the list the node is linked in ($FD00 or $FE00)
and the position of the node in that list when the pointer is used. -/
structure io_source_list_t where
  region : Nat
  index : Nat

/-- `io_source_register(device)`, for a descriptor that is not registered yet: the node
returned and the variables afterwards. The result `none` is the NULL `current` that the
`switch` leaves for a start address outside the pages $FD00 and $FE00. -/
def io_source_register (s : io_state) (device : io_source_t) :
    Option (io_source_list_t × io_state) :=
  if device.start_address &&& 0xff00 = 0xfd00 then
    some ({ region := 0xfd00, index := s.plus4io_fd00_head.length },
      { s with
        plus4io_fd00_head := s.plus4io_fd00_head ++ [{ device with order := s.order }],
        order := (s.order + 1) % 4294967296 })
  else if device.start_address &&& 0xff00 = 0xfe00 then
    some ({ region := 0xfe00, index := s.plus4io_fe00_head.length },
      { s with
        plus4io_fe00_head := s.plus4io_fe00_head ++ [{ device with order := s.order }],
        order := (s.order + 1) % 4294967296 })
  else none

/-- The counter after `io_source_unregister` has removed a node whose descriptor has the
order `removed`: the test `order == order - 1` in `unsigned int` arithmetic, then the
decrement guarded by `order != 0`. -/
def order_after_unregister (order removed : Nat) : Nat :=
  if removed = (order + 4294967295) % 4294967296 then
    if order ≠ 0 then order - 1 else order
  else order

/-- `io_source_unregister(device)`: the variables afterwards. The result `none` is a pointer
to no node of the lists. -/
def io_source_unregister (s : io_state) (device : io_source_list_t) : Option io_state :=
  if device.region = 0xfd00 then
    match s.plus4io_fd00_head.get? device.index with
    | none => none
    | some d =>
      some { s with
        plus4io_fd00_head := s.plus4io_fd00_head.eraseIdx device.index,
        order := order_after_unregister s.order d.order }
  else if device.region = 0xfe00 then
    match s.plus4io_fe00_head.get? device.index with
    | none => none
    | some d =>
      some { s with
        plus4io_fe00_head := s.plus4io_fe00_head.eraseIdx device.index,
        order := order_after_unregister s.order d.order }
  else none

/-- One `while (current)` loop of `cartio_shutdown`, over the list of the page `region`:
it unregisters the first node as long as there is one. `fuel` bounds the number of
iterations (`none` when it runs out); the second component lists the descriptors of the
nodes handed to `io_source_unregister`, in the order of the calls. -/
def cartio_shutdown_loop (region : Nat) : Nat → io_state → Option (io_state × List io_source_t)
  | fuel, s =>
    match (if region = 0xfd00 then s.plus4io_fd00_head else s.plus4io_fe00_head) with
    | [] => some (s, [])
    | d :: _ =>
      match fuel with
      | 0 => none
      | fuel + 1 =>
        match io_source_unregister s { region := region, index := 0 } with
        | none => none
        | some s1 =>
          match cartio_shutdown_loop region fuel s1 with
          | none => none
          | some (s2, ds) => some (s2, d :: ds)

/-- `cartio_shutdown()`: the loop over the $FD00 list, then the loop over the $FE00 list,
each with `fuel` iterations at most. -/
def cartio_shutdown (fuel : Nat) (s : io_state) : Option (io_state × List io_source_t) :=
  match cartio_shutdown_loop 0xfd00 fuel s with
  | none => none
  | some (s1, ds1) =>
    match cartio_shutdown_loop 0xfe00 fuel s1 with
    | none => none
    | some (s2, ds2) => some (s2, ds1 ++ ds2)

/-- `cartio_set_highest_order(nr)`, `nr` an `unsigned int`. -/
def cartio_set_highest_order (s : io_state) (nr : Nat) : io_state :=
  { s with order := nr % 4294967296 }

/-- `set_io_source_collision_handling(val, param)`: the value returned and the variables
afterwards. -/
def set_io_source_collision_handling (s : io_state) (val : Int) : Int × io_state :=
  if val = IO_COLLISION_METHOD_DETACH_ALL ∨ val = IO_COLLISION_METHOD_DETACH_LAST ∨
      val = IO_COLLISION_METHOD_AND_WIRES then
    (0, { s with io_source_collision_handling := val })
  else (-1, s)

/-- `plus4io_fd00_read(addr)`: what `io_read` gives on the $FD00 list, and the variables
afterwards (the function assigns none of them). -/
def plus4io_fd00_read (read_unused : Nat → Nat) (s : io_state) (addr : Nat) :
    Option ((Nat × List Event) × io_state) :=
  match io_read read_unused s.io_source_collision_handling s.plus4io_fd00_head addr with
  | none => none
  | some r => some (r, s)

/-- `plus4io_fe00_read(addr)`. -/
def plus4io_fe00_read (read_unused : Nat → Nat) (s : io_state) (addr : Nat) :
    Option ((Nat × List Event) × io_state) :=
  match io_read read_unused s.io_source_collision_handling s.plus4io_fe00_head addr with
  | none => none
  | some r => some (r, s)

/-- `plus4io_fd00_peek(addr)`: what `io_peek` gives on the $FD00 list, and the variables
afterwards (the function assigns none of them). -/
def plus4io_fd00_peek (read_unused : Nat → Nat) (s : io_state) (addr : Nat) :
    (Nat × List Event) × io_state :=
  (io_peek read_unused s.plus4io_fd00_head addr, s)

/-- `plus4io_fe00_peek(addr)`. -/
def plus4io_fe00_peek (read_unused : Nat → Nat) (s : io_state) (addr : Nat) :
    (Nat × List Event) × io_state :=
  (io_peek read_unused s.plus4io_fe00_head addr, s)

/-- `plus4io_fd00_store(addr, value)`: what `io_store` does on the $FD00 list, and the
variables afterwards (the function assigns none of them). -/
def plus4io_fd00_store (s : io_state) (addr value : Nat) : List Event × io_state :=
  (io_store s.plus4io_fd00_head addr value, s)

/-- `plus4io_fe00_store(addr, value)`. -/
def plus4io_fe00_store (s : io_state) (addr value : Nat) : List Event × io_state :=
  (io_store s.plus4io_fe00_head addr value, s)

/-! ## Histories of the registry -/

/-- A call that changes the registry: `io_source_register` of a descriptor that is not
registered, or `io_source_unregister` of a node. -/
inductive registry_op where
  | register (device : io_source_t)
  | unregister (node : io_source_list_t)

/-- The variables after one call; `none` when the call has no defined result. -/
def apply_op (s : io_state) : registry_op → Option io_state
  | .register device =>
    match io_source_register s device with
    | none => none
    | some (_, s1) => some s1
  | .unregister node => io_source_unregister s node

/-- The variables after a sequence of calls. -/
def run_ops (s : io_state) : List registry_op → Option io_state
  | [] => some s
  | op :: rest =>
    match apply_op s op with
    | none => none
    | some s1 => run_ops s1 rest

/-- No `order++` of the sequence of calls wraps the counter around: every registration
finds it below `0xffffffff`. -/
def counter_never_wraps (s : io_state) : List registry_op → Bool
  | [] => true
  | op :: rest =>
    (match op with
      | .register _ => decide (s.order < 0xffffffff)
      | .unregister _ => true) &&
    (match apply_op s op with
      | none => true
      | some s1 => counter_never_wraps s1 rest)

/-- The descriptors registered in either region. -/
def io_state.devices (s : io_state) : List io_source_t :=
  s.plus4io_fd00_head ++ s.plus4io_fe00_head

/-- The `order` values of the registered devices are pairwise distinct, across both regions. -/
def io_state.orders_distinct (s : io_state) : Prop :=
  (s.devices.map (fun d => d.order)).Nodup

instance (s : io_state) : Decidable s.orders_distinct := by
  unfold io_state.orders_distinct; exact inferInstance

/-! ## Vocabulary of the statements on peek and on the registry -/

/-- The first device of the list, in registration order, whose range covers the address. -/
def first_covering (list : List io_source_t) (addr : Nat) : Option io_source_t :=
  list.find? (fun d => decide (d.covers addr))

/-- The first device of the list, in registration order, whose range covers the address and
which has a peek or a read callback. -/
def first_answering (list : List io_source_t) (addr : Nat) : Option io_source_t :=
  list.find? (fun d => decide (d.covers addr) && (d.peek.isSome || d.read.isSome))

/-- What a peek gives when only `first_answering` is consulted: its peek callback at the
masked address if it has one, else its read callback; `read_unused(addr)` when there is no
such device. -/
def io_peek_answer (read_unused : Nat → Nat) (list : List io_source_t) (addr : Nat) :
    Nat × List Event :=
  match first_answering list addr with
  | none => (read_unused addr % 256, [])
  | some d =>
    match d.peek with
    | some f => (f (addr &&& d.address_mask) % 256, [Event.peek d (addr &&& d.address_mask)])
    | none =>
      match d.read with
      | some g => (g (addr &&& d.address_mask) % 256, [Event.read d (addr &&& d.address_mask)])
      | none => (read_unused addr % 256, [])

/-- The part of the list that the walk of `io_read` goes through: up to and including the
first valid HIGH priority device that responds, the whole list when there is none. -/
def io_read_walked (addr : Nat) : List io_source_t → List io_source_t
  | [] => []
  | d :: rest =>
    if d.responds addr = true ∧ d.io_source_valid ≠ 0 ∧ d.io_source_prio = IO_PRIO_HIGH then [d]
    else d :: io_read_walked addr rest

/-- The callbacks called when the walk of `io_read` ends, either way. -/
def io_read_walk_result.calls : io_read_walk_result → List Event
  | .returned _ tr => tr
  | .finished _ tr => tr

/-- The node pointer designates, in the state `s`, a node whose descriptor is `d`. -/
def io_state.node_at (s : io_state) (node : io_source_list_t) (d : io_source_t) : Prop :=
  (node.region = 0xfd00 ∧ s.plus4io_fd00_head.get? node.index = some d) ∨
    (node.region = 0xfe00 ∧ s.plus4io_fe00_head.get? node.index = some d)

/-- A device of the $FD00 page with a store callback only. -/
def sample_latch : io_source_t :=
  { name := "Latch", detach_id := IO_DETACH_RESOURCE, resource_name := "LatchEnabled",
    start_address := 0xfd00, end_address := 0xfdff, address_mask := 0x0f,
    io_source_valid := 1, store := true, read := none, peek := none,
    cart_id := 0, io_source_prio := IO_PRIO_NORMAL, order := 0 }

/-- A device of the $FD10-$FD1F range with a peek callback (and a read callback) that gives
the constant byte `byte`. -/
def sample_peekable (name : String) (byte : Nat) : io_source_t :=
  { name := name, detach_id := IO_DETACH_RESOURCE, resource_name := name ++ "Enabled",
    start_address := 0xfd10, end_address := 0xfd1f, address_mask := 0x0f,
    io_source_valid := 1, store := false, read := some (fun _ => byte),
    peek := some (fun _ => byte), cart_id := 0, io_source_prio := IO_PRIO_NORMAL, order := 0 }

/-- A device of the $FE00 page. -/
def sample_fe00_device (name : String) (byte : Nat) : io_source_t :=
  { name := name, detach_id := IO_DETACH_CART, resource_name := "",
    start_address := 0xfe00, end_address := 0xfeff, address_mask := 0xff,
    io_source_valid := 1, store := true, read := some (fun _ => byte), peek := none,
    cart_id := 5, io_source_prio := IO_PRIO_NORMAL, order := 0 }

/-- A state with two colliding devices in the $FD00 list and one device in the $FE00 list,
under the collision method `chm`. -/
def sample_state (chm : Int) : io_state :=
  { io_source_collision_handling := chm, order := 3,
    plus4io_fd00_head :=
      [sample_device "A" 1 IO_PRIO_NORMAL 0 0x1c, sample_device "B" 1 IO_PRIO_NORMAL 1 0x1a],
    plus4io_fe00_head := [{ sample_fe00_device "F" 0x66 with order := 2 }] }

/-- Three devices are registered, then the second and the third are unregistered, in this
order: the first one is the only device left. -/
def sample_hole_history : List registry_op :=
  [.register (sample_device "A" 1 IO_PRIO_NORMAL 0 0x12),
    .register (sample_device "B" 1 IO_PRIO_NORMAL 0 0x34),
    .register (sample_device "C" 1 IO_PRIO_NORMAL 0 0x56),
    .unregister { region := 0xfd00, index := 1 },
    .unregister { region := 0xfd00, index := 1 }]

/-- The state after the three registrations of `sample_hole_history`. -/
def sample_three_state : io_state :=
  { io_source_collision_handling := 0, order := 3,
    plus4io_fd00_head :=
      [sample_device "A" 1 IO_PRIO_NORMAL 0 0x12, sample_device "B" 1 IO_PRIO_NORMAL 1 0x34,
        sample_device "C" 1 IO_PRIO_NORMAL 2 0x56],
    plus4io_fe00_head := [] }

/-- The state after the whole of `sample_hole_history`. -/
def sample_one_state : io_state :=
  { io_source_collision_handling := 0, order := 2,
    plus4io_fd00_head := [sample_device "A" 1 IO_PRIO_NORMAL 0 0x12],
    plus4io_fe00_head := [] }

/-- The descriptor number `i` of a long history: a device of the $FD00 page, named after
its number. -/
def churn_device (i : Nat) : io_source_t :=
  { name := "Churn" ++ Nat.repr i, detach_id := IO_DETACH_CART, resource_name := "",
    start_address := 0xfd00, end_address := 0xfdff, address_mask := 0xff,
    io_source_valid := 1, store := true, read := none, peek := none,
    cart_id := 0, io_source_prio := IO_PRIO_NORMAL, order := 0 }

/-- The part of a long history that is repeated, `n` times: a new device is registered, then
the one registered just before it is unregistered (the node at position 1 of the $FD00 list,
position 0 being a device that stays). -/
def churn_history : Nat → List registry_op
  | 0 => []
  | n + 1 =>
    churn_history n ++
      [.register (churn_device (n + 1)), .unregister { region := 0xfd00, index := 1 }]

/-- A long history: a device that stays is registered, then `n + 1` devices one after the
other, each unregistered once its successor is registered, and at the end a device of the
$FE00 page. -/
def wrap_history (n : Nat) : List registry_op :=
  [.register (sample_device "Keep" 1 IO_PRIO_NORMAL 0 0x12), .register (churn_device 0)] ++
    churn_history n ++ [.register (sample_fe00_device "Last" 0x34)]

/-- The state in the middle of `wrap_history`, after the first two registrations and `n`
repetitions: the device that stays and the device number `n`, the counter at `n + 2`
modulo 2^32. -/
def churn_state (n : Nat) : io_state :=
  { io_source_collision_handling := 0, order := (n + 2) % 4294967296,
    plus4io_fd00_head :=
      [sample_device "Keep" 1 IO_PRIO_NORMAL 0 0x12,
        { churn_device n with order := (n + 1) % 4294967296 }],
    plus4io_fe00_head := [] }

/-- The state at the end of `wrap_history`. -/
def wrap_state (n : Nat) : io_state :=
  { io_source_collision_handling := 0, order := ((n + 2) % 4294967296 + 1) % 4294967296,
    plus4io_fd00_head :=
      [sample_device "Keep" 1 IO_PRIO_NORMAL 0 0x12,
        { churn_device n with order := (n + 1) % 4294967296 }],
    plus4io_fe00_head := [{ sample_fe00_device "Last" 0x34 with order := (n + 2) % 4294967296 }] }

/-- A detach record of a device that is detached through its resource. -/
def sample_detach_resource : io_source_detach_t :=
  { det_id := IO_DETACH_RESOURCE, det_name := "AEnabled", det_devname := "A", det_cartid := 0,
    order := 0 }

/-- A detach record of a cartridge, with the cartridge id `cartid`. -/
def sample_detach_cart (cartid : Int) : io_source_detach_t :=
  { det_id := IO_DETACH_CART, det_name := "", det_devname := "F", det_cartid := cartid,
    order := 0 }

/-! ## The monitor's list of I/O registers -/

/-- One call `mon_ioreg_add_list(mem_ioreg_list, name, start, end, dump, NULL)`: the name and
the two addresses handed over (the `dump` pointer of the descriptor goes with them as it is). -/
structure mon_ioreg_call where
  name : String
  start : Nat
  end_address : Nat

/-- The variable `end` of `io_source_ioreg_add_onelist` for one device: a `uint16_t`, compared
with the `int` sum `start_address + address_mask` and assigned from it. -/
def ioreg_end (d : io_source_t) : Nat :=
  if d.end_address % 65536 > d.start_address + d.address_mask then
    (d.start_address + d.address_mask) % 65536
  else d.end_address % 65536

/-- `io_source_ioreg_add_onelist(mem_ioreg_list, current)`: the calls of `mon_ioreg_add_list`,
one for each node from `current` on. -/
def io_source_ioreg_add_onelist : List io_source_t → List mon_ioreg_call
  | [] => []
  | d :: rest =>
    { name := d.name, start := d.start_address, end_address := ioreg_end d } ::
      io_source_ioreg_add_onelist rest

/-- `io_source_ioreg_add_list(mem_ioreg_list)`: the $FD00 list, then the $FE00 list. -/
def io_source_ioreg_add_list (s : io_state) : List mon_ioreg_call :=
  io_source_ioreg_add_onelist s.plus4io_fd00_head ++
    io_source_ioreg_add_onelist s.plus4io_fe00_head

/-- The call that reports a device with its name, its start address and the end address
`min(end_address, start_address + address_mask)`, the sum taken without wrap-around. -/
def clamped_ioreg_call (d : io_source_t) : mon_ioreg_call :=
  { name := d.name, start := d.start_address,
    end_address := min d.end_address (d.start_address + d.address_mask) }

/-! ## Vocabulary of the statements on collisions -/

/-- The test of the three collision handlers on a device: `io_source_valid` set, range
covering the address, NORMAL priority (the read callback is not looked at). -/
def io_source_t.conflicts (d : io_source_t) (addr : Nat) : Bool :=
  decide (d.io_source_valid ≠ 0) && decide (d.covers addr) &&
    decide (d.io_source_prio = IO_PRIO_NORMAL)

/-- The devices a collision handler finds when it is called with `amount`: the first `amount`
devices of the list that pass its test. -/
def named_devices (list : List io_source_t) (addr : Nat) (amount : Nat) : List io_source_t :=
  (list.filter (fun d => d.conflicts addr)).take amount

/-- The message for a first name, the middle names and a last name: "I/O read collision at %X
from " and the first name, then ", " and the name for every middle one, then " and " and the
last name, then the suffix of the method. -/
def collision_message (first : String) (middle : List String) (last : String)
    (suffix : String) : String :=
  middle.foldl (fun acc n => acc ++ ", " ++ n) ("I/O read collision at %X from " ++ first) ++
    " and " ++ last ++ suffix

/-- The message for the names of two devices or more, in the order of the list. -/
def collision_message_of (names : List String) (suffix : String) : String :=
  match names with
  | [] => suffix
  | first :: rest => collision_message first rest.dropLast (rest.getLastD first) suffix

/-- The variable `first_cart` of `io_source_msg_detach_last` once the devices `named` have
been found: the name of the last of them whose order is `lowest`, NULL when none has it. -/
def first_cart_of (lowest : Nat) (named : List io_source_t) : Option String :=
  named.foldl (fun fc d => if d.order = lowest then some d.name else fc) none

/-- The end of the message of `io_source_msg_detach_last`: `util_concat` stops at a NULL
`first_cart`. -/
def detach_last_suffix (first_cart : Option String) : String :=
  match first_cart with
  | some kept => ".\nAll devices except " ++ kept ++ " will be detached."
  | none => ".\nAll devices except "

/-- The `assert` of `io_source_detach` holds for the device. -/
def io_source_t.detach_ok (d : io_source_t) : Prop :=
  ¬ (d.detach_id = IO_DETACH_CART ∧ d.cart_id = CARTRIDGE_CRT)

instance (d : io_source_t) : Decidable d.detach_ok := by
  unfold io_source_t.detach_ok; exact inferInstance

/-- The device responds at the address and its `io_source_valid` is set. -/
def io_source_t.valid_responder (d : io_source_t) (addr : Nat) : Bool :=
  d.responds addr && decide (d.io_source_valid ≠ 0)

/-- The first device of the list, in registration order, that responds validly. -/
def first_valid_responder (list : List io_source_t) (addr : Nat) : Option io_source_t :=
  list.find? (fun d => d.valid_responder addr)

/-- The valid responder with the smallest order, the first of them in registration order
when several have it. -/
def lowest_responder (list : List io_source_t) (addr : Nat) : Option io_source_t :=
  (list.filter (fun d => d.valid_responder addr)).foldl
    (fun best d =>
      match best with
      | none => some d
      | some b => if d.order < b.order then some d else some b) none

/-- The variables of `io_read` after a later valid response, of a device `d` that is not HIGH
priority (the `else` branch of the loop body, whatever the priority). -/
def io_read_vars.next_valid (chm : Int) (v : io_read_vars) (d : io_source_t) (addr : Nat) :
    io_read_vars :=
  { io_source_counter :=
      if d.io_source_prio ≠ IO_PRIO_LOW then
        if (if d.io_source_prio = IO_PRIO_LOW then v.realval else d.read_byte addr) ≠ v.firstval
        then v.io_source_counter + 1
        else v.io_source_counter
      else v.io_source_counter,
    io_source_valid := v.io_source_valid,
    realval :=
      if chm = IO_COLLISION_METHOD_DETACH_LAST then
        if d.order < v.lowest_order then
          (if d.io_source_prio = IO_PRIO_LOW then v.realval else d.read_byte addr)
        else v.realval
      else if chm = IO_COLLISION_METHOD_AND_WIRES then
        v.realval &&& (if d.io_source_prio = IO_PRIO_LOW then v.realval else d.read_byte addr)
      else v.realval,
    retval := if d.io_source_prio = IO_PRIO_LOW then v.realval else d.read_byte addr,
    firstval := v.firstval,
    lowest_order :=
      if chm = IO_COLLISION_METHOD_DETACH_LAST then
        if d.order < v.lowest_order then d.order else v.lowest_order
      else v.lowest_order }

/-- The variables of `io_read` after one turn of the loop that does not return: on a device
that does not respond, on one that responds without being valid, on the first valid one, on
a later valid one. -/
def io_read_vars.step (chm : Int) (addr : Nat) (v : io_read_vars) (d : io_source_t) :
    io_read_vars :=
  if d.responds addr = true then
    if d.io_source_valid ≠ 0 then
      if v.io_source_valid = 0 then v.first_valid d addr else v.next_valid chm d addr
    else { v with retval := d.read_byte addr }
  else v

/-- The walk of `io_read` reaches the end of the list with two sources or more counted:
`io_read` goes on to the collision handler of the method. -/
def io_read_collides (chm : Int) (list : List io_source_t) (addr : Nat) (v : io_read_vars)
    (calls : List Event) : Prop :=
  io_read_walk chm addr list io_read_vars.init [] = .finished v calls ∧
    v.io_source_valid ≠ 0 ∧ v.io_source_counter > 1

/-- The orders increase along the list. -/
def orders_increasing (list : List io_source_t) : Prop :=
  list.Pairwise (fun a b => a.order < b.order)

/-- A valid LOW priority device of the $FD00 page. -/
def sample_low (name : String) (order byte : Nat) : io_source_t :=
  sample_device name 1 IO_PRIO_LOW order byte

/-- A valid NORMAL priority device of the $FD00 page. -/
def sample_normal (name : String) (order byte : Nat) : io_source_t :=
  sample_device name 1 IO_PRIO_NORMAL order byte

/-- The variables of `io_source_msg_detach_all` when its walk ends having found the devices
`named`. -/
def detach_all_vars (named : List io_source_t) : msg_vars :=
  { found := named.length,
    new_msg := some (collision_message_of (named.map (fun d => d.name))
      ".\nAll the named devices will be detached."),
    first_cart := none,
    detach_list := named.map (fun d => d.detach_entry 0) }

/-- The variables of `io_source_msg_detach_last` when its walk ends having found the devices
`named`. -/
def detach_last_vars (lowest : Nat) (named : List io_source_t) : msg_vars :=
  { found := named.length,
    new_msg := some (collision_message_of (named.map (fun d => d.name))
      (detach_last_suffix (first_cart_of lowest named))),
    first_cart := first_cart_of lowest named,
    detach_list := named.map (fun d => d.detach_entry d.order) }

/-- The variables of `io_source_log_collisions` when its walk ends having found the devices
`named`. -/
def log_collisions_vars (named : List io_source_t) : msg_vars :=
  { found := named.length,
    new_msg := some (collision_message_of (named.map (fun d => d.name)) ""),
    first_cart := none,
    detach_list := [] }

/-- The variables of `io_read` at the end of its walk over `A` (order 5, byte 1), `B`
(order 7, byte 2) and `C` (order 3, byte 4) under the detach-last method. -/
def sample_lowest_vars : io_read_vars :=
  { io_source_counter := 3, io_source_valid := 1, realval := 4, retval := 4, firstval := 1,
    lowest_order := 3 }

/-- The variables of `io_read` at the end of its walk over the three devices of the $FD00
list of `sample_three_state` under the detach-last method. -/
def sample_three_vars : io_read_vars :=
  { io_source_counter := 3, io_source_valid := 1, realval := 0x12, retval := 0x56,
    firstval := 0x12, lowest_order := 0 }

/-- The devices at which the loop of `io_read` runs `io_source_counter++`, in the order of the
list, given the value `valid` of `io_source_valid` and the value `firstval` when the loop
reaches the list: the first valid responder when its priority is not LOW, and every later
valid responder whose priority is not LOW and whose byte differs from `firstval`. -/
def io_read_counted (addr : Nat) : List io_source_t → Int → Nat → List io_source_t
  | [], _, _ => []
  | d :: rest, valid, firstval =>
    if d.valid_responder addr = true then
      if valid = 0 then
        if d.io_source_prio ≠ IO_PRIO_LOW then
          d :: io_read_counted addr rest 1 (d.read_byte addr)
        else io_read_counted addr rest 1 (d.read_byte addr)
      else
        if d.io_source_prio ≠ IO_PRIO_LOW ∧ d.read_byte addr ≠ firstval then
          d :: io_read_counted addr rest valid firstval
        else io_read_counted addr rest valid firstval
    else io_read_counted addr rest valid firstval

/-- The devices that a walk of `io_read` over the whole list counts as sources of a
collision. -/
def counted_devices (list : List io_source_t) (addr : Nat) : List io_source_t :=
  io_read_counted addr list 0 0

/-- The valid responder with the smallest order is not of LOW priority. -/
def lowest_not_low (list : List io_source_t) (addr : Nat) : Bool :=
  match lowest_responder list addr with
  | none => false
  | some b => decide (b.io_source_prio ≠ IO_PRIO_LOW)

/-- The variables of `io_read` at the end of its walk over `A` (byte 1), `C` (byte 2) and `B`
(byte 1), of orders 0, 1, 2, under the detach-all method. -/
def sample_counted_vars : io_read_vars :=
  { io_source_counter := 2, io_source_valid := 1, realval := 1, retval := 1, firstval := 1,
    lowest_order := 0 }

/-! ## Lemmas on the walk of `io_read` -/

theorem read_calls_nil (addr : Nat) : read_calls [] addr = [] := rfl

theorem read_calls_cons (d : io_source_t) (l : List io_source_t) (addr : Nat) :
    read_calls (d :: l) addr =
      if d.responds addr = true then Event.read d (d.masked addr) :: read_calls l addr
      else read_calls l addr := by
  unfold read_calls
  by_cases h : d.responds addr = true <;> simp [List.filter_cons, h]

theorem read_calls_append (l1 l2 : List io_source_t) (addr : Nat) :
    read_calls (l1 ++ l2) addr = read_calls l1 addr ++ read_calls l2 addr := by
  simp [read_calls]

/-- One device that does not respond is skipped by the walk. -/
theorem io_read_walk_skip (chm : Int) (addr : Nat) (d : io_source_t) (rest : List io_source_t)
    (v : io_read_vars) (tr : List Event) (h : d.responds addr = false) :
    io_read_walk chm addr (d :: rest) v tr = io_read_walk chm addr rest v tr := by
  rw [io_read_walk]
  cases hr : d.read with
  | none => rfl
  | some f =>
    have hc : ¬ d.covers addr := by
      simpa [io_source_t.responds, hr] using h
    simp [hc]

/-- One responding device that is not valid only leaves its byte in `retval`. -/
theorem io_read_walk_invalid (chm : Int) (addr : Nat) (d : io_source_t) (rest : List io_source_t)
    (v : io_read_vars) (tr : List Event) (h : d.responds addr = true)
    (hv : d.io_source_valid = 0) :
    io_read_walk chm addr (d :: rest) v tr =
      io_read_walk chm addr rest { v with retval := d.read_byte addr }
        (tr ++ [Event.read d (d.masked addr)]) := by
  rw [io_read_walk]
  cases hr : d.read with
  | none => simp [io_source_t.responds, hr] at h
  | some f =>
    have hc : d.covers addr := by
      simpa [io_source_t.responds, hr] using h
    simp [hc, hv, io_source_t.read_byte, hr]

/-- The valid HIGH priority device that responds ends the walk. -/
theorem io_read_walk_high (chm : Int) (addr : Nat) (d : io_source_t) (rest : List io_source_t)
    (v : io_read_vars) (tr : List Event) (h : d.responds addr = true)
    (hv : d.io_source_valid ≠ 0) (hp : d.io_source_prio = IO_PRIO_HIGH) :
    io_read_walk chm addr (d :: rest) v tr =
      .returned (d.read_byte addr) (tr ++ [Event.read d (d.masked addr)]) := by
  rw [io_read_walk]
  cases hr : d.read with
  | none => simp [io_source_t.responds, hr] at h
  | some f =>
    have hc : d.covers addr := by
      simpa [io_source_t.responds, hr] using h
    simp [hc, hv, hp, io_source_t.read_byte, hr]

/-- The first valid response. -/
theorem io_read_walk_first (chm : Int) (addr : Nat) (d : io_source_t) (rest : List io_source_t)
    (v : io_read_vars) (tr : List Event) (h : d.responds addr = true)
    (hv : d.io_source_valid ≠ 0) (hp : d.io_source_prio ≠ IO_PRIO_HIGH)
    (h0 : v.io_source_valid = 0) :
    io_read_walk chm addr (d :: rest) v tr =
      io_read_walk chm addr rest (v.first_valid d addr)
        (tr ++ [Event.read d (d.masked addr)]) := by
  rw [io_read_walk, io_read_vars.first_valid]
  cases hr : d.read with
  | none => simp [io_source_t.responds, hr] at h
  | some f =>
    have hc : d.covers addr := by
      simpa [io_source_t.responds, hr] using h
    simp [hc, hv, hp, h0, io_source_t.read_byte, hr]

/-- A later valid response of a NORMAL priority device. -/
theorem io_read_walk_next_normal (chm : Int) (addr : Nat) (d : io_source_t)
    (rest : List io_source_t) (v : io_read_vars) (tr : List Event)
    (h : d.responds addr = true) (hv : d.io_source_valid ≠ 0)
    (hp : d.io_source_prio = IO_PRIO_NORMAL) (h0 : v.io_source_valid ≠ 0) :
    io_read_walk chm addr (d :: rest) v tr =
      io_read_walk chm addr rest (v.next_normal chm d addr)
        (tr ++ [Event.read d (d.masked addr)]) := by
  rw [io_read_walk, io_read_vars.next_normal]
  cases hr : d.read with
  | none => simp [io_source_t.responds, hr] at h
  | some f =>
    have hc : d.covers addr := by
      simpa [io_source_t.responds, hr] using h
    simp [hc, hv, hp, h0, io_source_t.read_byte, hr, IO_PRIO_NORMAL, IO_PRIO_HIGH, IO_PRIO_LOW]


/-- A walk over devices none of which is a valid HIGH priority responder reaches the end of
the list, having called the responding devices in order. -/
theorem io_read_walk_finishes (chm : Int) (addr : Nat) (l : List io_source_t)
    (v : io_read_vars) (tr : List Event)
    (h : ∀ d ∈ l, d.io_source_prio ≠ IO_PRIO_HIGH) :
    ∃ v1, io_read_walk chm addr l v tr = .finished v1 (tr ++ read_calls l addr) := by
  induction l generalizing v tr with
  | nil => exact ⟨v, by simp [io_read_walk, read_calls_nil]⟩
  | cons d rest ih =>
    have hd := h d (List.mem_cons_self _ _)
    have hrest : ∀ x ∈ rest, x.io_source_prio ≠ IO_PRIO_HIGH :=
      fun x hx => h x (List.mem_cons_of_mem _ hx)
    rw [read_calls_cons]
    cases hresp : d.responds addr with
    | false =>
      rw [io_read_walk_skip chm addr d rest v tr hresp]
      simpa using ih v tr hrest
    | true =>
      by_cases hvalid : d.io_source_valid = 0
      · rw [io_read_walk_invalid chm addr d rest v tr hresp hvalid]
        obtain ⟨v1, hv1⟩ := ih { v with retval := d.read_byte addr }
          (tr ++ [Event.read d (d.masked addr)]) hrest
        exact ⟨v1, by simpa using hv1⟩
      · rw [io_read_walk]
        cases hr : d.read with
        | none => simp [io_source_t.responds, hr] at hresp
        | some f =>
          have hc : d.covers addr := by
            simpa [io_source_t.responds, hr] using hresp
          simp only [hc, if_true, ne_eq, hvalid, not_false_eq_true, hd, if_false]
          split
          · obtain ⟨v1, hv1⟩ := ih _ (tr ++ [Event.read d (d.masked addr)]) hrest
            exact ⟨v1, by simpa using hv1⟩
          · obtain ⟨v1, hv1⟩ := ih _ (tr ++ [Event.read d (d.masked addr)]) hrest
            exact ⟨v1, by simpa using hv1⟩

/-- The walk of a list in two parts. -/
theorem io_read_walk_append (chm : Int) (addr : Nat) (l1 l2 : List io_source_t)
    (v v1 : io_read_vars) (tr tr1 : List Event)
    (h : io_read_walk chm addr l1 v tr = .finished v1 tr1) :
    io_read_walk chm addr (l1 ++ l2) v tr = io_read_walk chm addr l2 v1 tr1 := by
  induction l1 generalizing v tr with
  | nil =>
    simp only [io_read_walk, io_read_walk_result.finished.injEq] at h
    simp [h.1, h.2]
  | cons d rest ih =>
    simp only [List.cons_append]
    rw [io_read_walk] at h ⊢
    cases hr : d.read with
    | none =>
      simp only [hr] at h ⊢
      exact ih _ _ h
    | some f =>
      simp only [hr] at h ⊢
      by_cases hc : d.covers addr
      · simp only [hc, if_true] at h ⊢
        by_cases hv : d.io_source_valid = 0
        · simp only [hv, ne_eq, not_true_eq_false, if_false] at h ⊢
          exact ih _ _ h
        · simp only [ne_eq, hv, not_false_eq_true, if_true] at h ⊢
          by_cases hh : d.io_source_prio = IO_PRIO_HIGH
          · simp [hh] at h
          · simp only [hh, if_false] at h ⊢
            by_cases h0 : v.io_source_valid = 0
            · simp only [h0, if_true] at h ⊢
              exact ih _ _ h
            · simp only [h0, if_false] at h ⊢
              exact ih _ _ h
      · simp only [hc, if_false] at h ⊢
        exact ih _ _ h

theorem responds_covers (d : io_source_t) (addr : Nat) (h : d.responds addr = true) :
    d.covers addr := by
  simp only [io_source_t.responds, Bool.and_eq_true, decide_eq_true_eq] at h
  exact h.2

/-- The walk of `io_read` over two valid NORMAL priority devices that both respond. -/
theorem io_read_walk_two (chm : Int) (addr : Nat) (A B : io_source_t)
    (hA : A.responds addr = true) (hAv : A.io_source_valid ≠ 0)
    (hAp : A.io_source_prio = IO_PRIO_NORMAL)
    (hB : B.responds addr = true) (hBv : B.io_source_valid ≠ 0)
    (hBp : B.io_source_prio = IO_PRIO_NORMAL) :
    io_read_walk chm addr [A, B] io_read_vars.init [] =
      .finished ((io_read_vars.init.first_valid A addr).next_normal chm B addr)
        [Event.read A (A.masked addr), Event.read B (B.masked addr)] := by
  rw [io_read_walk_first chm addr A [B] _ _ hA hAv (by rw [hAp]; decide) rfl,
    io_read_walk_next_normal chm addr B [] _ _ hB hBv hBp
      (by simp [io_read_vars.first_valid])]
  simp [io_read_walk]

/-- Devices that agree on the byte they drive: the walk counts one source at most and ends
with that byte in `retval`. -/
theorem io_read_walk_agree (chm : Int) (addr b : Nat) (l : List io_source_t)
    (v : io_read_vars) (tr : List Event)
    (hall : ∀ d ∈ l, d.covers addr → d.read.isSome = true ∧ d.io_source_valid ≠ 0 ∧
      d.io_source_prio = IO_PRIO_NORMAL ∧ d.read_byte addr = b)
    (hv : (v.io_source_valid = 0 ∧ v.io_source_counter = 0) ∨
      (v.io_source_valid ≠ 0 ∧ v.io_source_counter ≤ 1 ∧ v.firstval = b ∧ v.retval = b)) :
    ∃ v1, io_read_walk chm addr l v tr = .finished v1 (tr ++ read_calls l addr) ∧
      ((v1 = v ∧ ∀ d ∈ l, ¬ d.covers addr) ∨
        (v1.io_source_valid ≠ 0 ∧ v1.io_source_counter ≤ 1 ∧ v1.retval = b)) := by
  induction l generalizing v tr with
  | nil => exact ⟨v, by simp [io_read_walk, read_calls_nil], Or.inl ⟨rfl, by simp⟩⟩
  | cons d rest ih =>
    have hrest : ∀ x ∈ rest, x.covers addr → x.read.isSome = true ∧ x.io_source_valid ≠ 0 ∧
        x.io_source_prio = IO_PRIO_NORMAL ∧ x.read_byte addr = b :=
      fun x hx => hall x (List.mem_cons_of_mem _ hx)
    rw [read_calls_cons]
    by_cases hc : d.covers addr
    · obtain ⟨hread, hvalid, hprio, hbyte⟩ := hall d (List.mem_cons_self _ _) hc
      have hresp : d.responds addr = true := by simp [io_source_t.responds, hread, hc]
      have hnh : d.io_source_prio ≠ IO_PRIO_HIGH := by rw [hprio]; decide
      have hnl : d.io_source_prio ≠ IO_PRIO_LOW := by rw [hprio]; decide
      simp only [hresp, if_true]
      rcases hv with ⟨h0, hcnt⟩ | ⟨h0, hcnt, hfirst, hret⟩
      · rw [io_read_walk_first chm addr d rest v tr hresp hvalid hnh h0]
        obtain ⟨v1, hv1, hv2⟩ := ih (v.first_valid d addr)
          (tr ++ [Event.read d (d.masked addr)]) hrest
          (Or.inr ⟨by simp [io_read_vars.first_valid],
            by simp [io_read_vars.first_valid, hnl, hcnt], hbyte, hbyte⟩)
        refine ⟨v1, by simpa using hv1, Or.inr ?_⟩
        rcases hv2 with ⟨h1, _⟩ | h1
        · subst h1; simp [io_read_vars.first_valid, hnl, hcnt, hbyte]
        · exact h1
      · rw [io_read_walk_next_normal chm addr d rest v tr hresp hvalid hprio h0]
        obtain ⟨v1, hv1, hv2⟩ := ih (v.next_normal chm d addr)
          (tr ++ [Event.read d (d.masked addr)]) hrest
          (Or.inr ⟨h0, by simp [io_read_vars.next_normal, hbyte, hfirst, hcnt], hfirst, hbyte⟩)
        refine ⟨v1, by simpa using hv1, Or.inr ?_⟩
        rcases hv2 with ⟨h1, _⟩ | h1
        · subst h1; simp [io_read_vars.next_normal, hbyte, hfirst, hcnt, h0]
        · exact h1
    · have hresp : d.responds addr = false := by simp [io_source_t.responds, hc]
      rw [io_read_walk_skip chm addr d rest v tr hresp]
      simp only [hresp, Bool.false_eq_true, if_false]
      obtain ⟨v1, hv1, hv2⟩ := ih v tr hrest hv
      refine ⟨v1, hv1, ?_⟩
      rcases hv2 with ⟨h1, h2⟩ | h1
      · left
        refine ⟨h1, ?_⟩
        intro x hx
        rcases List.mem_cons.1 hx with h | h
        · subst h; exact hc
        · exact h2 x h
      · exact Or.inr h1

theorem io_read_repeat_eq (read_unused : Nat → Nat) (chm : Int) (l : List io_source_t)
    (addr : Nat) (n : Nat) :
    io_read_repeat read_unused chm l addr n = List.replicate n (io_read read_unused chm l addr) := by
  induction n with
  | zero => rfl
  | succ n ih => simp [io_read_repeat, ih, List.replicate_succ]

theorem read_byte_lt (d : io_source_t) (addr : Nat) : d.read_byte addr < 256 := by
  unfold io_source_t.read_byte
  split
  · exact Nat.mod_lt _ (by decide)
  · decide

theorem read_bytes_cons (d : io_source_t) (l : List io_source_t) (addr : Nat) :
    read_bytes (d :: l) addr =
      if d.covers addr then d.read_byte addr :: read_bytes l addr else read_bytes l addr := by
  unfold read_bytes
  by_cases h : d.covers addr <;> simp [List.filter_cons, h]

theorem read_bytes_lt (l : List io_source_t) (addr : Nat) :
    ∀ b ∈ read_bytes l addr, b < 256 := by
  intro b hb
  simp only [read_bytes, List.mem_map] at hb
  obtain ⟨d, _, rfl⟩ := hb
  exact read_byte_lt d addr

/-- The AND accumulated from left to right is the AND of the list. -/
theorem foldl_and_eq (bs : List Nat) (a : Nat) (ha : a < 256) :
    bs.foldl (fun x y => x &&& y) a = and_of_bytes (a :: bs) := by
  induction bs generalizing a with
  | nil =>
    simp only [List.foldl_nil, and_of_bytes, List.foldr_cons, List.foldr_nil]
    have h : (0xff : Nat) = 2 ^ 8 - 1 := by norm_num
    rw [h, Nat.and_pow_two_sub_one_eq_mod, Nat.mod_eq_of_lt (by simpa using ha)]
  | cons b bs ih =>
    simp only [List.foldl_cons]
    rw [ih (a &&& b) (lt_of_le_of_lt Nat.and_le_left ha)]
    simp only [and_of_bytes, List.foldr_cons]
    rw [Nat.land_assoc]

/-- One step of message building succeeds once a message exists or none is needed yet. -/
theorem msg_step_some (found amount : Int) (name : String) (suffix : List (Option String))
    (new_msg : Option String) (h : found = 0 ∨ new_msg.isSome = true) :
    ∃ m, msg_step found amount name suffix new_msg = some (some m) := by
  unfold msg_step
  by_cases h0 : found = 0
  · simp only [h0, if_true, ne_eq, not_true_eq_false, and_false, if_false]
    split <;> exact ⟨_, rfl⟩
  · obtain ⟨m, rfl⟩ := Option.isSome_iff_exists.1 (h.resolve_left h0)
    simp only [h0, if_false, ne_eq, not_false_eq_true, and_true]
    by_cases h1 : found = amount - 1
    · simp only [h1, not_true_eq_false, if_false, if_true]
      exact ⟨_, rfl⟩
    · simp only [h1, not_false_eq_true, if_true, if_false]
      exact ⟨_, rfl⟩

/-- The walk of `io_source_log_collisions` never hands a NULL message to `util_concat`. -/
theorem io_source_log_collisions_walk_some (addr : Nat) (amount : Int) (l : List io_source_t)
    (v : msg_vars) (hv : v.found = 0 ∨ v.new_msg.isSome = true) :
    ∃ v1, io_source_log_collisions_walk addr amount l v = some v1 ∧
      (v1.found = 0 ∨ v1.new_msg.isSome = true) := by
  induction l generalizing v with
  | nil => exact ⟨v, by simp [io_source_log_collisions_walk], hv⟩
  | cons d rest ih =>
    rw [io_source_log_collisions_walk]
    split
    · obtain ⟨m, hm⟩ := msg_step_some v.found amount d.name [] v.new_msg hv
      simp only [hm]
      split
      · exact ⟨_, rfl, Or.inr rfl⟩
      · exact ih _ (Or.inr rfl)
    · exact ih v hv

theorem io_source_log_collisions_some (addr : Nat) (amount : Int) (l : List io_source_t) :
    ∃ ev, io_source_log_collisions addr amount l = some ev := by
  obtain ⟨v1, hv1, hv2⟩ := io_source_log_collisions_walk_some addr amount l msg_vars.init
    (Or.inl rfl)
  unfold io_source_log_collisions
  rw [hv1]
  by_cases h0 : v1.found = 0
  · simp [h0]
  · obtain ⟨m, hm⟩ := Option.isSome_iff_exists.1 (hv2.resolve_left h0)
    simp [h0, hm]

/-- AND-wires, after the first valid response: `realval` accumulates the AND of the bytes
and every byte different from `firstval` is counted. -/
theorem io_read_walk_and_later (addr : Nat) (l : List io_source_t)
    (v : io_read_vars) (tr : List Event)
    (hall : ∀ d ∈ l, d.covers addr → d.read.isSome = true ∧ d.io_source_valid ≠ 0 ∧
      d.io_source_prio = IO_PRIO_NORMAL)
    (hv : v.io_source_valid ≠ 0) :
    ∃ v1, io_read_walk IO_COLLISION_METHOD_AND_WIRES addr l v tr =
        .finished v1 (tr ++ read_calls l addr) ∧
      v1.io_source_valid ≠ 0 ∧
      v1.realval = (read_bytes l addr).foldl (fun x y => x &&& y) v.realval ∧
      v.io_source_counter ≤ v1.io_source_counter ∧
      ((∃ b ∈ read_bytes l addr, b ≠ v.firstval) →
        v.io_source_counter + 1 ≤ v1.io_source_counter) := by
  induction l generalizing v tr with
  | nil =>
    exact ⟨v, by simp [io_read_walk, read_calls_nil], hv, by simp [read_bytes], le_refl _,
      by simp [read_bytes]⟩
  | cons d rest ih =>
    have hrest : ∀ x ∈ rest, x.covers addr → x.read.isSome = true ∧ x.io_source_valid ≠ 0 ∧
        x.io_source_prio = IO_PRIO_NORMAL :=
      fun x hx => hall x (List.mem_cons_of_mem _ hx)
    rw [read_calls_cons, read_bytes_cons]
    by_cases hc : d.covers addr
    · obtain ⟨hread, hvalid, hprio⟩ := hall d (List.mem_cons_self _ _) hc
      have hresp : d.responds addr = true := by simp [io_source_t.responds, hread, hc]
      simp only [hresp, hc, if_true]
      rw [io_read_walk_next_normal _ addr d rest v tr hresp hvalid hprio hv]
      obtain ⟨v1, hv1, hv2, hv3, hv4, hv5⟩ :=
        ih (v.next_normal IO_COLLISION_METHOD_AND_WIRES d addr)
          (tr ++ [Event.read d (d.masked addr)]) hrest hv
      have hcnt : v.io_source_counter ≤
          (v.next_normal IO_COLLISION_METHOD_AND_WIRES d addr).io_source_counter := by
        simp only [io_read_vars.next_normal]
        split <;> omega
      refine ⟨v1, by simpa using hv1, hv2, ?_, le_trans hcnt hv4, ?_⟩
      · rw [hv3]
        simp [io_read_vars.next_normal, IO_COLLISION_METHOD_AND_WIRES,
          IO_COLLISION_METHOD_DETACH_LAST]
      · rintro ⟨b, hb, hne⟩
        rcases List.mem_cons.1 hb with h | h
        · subst h
          have : (v.next_normal IO_COLLISION_METHOD_AND_WIRES d addr).io_source_counter =
              v.io_source_counter + 1 := by
            simp [io_read_vars.next_normal, hne]
          omega
        · have := hv5 ⟨b, h, by simpa [io_read_vars.next_normal] using hne⟩
          omega
    · have hresp : d.responds addr = false := by simp [io_source_t.responds, hc]
      rw [io_read_walk_skip _ addr d rest v tr hresp]
      simp only [hresp, hc, Bool.false_eq_true, if_false]
      exact ih v tr hrest hv

/-- AND-wires, from the start of the walk. -/
theorem io_read_walk_and_start (addr : Nat) (l : List io_source_t)
    (v : io_read_vars) (tr : List Event)
    (hall : ∀ d ∈ l, d.covers addr → d.read.isSome = true ∧ d.io_source_valid ≠ 0 ∧
      d.io_source_prio = IO_PRIO_NORMAL)
    (hv : v.io_source_valid = 0) :
    ∃ v1, io_read_walk IO_COLLISION_METHOD_AND_WIRES addr l v tr =
        .finished v1 (tr ++ read_calls l addr) ∧
      ((read_bytes l addr = [] ∧ v1 = v) ∨
        ∃ b bs, read_bytes l addr = b :: bs ∧ v1.io_source_valid ≠ 0 ∧
          v1.realval = bs.foldl (fun x y => x &&& y) b ∧
          ((∃ x ∈ bs, x ≠ b) → v.io_source_counter + 2 ≤ v1.io_source_counter)) := by
  induction l generalizing v tr with
  | nil => exact ⟨v, by simp [io_read_walk, read_calls_nil], Or.inl ⟨rfl, rfl⟩⟩
  | cons d rest ih =>
    have hrest : ∀ x ∈ rest, x.covers addr → x.read.isSome = true ∧ x.io_source_valid ≠ 0 ∧
        x.io_source_prio = IO_PRIO_NORMAL :=
      fun x hx => hall x (List.mem_cons_of_mem _ hx)
    rw [read_calls_cons, read_bytes_cons]
    by_cases hc : d.covers addr
    · obtain ⟨hread, hvalid, hprio⟩ := hall d (List.mem_cons_self _ _) hc
      have hresp : d.responds addr = true := by simp [io_source_t.responds, hread, hc]
      have hnh : d.io_source_prio ≠ IO_PRIO_HIGH := by rw [hprio]; decide
      have hnl : d.io_source_prio ≠ IO_PRIO_LOW := by rw [hprio]; decide
      simp only [hresp, hc, if_true]
      rw [io_read_walk_first _ addr d rest v tr hresp hvalid hnh hv]
      obtain ⟨v1, hv1, hv2, hv3, _, hv5⟩ :=
        io_read_walk_and_later addr rest (v.first_valid d addr)
          (tr ++ [Event.read d (d.masked addr)]) hrest (by simp [io_read_vars.first_valid])
      refine ⟨v1, by simpa using hv1, Or.inr ⟨_, _, rfl, hv2, ?_, ?_⟩⟩
      · rw [hv3]; simp [io_read_vars.first_valid]
      · intro hx
        have := hv5 (by simpa [io_read_vars.first_valid] using hx)
        simp only [io_read_vars.first_valid, hnl, ne_eq, not_false_eq_true, if_true] at this
        omega
    · have hresp : d.responds addr = false := by simp [io_source_t.responds, hc]
      rw [io_read_walk_skip _ addr d rest v tr hresp]
      simp only [hresp, hc, Bool.false_eq_true, if_false]
      exact ih v tr hrest hv

/-! ## Claims on `io_read` -/

/-- C1, at a failing input: the list holds the valid NORMAL device A, which drives $12, followed
by the device B whose `io_source_valid` is clear and which drives $34, both covering $FD13.
Exactly one valid device responds, and under every collision method `io_read` returns $34,
the byte of the device that is not valid, not the $12 of the valid one: the final
`return retval` hands back the byte read last, whichever device it came from. -/
theorem io_read_single_valid_C1_failing_input :
    ∀ chm : Int,
      io_read sample_unused chm
          [sample_device "A" 1 IO_PRIO_NORMAL 0 0x12, sample_device "B" 0 IO_PRIO_NORMAL 1 0x34]
          0xfd13 =
        some (0x34,
          [Event.read (sample_device "A" 1 IO_PRIO_NORMAL 0 0x12) 3,
            Event.read (sample_device "B" 0 IO_PRIO_NORMAL 1 0x34) 3]) ∧
      (sample_device "A" 1 IO_PRIO_NORMAL 0 0x12).read_byte 0xfd13 = 0x12 := by
  intro chm
  exact ⟨rfl, rfl⟩

/-- C2: for a region holding exactly the devices A (registered first) and B, both valid, of NORMAL
priority, with read callbacks, covering the address and driving different bytes, `io_read` under
the detach-all method returns the byte of `read_unused(addr)`, and after the two read callbacks
it logs and shows the message "I/O read collision at %X from A and B." followed by a newline and
"All the named devices will be detached.", then runs `io_source_detach` on the entry of A and on
the entry of B, in this order, and does nothing else (`evA`, `evB` are what `io_source_detach`
does for each, its `assert` holding). -/
theorem io_read_detach_all_two_C2 (read_unused : Nat → Nat) (A B : io_source_t) (addr : Nat)
    (evA evB : List Event)
    (hA : A.responds addr = true) (hAv : A.io_source_valid ≠ 0)
    (hAp : A.io_source_prio = IO_PRIO_NORMAL)
    (hB : B.responds addr = true) (hBv : B.io_source_valid ≠ 0)
    (hBp : B.io_source_prio = IO_PRIO_NORMAL)
    (hne : A.read_byte addr ≠ B.read_byte addr)
    (hdA : io_source_detach (A.detach_entry 0) = some evA)
    (hdB : io_source_detach (B.detach_entry 0) = some evB) :
    io_read read_unused IO_COLLISION_METHOD_DETACH_ALL [A, B] addr =
      some (read_unused addr % 256,
        [Event.read A (A.masked addr), Event.read B (B.masked addr),
          Event.log_message
            (collision_text A.name B.name ++ ".\nAll the named devices will be detached.") addr,
          Event.ui_error
            (collision_text A.name B.name ++ ".\nAll the named devices will be detached.") addr]
          ++ evA ++ evB) := by
  have hAc := responds_covers A addr hA
  have hBc := responds_covers B addr hB
  have hh : io_source_msg_detach_all addr 2 [A, B] =
      some ([Event.log_message
            (collision_text A.name B.name ++ ".\nAll the named devices will be detached.") addr,
          Event.ui_error
            (collision_text A.name B.name ++ ".\nAll the named devices will be detached.") addr]
          ++ evA ++ evB) := by
    simp only [io_source_t.detach_entry] at hdA hdB
    simp [io_source_msg_detach_all, io_source_msg_detach_all_walk, msg_step, util_concat,
      detach_each, msg_vars.init, hAv, hBv, hAp, hBp, hAc, hBc, hdA, hdB, collision_text]
  unfold io_read
  rw [io_read_walk_two _ addr A B hA hAv hAp hB hBv hBp]
  simp [io_read_vars.first_valid, io_read_vars.next_normal, io_read_vars.init, hAp,
    Ne.symm hne, hh, IO_PRIO_NORMAL, IO_PRIO_LOW]

/-- C2 at two devices of the $FD00 page driving $12 and $34. -/
theorem io_read_detach_all_two_C2_witness :
    io_read sample_unused IO_COLLISION_METHOD_DETACH_ALL
        [sample_device "A" 1 IO_PRIO_NORMAL 0 0x12, sample_device "B" 1 IO_PRIO_NORMAL 1 0x34]
        0xfd13 =
      some (sample_unused 0xfd13 % 256,
        [Event.read (sample_device "A" 1 IO_PRIO_NORMAL 0 0x12)
            ((sample_device "A" 1 IO_PRIO_NORMAL 0 0x12).masked 0xfd13),
          Event.read (sample_device "B" 1 IO_PRIO_NORMAL 1 0x34)
            ((sample_device "B" 1 IO_PRIO_NORMAL 1 0x34).masked 0xfd13),
          Event.log_message
            (collision_text (sample_device "A" 1 IO_PRIO_NORMAL 0 0x12).name
              (sample_device "B" 1 IO_PRIO_NORMAL 1 0x34).name ++
              ".\nAll the named devices will be detached.") 0xfd13,
          Event.ui_error
            (collision_text (sample_device "A" 1 IO_PRIO_NORMAL 0 0x12).name
              (sample_device "B" 1 IO_PRIO_NORMAL 1 0x34).name ++
              ".\nAll the named devices will be detached.") 0xfd13]
          ++ [Event.resources_set_int "AEnabled" 0] ++ [Event.resources_set_int "BEnabled" 0]) :=
  io_read_detach_all_two_C2 sample_unused _ _ 0xfd13 _ _ (by decide) (by decide) (by decide)
    (by decide) (by decide) (by decide) (by decide) rfl rfl

/-- C3: for a region holding exactly the devices A and B, both valid, of NORMAL priority, with read
callbacks, covering the address and driving different bytes, where `lo` is the one of the two
with the smaller `order` and `hi` the other, `io_read` under the detach-last method returns the
byte read from `lo`, names `lo` as the device that is kept, and runs `io_source_detach` on the
entry of `hi` only (`ev` is what it does there): `lo` stays attached. -/
theorem io_read_detach_last_two_C3 (read_unused : Nat → Nat) (A B lo hi : io_source_t)
    (addr : Nat) (ev : List Event)
    (hA : A.responds addr = true) (hAv : A.io_source_valid ≠ 0)
    (hAp : A.io_source_prio = IO_PRIO_NORMAL)
    (hB : B.responds addr = true) (hBv : B.io_source_valid ≠ 0)
    (hBp : B.io_source_prio = IO_PRIO_NORMAL)
    (hne : A.read_byte addr ≠ B.read_byte addr)
    (hlohi : (lo = A ∧ hi = B) ∨ (lo = B ∧ hi = A))
    (hord : lo.order < hi.order)
    (hd : io_source_detach (hi.detach_entry hi.order) = some ev) :
    io_read read_unused IO_COLLISION_METHOD_DETACH_LAST [A, B] addr =
      some (lo.read_byte addr,
        [Event.read A (A.masked addr), Event.read B (B.masked addr),
          Event.log_message (collision_text A.name B.name ++ ".\nAll devices except " ++
            lo.name ++ " will be detached.") addr,
          Event.ui_error (collision_text A.name B.name ++ ".\nAll devices except " ++
            lo.name ++ " will be detached.") addr] ++ ev) := by
  have hAc := responds_covers A addr hA
  have hBc := responds_covers B addr hB
  simp only [io_source_t.detach_entry] at hd
  unfold io_read
  rw [io_read_walk_two _ addr A B hA hAv hAp hB hBv hBp]
  rcases hlohi with ⟨rfl, rfl⟩ | ⟨rfl, rfl⟩
  · have h1 : ¬ hi.order < lo.order := by omega
    have h2 : ¬ hi.order = lo.order := by omega
    simp [io_read_vars.first_valid, io_read_vars.next_normal, io_read_vars.init, hAp,
      Ne.symm hne, IO_PRIO_NORMAL, IO_PRIO_LOW, h1, h2,
      io_source_msg_detach_last, io_source_msg_detach_last_walk, msg_step, util_concat,
      detach_each, msg_vars.init, hAv, hBv, hBp, hAc, hBc, hd, collision_text,
      IO_COLLISION_METHOD_DETACH_LAST, IO_COLLISION_METHOD_DETACH_ALL]
  · have h2 : ¬ hi.order = lo.order := by omega
    simp [io_read_vars.first_valid, io_read_vars.next_normal, io_read_vars.init, hAp,
      Ne.symm hne, IO_PRIO_NORMAL, IO_PRIO_LOW, hord, h2,
      io_source_msg_detach_last, io_source_msg_detach_last_walk, msg_step, util_concat,
      detach_each, msg_vars.init, hAv, hBv, hBp, hAc, hBc, hd, collision_text,
      IO_COLLISION_METHOD_DETACH_LAST, IO_COLLISION_METHOD_DETACH_ALL]

/-- C3 at two devices where the one registered second has the smaller order. -/
theorem io_read_detach_last_two_C3_witness :
    io_read sample_unused IO_COLLISION_METHOD_DETACH_LAST
        [sample_device "A" 1 IO_PRIO_NORMAL 5 0x12, sample_device "B" 1 IO_PRIO_NORMAL 2 0x34]
        0xfd13 =
      some ((sample_device "B" 1 IO_PRIO_NORMAL 2 0x34).read_byte 0xfd13,
        [Event.read (sample_device "A" 1 IO_PRIO_NORMAL 5 0x12)
            ((sample_device "A" 1 IO_PRIO_NORMAL 5 0x12).masked 0xfd13),
          Event.read (sample_device "B" 1 IO_PRIO_NORMAL 2 0x34)
            ((sample_device "B" 1 IO_PRIO_NORMAL 2 0x34).masked 0xfd13),
          Event.log_message (collision_text (sample_device "A" 1 IO_PRIO_NORMAL 5 0x12).name
            (sample_device "B" 1 IO_PRIO_NORMAL 2 0x34).name ++ ".\nAll devices except " ++
            (sample_device "B" 1 IO_PRIO_NORMAL 2 0x34).name ++ " will be detached.") 0xfd13,
          Event.ui_error (collision_text (sample_device "A" 1 IO_PRIO_NORMAL 5 0x12).name
            (sample_device "B" 1 IO_PRIO_NORMAL 2 0x34).name ++ ".\nAll devices except " ++
            (sample_device "B" 1 IO_PRIO_NORMAL 2 0x34).name ++ " will be detached.") 0xfd13]
          ++ [Event.resources_set_int "AEnabled" 0]) :=
  io_read_detach_last_two_C3 sample_unused _ _ _
    (sample_device "A" 1 IO_PRIO_NORMAL 5 0x12) 0xfd13 _
    (by decide) (by decide) (by decide) (by decide) (by decide) (by decide) (by decide)
    (Or.inr ⟨rfl, rfl⟩) (by decide) rfl

/-- C4: when every device that covers the address is valid, of NORMAL priority and has a read
callback, and two of them drive different bytes, `io_read` under the AND-wires method returns
the bitwise AND of the bytes of all the devices that cover the address. -/
theorem io_read_and_wires_C4 (read_unused : Nat → Nat) (l : List io_source_t) (addr : Nat)
    (hall : ∀ d ∈ l, d.covers addr → d.read.isSome = true ∧ d.io_source_valid ≠ 0 ∧
      d.io_source_prio = IO_PRIO_NORMAL)
    (hdiff : ∃ d1 ∈ l, ∃ d2 ∈ l, d1.covers addr ∧ d2.covers addr ∧
      d1.read_byte addr ≠ d2.read_byte addr) :
    ∃ calls, io_read read_unused IO_COLLISION_METHOD_AND_WIRES l addr =
      some (and_of_bytes (read_bytes l addr), calls) := by
  obtain ⟨d1, hd1, d2, hd2, hc1, hc2, hne⟩ := hdiff
  have hm1 : d1.read_byte addr ∈ read_bytes l addr := by
    simp only [read_bytes, List.mem_map, List.mem_filter, decide_eq_true_eq]
    exact ⟨d1, ⟨hd1, hc1⟩, rfl⟩
  have hm2 : d2.read_byte addr ∈ read_bytes l addr := by
    simp only [read_bytes, List.mem_map, List.mem_filter, decide_eq_true_eq]
    exact ⟨d2, ⟨hd2, hc2⟩, rfl⟩
  obtain ⟨v1, hv1, hv2⟩ := io_read_walk_and_start addr l io_read_vars.init [] hall rfl
  rcases hv2 with ⟨hnil, _⟩ | ⟨b, bs, hbs, hvalid, hreal, hcount⟩
  · rw [hnil] at hm1; simp at hm1
  · rw [hbs] at hm1 hm2
    have hex : ∃ x ∈ bs, x ≠ b := by
      rcases List.mem_cons.1 hm1 with h1 | h1
      · rcases List.mem_cons.1 hm2 with h2 | h2
        · exact absurd (h1.trans h2.symm) hne
        · exact ⟨_, h2, fun h => hne (h1.trans h.symm)⟩
      · by_cases hb : d1.read_byte addr = b
        · rcases List.mem_cons.1 hm2 with h2 | h2
          · exact absurd (hb.trans h2.symm) hne
          · exact ⟨_, h2, fun h => hne (hb.trans h.symm)⟩
        · exact ⟨_, h1, hb⟩
    have hcnt : v1.io_source_counter > 1 := by
      have := hcount hex
      simp only [io_read_vars.init] at this
      omega
    have hblt : b < 256 := read_bytes_lt l addr b (by rw [hbs]; exact List.mem_cons_self _ _)
    obtain ⟨ev, hev⟩ := io_source_log_collisions_some addr v1.io_source_counter l
    refine ⟨read_calls l addr ++ ev, ?_⟩
    unfold io_read
    rw [hv1]
    simp only [hvalid, if_false, hcnt, not_true_eq_false, hev, hbs, hreal,
      foldl_and_eq bs b hblt]
    simp [IO_COLLISION_METHOD_AND_WIRES, IO_COLLISION_METHOD_DETACH_ALL,
      IO_COLLISION_METHOD_DETACH_LAST]

/-- C4 at three devices driving $1C, $1A and $1C: the result is $18. -/
theorem io_read_and_wires_C4_witness :
    ∃ calls, io_read sample_unused IO_COLLISION_METHOD_AND_WIRES
        [sample_device "A" 1 IO_PRIO_NORMAL 0 0x1c, sample_device "B" 1 IO_PRIO_NORMAL 1 0x1a,
          sample_device "C" 1 IO_PRIO_NORMAL 2 0x1c] 0xfd13 =
      some (0x18, calls) :=
  io_read_and_wires_C4 sample_unused
    [sample_device "A" 1 IO_PRIO_NORMAL 0 0x1c, sample_device "B" 1 IO_PRIO_NORMAL 1 0x1a,
      sample_device "C" 1 IO_PRIO_NORMAL 2 0x1c] 0xfd13 (by decide)
    ⟨sample_device "A" 1 IO_PRIO_NORMAL 0 0x1c, by simp,
      sample_device "B" 1 IO_PRIO_NORMAL 1 0x1a, by simp, by decide, by decide, by decide⟩

/-- C5: when a valid HIGH priority device `h` with a read callback covers the address, and no
device registered before it has HIGH priority (they may be NORMAL devices covering the same
address, in any number; the devices after it are arbitrary), `io_read` returns the byte read
from `h` under every collision method, and all it does is call the read callbacks of the
responding devices up to `h`: no detach action, no collision message. -/
theorem io_read_high_wins_C5 (read_unused : Nat → Nat) (chm : Int)
    (pre post : List io_source_t) (h : io_source_t) (addr : Nat)
    (hresp : h.responds addr = true) (hvalid : h.io_source_valid ≠ 0)
    (hhigh : h.io_source_prio = IO_PRIO_HIGH)
    (hpre : ∀ d ∈ pre, d.io_source_prio ≠ IO_PRIO_HIGH) :
    io_read read_unused chm (pre ++ h :: post) addr =
      some (h.read_byte addr, read_calls pre addr ++ [Event.read h (h.masked addr)]) := by
  obtain ⟨v1, hv1⟩ := io_read_walk_finishes chm addr pre io_read_vars.init [] hpre
  unfold io_read
  rw [io_read_walk_append chm addr pre (h :: post) _ _ _ _ hv1,
    io_read_walk_high chm addr h post v1 _ hresp hvalid hhigh]
  simp

/-- C5 at a HIGH priority device between colliding NORMAL priority devices. -/
theorem io_read_high_wins_C5_witness :
    io_read sample_unused IO_COLLISION_METHOD_DETACH_ALL
        ([sample_device "A" 1 IO_PRIO_NORMAL 0 0x12, sample_device "B" 1 IO_PRIO_NORMAL 1 0x34] ++
          sample_device "H" 1 IO_PRIO_HIGH 2 0x56 :: [sample_device "C" 1 IO_PRIO_NORMAL 3 0x78])
        0xfd13 =
      some ((sample_device "H" 1 IO_PRIO_HIGH 2 0x56).read_byte 0xfd13,
        read_calls [sample_device "A" 1 IO_PRIO_NORMAL 0 0x12,
            sample_device "B" 1 IO_PRIO_NORMAL 1 0x34] 0xfd13 ++
          [Event.read (sample_device "H" 1 IO_PRIO_HIGH 2 0x56)
            ((sample_device "H" 1 IO_PRIO_HIGH 2 0x56).masked 0xfd13)]) :=
  io_read_high_wins_C5 sample_unused IO_COLLISION_METHOD_DETACH_ALL
    [sample_device "A" 1 IO_PRIO_NORMAL 0 0x12, sample_device "B" 1 IO_PRIO_NORMAL 1 0x34]
    [sample_device "C" 1 IO_PRIO_NORMAL 3 0x78] (sample_device "H" 1 IO_PRIO_HIGH 2 0x56) 0xfd13
    (by decide) (by decide) (by decide) (by decide)

/-- C6: when every device that covers the address is valid, of NORMAL priority, has a read
callback and drives the same byte `b`, and there is such a device, `io_read` returns `b` under
every collision method and all it does is call the read callbacks of the responding devices:
no detach action and no collision message, however many times the read is repeated. -/
theorem io_read_same_byte_C6 (read_unused : Nat → Nat) (chm : Int) (l : List io_source_t)
    (addr b : Nat)
    (hall : ∀ d ∈ l, d.covers addr → d.read.isSome = true ∧ d.io_source_valid ≠ 0 ∧
      d.io_source_prio = IO_PRIO_NORMAL ∧ d.read_byte addr = b)
    (hsome : ∃ d ∈ l, d.covers addr) :
    io_read read_unused chm l addr = some (b, read_calls l addr) ∧
      ∀ n, io_read_repeat read_unused chm l addr n =
        List.replicate n (some (b, read_calls l addr)) := by
  have hone : io_read read_unused chm l addr = some (b, read_calls l addr) := by
    obtain ⟨v1, hv1, hv2⟩ := io_read_walk_agree chm addr b l io_read_vars.init [] hall
      (Or.inl ⟨rfl, rfl⟩)
    obtain ⟨x, hx, hxc⟩ := hsome
    rcases hv2 with ⟨_, h2⟩ | ⟨h1, h2, h3⟩
    · exact absurd hxc (h2 x hx)
    · unfold io_read
      rw [hv1]
      have h4 : ¬ v1.io_source_counter > 1 := by omega
      simp [h1, h4, h3]
  refine ⟨hone, fun n => ?_⟩
  rw [io_read_repeat_eq, hone]

/-- C6 at two devices that both drive $12. -/
theorem io_read_same_byte_C6_witness :
    io_read sample_unused IO_COLLISION_METHOD_DETACH_ALL
        [sample_device "A" 1 IO_PRIO_NORMAL 0 0x12, sample_device "B" 1 IO_PRIO_NORMAL 1 0x12]
        0xfd13 =
      some (0x12, read_calls [sample_device "A" 1 IO_PRIO_NORMAL 0 0x12,
        sample_device "B" 1 IO_PRIO_NORMAL 1 0x12] 0xfd13) ∧
    ∀ n, io_read_repeat sample_unused IO_COLLISION_METHOD_DETACH_ALL
        [sample_device "A" 1 IO_PRIO_NORMAL 0 0x12, sample_device "B" 1 IO_PRIO_NORMAL 1 0x12]
        0xfd13 n =
      List.replicate n (some (0x12, read_calls [sample_device "A" 1 IO_PRIO_NORMAL 0 0x12,
        sample_device "B" 1 IO_PRIO_NORMAL 1 0x12] 0xfd13)) :=
  io_read_same_byte_C6 sample_unused IO_COLLISION_METHOD_DETACH_ALL
    [sample_device "A" 1 IO_PRIO_NORMAL 0 0x12, sample_device "B" 1 IO_PRIO_NORMAL 1 0x12]
    0xfd13 0x12 (by decide) ⟨sample_device "A" 1 IO_PRIO_NORMAL 0 0x12, by simp, by decide⟩

/-- C7: when no device that responds at the address (read callback present, range covering the
address) has `io_source_valid` set, `io_read` returns the byte of `read_unused(addr)` under
every collision method; the read callbacks of the responding devices have been called. The
empty list is included. -/
theorem io_read_floor_C7 (read_unused : Nat → Nat) (chm : Int) (l : List io_source_t)
    (addr : Nat) (h : ∀ d ∈ l, d.responds addr = true → d.io_source_valid = 0) :
    io_read read_unused chm l addr = some (read_unused addr % 256, read_calls l addr) := by
  have key : ∀ (l : List io_source_t) (v : io_read_vars) (tr : List Event),
      (∀ d ∈ l, d.responds addr = true → d.io_source_valid = 0) →
      ∃ v1, io_read_walk chm addr l v tr = .finished v1 (tr ++ read_calls l addr) ∧
        v1.io_source_valid = v.io_source_valid := by
    intro l
    induction l with
    | nil => intro v tr _; exact ⟨v, by simp [io_read_walk, read_calls_nil]⟩
    | cons d rest ih =>
      intro v tr hl
      have hrest : ∀ x ∈ rest, x.responds addr = true → x.io_source_valid = 0 :=
        fun x hx => hl x (List.mem_cons_of_mem _ hx)
      rw [read_calls_cons]
      cases hresp : d.responds addr with
      | false =>
        rw [io_read_walk_skip chm addr d rest v tr hresp]
        simpa using ih v tr hrest
      | true =>
        rw [io_read_walk_invalid chm addr d rest v tr hresp
          (hl d (List.mem_cons_self _ _) hresp)]
        obtain ⟨v1, hv1, hv2⟩ := ih { v with retval := d.read_byte addr }
          (tr ++ [Event.read d (d.masked addr)]) hrest
        exact ⟨v1, by simpa using hv1, hv2⟩
  obtain ⟨v1, hv1, hv2⟩ := key l io_read_vars.init [] h
  unfold io_read
  rw [hv1]
  simp [hv2, io_read_vars.init]

/-- C7 at two responding devices whose `io_source_valid` is clear. -/
theorem io_read_floor_C7_witness :
    io_read sample_unused IO_COLLISION_METHOD_DETACH_LAST
        [sample_device "A" 0 IO_PRIO_NORMAL 0 0x12, sample_device "B" 0 IO_PRIO_HIGH 1 0x34]
        0xfd13 =
      some (sample_unused 0xfd13 % 256,
        read_calls [sample_device "A" 0 IO_PRIO_NORMAL 0 0x12,
          sample_device "B" 0 IO_PRIO_HIGH 1 0x34] 0xfd13) :=
  io_read_floor_C7 sample_unused IO_COLLISION_METHOD_DETACH_LAST
    [sample_device "A" 0 IO_PRIO_NORMAL 0 0x12, sample_device "B" 0 IO_PRIO_HIGH 1 0x34]
    0xfd13 (by decide)

/-! ## Lemmas on the walk of `io_store` -/

/-- The store callbacks called during the walk. -/
theorem io_store_walk_calls (addr value : Nat) (l : List io_source_t) (v : io_store_vars)
    (tr : List Event) :
    (io_store_walk addr value l v tr).2 = tr ++
      (l.filter (fun d => d.accepts addr && decide (d.io_source_prio ≠ IO_PRIO_LOW))).map
        (fun d => Event.store d (d.masked addr) value) := by
  induction l generalizing v tr with
  | nil => simp [io_store_walk]
  | cons d rest ih =>
    unfold io_store_walk
    by_cases hs : d.store = true <;> by_cases hc : d.covers addr <;>
      by_cases hp : d.io_source_prio = IO_PRIO_LOW <;>
      simp [hs, hc, hp, ih, io_source_t.accepts, List.filter_cons]

theorem io_store_walk_writes (addr value : Nat) (l : List io_source_t) (v : io_store_vars)
    (tr : List Event) :
    (io_store_walk addr value l v tr).1.writes = v.writes +
      ((l.filter (fun d => d.accepts addr && decide (d.io_source_prio ≠ IO_PRIO_LOW))).length : Int) := by
  induction l generalizing v tr with
  | nil => simp [io_store_walk]
  | cons d rest ih =>
    unfold io_store_walk
    by_cases hs : d.store = true <;> by_cases hc : d.covers addr <;>
      by_cases hp : d.io_source_prio = IO_PRIO_LOW <;>
      simp [hs, hc, hp, ih, io_source_t.accepts, List.filter_cons]
    omega

/-- Devices that take no deferred write leave the deferred callback as it is. -/
theorem io_store_walk_deferred_skip (addr value : Nat) (l : List io_source_t) (v : io_store_vars)
    (tr : List Event)
    (h : ∀ x ∈ l, ¬ (x.accepts addr = true ∧ x.io_source_prio = IO_PRIO_LOW)) :
    (io_store_walk addr value l v tr).1.store = v.store ∧
      (io_store_walk addr value l v tr).1.addy = v.addy := by
  induction l generalizing v tr with
  | nil => simp [io_store_walk]
  | cons d rest ih =>
    have hd := h d (List.mem_cons_self _ _)
    have hr : ∀ x ∈ rest, ¬ (x.accepts addr = true ∧ x.io_source_prio = IO_PRIO_LOW) :=
      fun x hx => h x (List.mem_cons_of_mem _ hx)
    unfold io_store_walk
    by_cases hs : d.store = true <;> by_cases hc : d.covers addr <;>
      by_cases hp : d.io_source_prio = IO_PRIO_LOW <;>
      simp_all [io_source_t.accepts]

/-- After the last device that takes a deferred write, the deferred callback is its own. -/
theorem io_store_walk_deferred_last (addr value : Nat) (pre post : List io_source_t)
    (d : io_source_t) (v : io_store_vars) (tr : List Event)
    (hd : d.accepts addr = true) (hlow : d.io_source_prio = IO_PRIO_LOW)
    (hpost : ∀ x ∈ post, ¬ (x.accepts addr = true ∧ x.io_source_prio = IO_PRIO_LOW)) :
    (io_store_walk addr value (pre ++ d :: post) v tr).1.store = some d ∧
      (io_store_walk addr value (pre ++ d :: post) v tr).1.addy = d.masked addr := by
  induction pre generalizing v tr with
  | nil =>
    simp only [List.nil_append]
    unfold io_store_walk
    simp only [io_source_t.accepts, Bool.and_eq_true, decide_eq_true_eq] at hd
    simp only [hd.1, hd.2, hlow, if_true, ne_eq, not_true_eq_false, if_false]
    have := io_store_walk_deferred_skip addr value post
      { v with addy := d.masked addr, store := some d } tr hpost
    simpa using this
  | cons p pre ih =>
    simp only [List.cons_append]
    unfold io_store_walk
    split
    · split
      · split
        · exact ih _ _
        · exact ih _ _
      · exact ih _ _
    · exact ih _ _

theorem masked_eq (d : io_source_t) (addr : Nat) (h : addr < 65536) :
    d.masked addr = addr &&& d.address_mask := by
  unfold io_source_t.masked
  exact Nat.mod_eq_of_lt (lt_of_le_of_lt Nat.and_le_left h)


/-- The whole of `io_store`: the immediate writes, then the deferred one if there is one to
make. -/
theorem io_store_eq (l : List io_source_t) (addr value : Nat) :
    io_store l addr value =
      match (io_store_walk addr value l io_store_vars.init []).1.store with
      | some d =>
        if (io_store_walk addr value l io_store_vars.init []).1.writes = 0 ∧
            (io_store_walk addr value l io_store_vars.init []).1.addy ≠ 0xffff then
          (io_store_walk addr value l io_store_vars.init []).2 ++
            [Event.store d (io_store_walk addr value l io_store_vars.init []).1.addy value]
        else (io_store_walk addr value l io_store_vars.init []).2
      | none => (io_store_walk addr value l io_store_vars.init []).2 := by
  unfold io_store
  rfl

/-- The deferred callback is always that of a LOW priority device. -/
theorem io_store_walk_deferred_low (addr value : Nat) (l : List io_source_t) (v : io_store_vars)
    (tr : List Event) (hv : ∀ d, v.store = some d → d.io_source_prio = IO_PRIO_LOW) :
    ∀ d, (io_store_walk addr value l v tr).1.store = some d → d.io_source_prio = IO_PRIO_LOW := by
  induction l generalizing v tr with
  | nil => simpa [io_store_walk] using hv
  | cons p rest ih =>
    unfold io_store_walk
    split
    · split
      · split
        · exact ih _ _ hv
        · rename_i hp
          refine ih _ _ ?_
          intro d hd
          simp only [Option.some.injEq] at hd
          subst hd
          simpa using hp
      · exact ih _ _ hv
    · exact ih _ _ hv

/-! ## Claims on `io_store` -/

/-- The deferred write of `io_store`: in a list in which the devices that cover the address
and have a store callback are all of LOW priority, `d` being the last of them, the one call is
the store callback of `d`, as long as the masked address is not $FFFF, the initial value of
`addy`. -/
theorem io_store_low_only_masked (pre post : List io_source_t) (d : io_source_t)
    (addr value : Nat) (haddr : addr < 65536)
    (hd : d.accepts addr = true) (hlow : d.io_source_prio = IO_PRIO_LOW)
    (hpre : ∀ x ∈ pre, x.accepts addr = true → x.io_source_prio = IO_PRIO_LOW)
    (hpost : ∀ x ∈ post, x.accepts addr = false)
    (hmask : addr &&& d.address_mask ≠ 0xffff) :
    io_store (pre ++ d :: post) addr value = [Event.store d (addr &&& d.address_mask) value] := by
  have hlast := io_store_walk_deferred_last addr value pre post d io_store_vars.init [] hd hlow
    (fun x hx h => by simp [hpost x hx] at h)
  have hcalls := io_store_walk_calls addr value (pre ++ d :: post) io_store_vars.init []
  have hwrites := io_store_walk_writes addr value (pre ++ d :: post) io_store_vars.init []
  have hnone : (pre ++ d :: post).filter
      (fun x => x.accepts addr && decide (x.io_source_prio ≠ IO_PRIO_LOW)) = [] := by
    rw [List.filter_eq_nil_iff]
    intro x hx
    rcases List.mem_append.1 hx with h | h
    · by_cases ha : x.accepts addr = true
      · simp [ha, hpre x h ha]
      · simp [ha]
    · rcases List.mem_cons.1 h with h | h
      · subst h; simp [hlow]
      · simp [hpost x h]
  rw [hnone] at hcalls hwrites
  rw [io_store_eq, hlast.1]
  simp only [hlast.2, hcalls, hwrites, masked_eq d addr haddr]
  simp [io_store_vars.init, hmask]

/-- C8: for an address below $FFFF (every address of the pages $FD00 and $FE00, for which
`plus4io_fd00_store` and `plus4io_fe00_store` call `io_store`) and a list in which the devices
that cover the address and have a store callback are all of LOW priority, `d` being the last
of them in registration order, `io_store` calls exactly one store callback, that of `d`, with
the arguments (addr AND the address mask of `d`, value). -/
theorem io_store_low_only_C8 (pre post : List io_source_t) (d : io_source_t)
    (addr value : Nat) (haddr : addr < 0xffff)
    (hd : d.accepts addr = true) (hlow : d.io_source_prio = IO_PRIO_LOW)
    (hpre : ∀ x ∈ pre, x.accepts addr = true → x.io_source_prio = IO_PRIO_LOW)
    (hpost : ∀ x ∈ post, x.accepts addr = false) :
    io_store (pre ++ d :: post) addr value = [Event.store d (addr &&& d.address_mask) value] := by
  have hmask : addr &&& d.address_mask ≠ 0xffff := by
    have h1 : addr &&& d.address_mask ≤ addr := Nat.and_le_left
    omega
  exact io_store_low_only_masked pre post d addr value (by omega) hd hlow hpre hpost hmask

/-- C8 at two LOW priority mirrors: the second one takes the write. -/
theorem io_store_low_only_C8_witness :
    io_store ([sample_device "A" 1 IO_PRIO_LOW 0 1] ++ sample_device "B" 1 IO_PRIO_LOW 1 2 :: [])
      0xfd13 7 = [Event.store (sample_device "B" 1 IO_PRIO_LOW 1 2)
        (0xfd13 &&& (sample_device "B" 1 IO_PRIO_LOW 1 2).address_mask) 7] :=
  io_store_low_only_C8 [sample_device "A" 1 IO_PRIO_LOW 0 1] []
    (sample_device "B" 1 IO_PRIO_LOW 1 2)
    0xfd13 7 (by decide) (by decide) (by decide) (by decide) (by decide)

/-- The guard `addy != 0xffff` of the deferred write: at the address $FFFF, which belongs to
neither page, with a LOW priority device whose mask is $FFFF, `io_store` calls no store
callback. The statement on the deferred write is for addresses below $FFFF. -/
theorem io_store_masked_ffff_outside_pages :
    (0xffff : Nat) < 65536 ∧ sample_wide_mirror.accepts 0xffff = true ∧
      sample_wide_mirror.io_source_prio = IO_PRIO_LOW ∧
      io_store [sample_wide_mirror] 0xffff 7 = [] ∧
      io_store [sample_wide_mirror] 0xffff 7 ≠
        [Event.store sample_wide_mirror (0xffff &&& sample_wide_mirror.address_mask) 7] := by
  have h : io_store [sample_wide_mirror] 0xffff 7 = [] := rfl
  refine ⟨by decide, by decide, by decide, h, ?_⟩
  rw [h]
  exact List.noConfusion

/-- C9: when a device of priority NORMAL or HIGH with a store callback covers the address,
`io_store` calls the store callback of no LOW priority device, wherever the LOW priority
devices stand in the list. -/
theorem io_store_real_suppresses_low_C9 (l : List io_source_t) (addr value : Nat)
    (h : ∃ x ∈ l, x.accepts addr = true ∧
      (x.io_source_prio = IO_PRIO_NORMAL ∨ x.io_source_prio = IO_PRIO_HIGH)) :
    ∀ d a b, Event.store d a b ∈ io_store l addr value → d.io_source_prio ≠ IO_PRIO_LOW := by
  obtain ⟨x, hx, hacc, hprio⟩ := h
  have hxl : x.io_source_prio ≠ IO_PRIO_LOW := by
    rcases hprio with h | h <;> rw [h] <;> decide
  have hcalls := io_store_walk_calls addr value l io_store_vars.init []
  have hwrites := io_store_walk_writes addr value l io_store_vars.init []
  have hpos : 0 < (l.filter
      (fun d => d.accepts addr && decide (d.io_source_prio ≠ IO_PRIO_LOW))).length := by
    apply List.length_pos_of_mem (a := x)
    simp [List.mem_filter, hx, hacc, hxl]
  have hw : (io_store_walk addr value l io_store_vars.init []).1.writes ≠ 0 := by
    rw [hwrites]; simp only [io_store_vars.init]; omega
  have hio : io_store l addr value = (io_store_walk addr value l io_store_vars.init []).2 := by
    rw [io_store_eq]
    split <;> simp [hw]
  intro d a b hmem
  rw [hio, hcalls] at hmem
  simp only [List.nil_append, List.mem_map, List.mem_filter, Bool.and_eq_true,
    decide_eq_true_eq] at hmem
  obtain ⟨y, ⟨_, _, hy⟩, he⟩ := hmem
  cases he
  exact hy

/-- C9 at a NORMAL priority device between two LOW priority mirrors. -/
theorem io_store_real_suppresses_low_C9_witness :
    (sample_device "Real" 1 IO_PRIO_NORMAL 1 2).accepts 0xfd13 = true ∧
      ∀ d a b, Event.store d a b ∈
          io_store [sample_device "Mirror" 1 IO_PRIO_LOW 0 1,
            sample_device "Real" 1 IO_PRIO_NORMAL 1 2,
            sample_device "Mirror2" 1 IO_PRIO_LOW 2 3] 0xfd13 7 →
        d.io_source_prio ≠ IO_PRIO_LOW :=
  ⟨by decide, io_store_real_suppresses_low_C9 _ 0xfd13 7
    ⟨sample_device "Real" 1 IO_PRIO_NORMAL 1 2, by simp, by decide, Or.inl rfl⟩⟩

/-- C10: for a 16-bit address, the store callbacks that `io_store` calls for devices that are
not LOW priority are, in this order, those of the devices of priority NORMAL or HIGH that
cover the address and have a store callback, in registration order, each called once with
(addr AND the address mask of the device, value); `io_source_valid` plays no part. -/
theorem io_store_real_calls_C10 (l : List io_source_t) (addr value : Nat)
    (haddr : addr < 65536) (hprio : ∀ d ∈ l, d.prio_ok) :
    (io_store l addr value).filter Event.isRealStore =
      (l.filter (fun d => d.accepts addr &&
          (decide (d.io_source_prio = IO_PRIO_NORMAL) || decide (d.io_source_prio = IO_PRIO_HIGH)))).map
        (fun d => Event.store d (addr &&& d.address_mask) value) := by
  have hcalls := io_store_walk_calls addr value l io_store_vars.init []
  have hlow := io_store_walk_deferred_low addr value l io_store_vars.init []
    (by intro d hd; simp [io_store_vars.init] at hd)
  have hfilter : l.filter (fun d => d.accepts addr &&
        (decide (d.io_source_prio = IO_PRIO_NORMAL) || decide (d.io_source_prio = IO_PRIO_HIGH))) =
      l.filter (fun d => d.accepts addr && decide (d.io_source_prio ≠ IO_PRIO_LOW)) := by
    apply List.filter_congr
    intro d hd
    rcases hprio d hd with h | h | h <;> simp [h, IO_PRIO_LOW, IO_PRIO_NORMAL, IO_PRIO_HIGH]
  have hmap : (l.filter (fun d => d.accepts addr && decide (d.io_source_prio ≠ IO_PRIO_LOW))).map
        (fun d => Event.store d (d.masked addr) value) =
      (l.filter (fun d => d.accepts addr && decide (d.io_source_prio ≠ IO_PRIO_LOW))).map
        (fun d => Event.store d (addr &&& d.address_mask) value) := by
    apply List.map_congr_left
    intro d _
    rw [masked_eq d addr haddr]
  have hreal : ((l.filter (fun d => d.accepts addr && decide (d.io_source_prio ≠ IO_PRIO_LOW))).map
        (fun d => Event.store d (addr &&& d.address_mask) value)).filter Event.isRealStore =
      (l.filter (fun d => d.accepts addr && decide (d.io_source_prio ≠ IO_PRIO_LOW))).map
        (fun d => Event.store d (addr &&& d.address_mask) value) := by
    rw [List.filter_eq_self]
    intro e he
    simp only [List.mem_map, List.mem_filter, Bool.and_eq_true, decide_eq_true_eq] at he
    obtain ⟨y, ⟨_, _, hy⟩, rfl⟩ := he
    simp [Event.isRealStore, hy]
  rw [hfilter, io_store_eq, hcalls, hmap]
  simp only [List.nil_append]
  split
  · rename_i d hd
    have hdl := hlow d hd
    split
    · rw [List.filter_append, hreal]
      simp [Event.isRealStore, hdl]
    · exact hreal
  · exact hreal

/-- C10 at a mirror, a NORMAL priority device that is not valid and a HIGH priority device. -/
theorem io_store_real_calls_C10_witness :
    (io_store [sample_device "Mirror" 1 IO_PRIO_LOW 0 1, sample_device "Real" 0 IO_PRIO_NORMAL 1 2,
        sample_device "Top" 1 IO_PRIO_HIGH 2 3] 0xfd13 7).filter Event.isRealStore =
      ([sample_device "Mirror" 1 IO_PRIO_LOW 0 1, sample_device "Real" 0 IO_PRIO_NORMAL 1 2,
        sample_device "Top" 1 IO_PRIO_HIGH 2 3].filter (fun d => d.accepts 0xfd13 &&
          (decide (d.io_source_prio = IO_PRIO_NORMAL) || decide (d.io_source_prio = IO_PRIO_HIGH)))).map
        (fun d => Event.store d (0xfd13 &&& d.address_mask) 7) :=
  io_store_real_calls_C10 _ 0xfd13 7 (by decide) (by decide)

/-! ## Peek -/

/-- C11, as amended: for a 16-bit address `io_peek` consults only the first device in
registration order that covers the address and has a peek or a read callback: it returns that
device's peek callback applied to (addr AND address_mask) if the device has one, otherwise its
read callback applied to the masked address; it returns `read_unused(addr)` when no device
covering the address has a peek or a read callback. -/
theorem io_peek_first_answering_C11 (read_unused : Nat → Nat) (list : List io_source_t)
    (addr : Nat) (haddr : addr < 65536) :
    io_peek read_unused list addr = io_peek_answer read_unused list addr := by
  induction list with
  | nil => rfl
  | cons d rest ih =>
    rw [io_peek]
    unfold io_peek_answer first_answering at ih ⊢
    rw [List.find?_cons]
    by_cases hc : d.covers addr
    · cases hp : d.peek with
      | some f => simp [hc, hp, masked_eq d addr haddr]
      | none =>
        cases hr : d.read with
        | some g => simp [hc, hp, hr, masked_eq d addr haddr]
        | none => simpa [hc, hp, hr] using ih
    · simpa [hc] using ih

/-- C11 as amended, at a store-only device followed by a device with a peek callback. -/
theorem io_peek_first_answering_C11_witness :
    (0xfd13 : Nat) < 65536 ∧
      io_peek sample_unused [sample_latch, sample_peekable "P" 0x55] 0xfd13 =
        io_peek_answer sample_unused [sample_latch, sample_peekable "P" 0x55] 0xfd13 :=
  ⟨by decide, io_peek_first_answering_C11 sample_unused _ 0xfd13 (by decide)⟩

/-- C11 as stated fails: the first device that covers $FD13 has neither a peek nor a read
callback, and `io_peek` goes on to the second device: with the same first covering device, two
lists give two different bytes, each from the peek callback of the second device. -/
theorem io_peek_second_device_C11_counterexample :
    first_covering [sample_latch, sample_peekable "P" 0x55] 0xfd13 = some sample_latch ∧
      first_covering [sample_latch, sample_peekable "Q" 0x66] 0xfd13 = some sample_latch ∧
      sample_latch.peek = none ∧ sample_latch.read = none ∧
      io_peek sample_unused [sample_latch, sample_peekable "P" 0x55] 0xfd13 =
        (0x55, [Event.peek (sample_peekable "P" 0x55) 3]) ∧
      io_peek sample_unused [sample_latch, sample_peekable "Q" 0x66] 0xfd13 =
        (0x66, [Event.peek (sample_peekable "Q" 0x66) 3]) :=
  ⟨rfl, rfl, rfl, rfl, rfl, rfl⟩

/-- The callbacks of a peek. -/
theorem io_peek_calls (read_unused : Nat → Nat) (list : List io_source_t) (addr : Nat) :
    (io_peek read_unused list addr).2 = [] ∨
      (∃ d ∈ list, d.peek.isSome = true ∧
        (io_peek read_unused list addr).2 = [Event.peek d (d.masked addr)]) ∨
      (∃ d ∈ list, d.peek = none ∧ d.read.isSome = true ∧
        (io_peek read_unused list addr).2 = [Event.read d (d.masked addr)]) := by
  induction list with
  | nil => left; rfl
  | cons d rest ih =>
    have hrest : (io_peek read_unused rest addr).2 = [] ∨
      (∃ x ∈ d :: rest, x.peek.isSome = true ∧
        (io_peek read_unused rest addr).2 = [Event.peek x (x.masked addr)]) ∨
      (∃ x ∈ d :: rest, x.peek = none ∧ x.read.isSome = true ∧
        (io_peek read_unused rest addr).2 = [Event.read x (x.masked addr)]) := by
      rcases ih with h | ⟨x, hx, h⟩ | ⟨x, hx, h⟩
      · exact Or.inl h
      · exact Or.inr (Or.inl ⟨x, List.mem_cons_of_mem _ hx, h⟩)
      · exact Or.inr (Or.inr ⟨x, List.mem_cons_of_mem _ hx, h⟩)
    rw [io_peek]
    by_cases hc : d.covers addr
    · cases hp : d.peek with
      | some f =>
        right; left
        exact ⟨d, List.mem_cons_self _ _, by simp [hp], by simp [hc, hp]⟩
      | none =>
        cases hr : d.read with
        | some g =>
          right; right
          exact ⟨d, List.mem_cons_self _ _, hp, by simp [hr], by simp [hc, hp, hr]⟩
        | none => simpa [hc, hp, hr] using hrest
    · simpa [hc] using hrest

/-- C12, as amended: a peek leaves the region lists, the order counter and the collision method
as they are, and all it calls, whatever the list, is one callback at most: the peek callback of
a device, or the read callback of a device that has no peek callback. No detach action, no
`log_message`, no `ui_error`, no store callback. -/
theorem io_peek_frame_C12 (read_unused : Nat → Nat) (s : io_state) (addr : Nat) :
    (plus4io_fd00_peek read_unused s addr).2 = s ∧
      (plus4io_fe00_peek read_unused s addr).2 = s ∧
      ∀ list : List io_source_t,
        (io_peek read_unused list addr).2 = [] ∨
        (∃ d ∈ list, d.peek.isSome = true ∧
          (io_peek read_unused list addr).2 = [Event.peek d (d.masked addr)]) ∨
        (∃ d ∈ list, d.peek = none ∧ d.read.isSome = true ∧
          (io_peek read_unused list addr).2 = [Event.read d (d.masked addr)]) :=
  ⟨rfl, rfl, fun list => io_peek_calls read_unused list addr⟩

/-- C12 as stated fails: on two colliding devices without peek callbacks `io_peek` calls the
read callback of the first. -/
theorem io_peek_reads_C12_counterexample :
    io_peek sample_unused
        [sample_device "A" 1 IO_PRIO_NORMAL 0 0x12, sample_device "B" 1 IO_PRIO_NORMAL 1 0x34]
        0xfd13 =
      (0x12, [Event.read (sample_device "A" 1 IO_PRIO_NORMAL 0 0x12) 3]) := rfl

/-! ## Disjoint ranges -/

/-- A walk over devices none of which covers the address changes nothing. -/
theorem io_read_walk_none_covers (chm : Int) (addr : Nat) (l : List io_source_t)
    (v : io_read_vars) (tr : List Event) (h : ∀ d ∈ l, ¬ d.covers addr) :
    io_read_walk chm addr l v tr = .finished v tr ∧ read_calls l addr = [] := by
  induction l with
  | nil => exact ⟨by simp [io_read_walk], rfl⟩
  | cons d rest ih =>
    have hd : d.responds addr = false := by
      simp [io_source_t.responds, h d (List.mem_cons_self _ _)]
    have hrest := ih (fun x hx => h x (List.mem_cons_of_mem _ hx))
    rw [io_read_walk_skip chm addr d rest v tr hd, read_calls_cons]
    simpa [hd] using hrest

/-- Pairwise disjoint ranges: once a device covers the address, no later one does. -/
theorem disjoint_tail_not_covers (d : io_source_t) (rest : List io_source_t) (addr : Nat)
    (hdisj : (d :: rest).Pairwise (fun a b => ∀ x, ¬ (a.covers x ∧ b.covers x)))
    (hc : d.covers addr) : ∀ x ∈ rest, ¬ x.covers addr := by
  intro x hx hxc
  exact (List.rel_of_pairwise_cons hdisj hx) addr ⟨hc, hxc⟩

/-- With pairwise disjoint ranges one read callback at most is called. -/
theorem read_calls_disjoint (addr : Nat) (l : List io_source_t)
    (hdisj : l.Pairwise (fun a b => ∀ x, ¬ (a.covers x ∧ b.covers x))) :
    (read_calls l addr).length ≤ 1 := by
  induction l with
  | nil => simp [read_calls_nil]
  | cons d rest ih =>
    by_cases hc : d.covers addr
    · have hnone := disjoint_tail_not_covers d rest addr hdisj hc
      have h0 := (io_read_walk_none_covers 0 addr rest io_read_vars.init [] hnone).2
      rw [read_calls_cons, h0]
      split <;> simp
    · have hd : d.responds addr = false := by simp [io_source_t.responds, hc]
      rw [read_calls_cons]
      simpa [hd] using ih (List.Pairwise.of_cons hdisj)

/-- With pairwise disjoint ranges the walk of `io_read`, started with no valid response yet,
counts one source at most. -/
theorem io_read_walk_disjoint (chm : Int) (addr : Nat) (l : List io_source_t)
    (v : io_read_vars) (tr : List Event)
    (hdisj : l.Pairwise (fun a b => ∀ x, ¬ (a.covers x ∧ b.covers x)))
    (hv : v.io_source_valid = 0) (hcnt : v.io_source_counter = 0) :
    (∃ r, io_read_walk chm addr l v tr = .returned r (tr ++ read_calls l addr)) ∨
      (∃ v1, io_read_walk chm addr l v tr = .finished v1 (tr ++ read_calls l addr) ∧
        (v1.io_source_valid = 0 ∨ v1.io_source_counter ≤ 1)) := by
  induction l generalizing v tr with
  | nil => exact Or.inr ⟨v, by simp [io_read_walk, read_calls_nil], Or.inl hv⟩
  | cons d rest ih =>
    cases hresp : d.responds addr with
    | false =>
      by_cases hc : d.covers addr
      · have hnone := disjoint_tail_not_covers d rest addr hdisj hc
        have h0 := io_read_walk_none_covers chm addr rest v tr hnone
        rw [io_read_walk_skip chm addr d rest v tr hresp, read_calls_cons, h0.1, h0.2]
        exact Or.inr ⟨v, by simp [hresp], Or.inl hv⟩
      · rw [io_read_walk_skip chm addr d rest v tr hresp, read_calls_cons]
        simpa [hresp] using ih v tr (List.Pairwise.of_cons hdisj) hv hcnt
    | true =>
      have hc := responds_covers d addr hresp
      have hnone := disjoint_tail_not_covers d rest addr hdisj hc
      have hcalls : read_calls (d :: rest) addr = [Event.read d (d.masked addr)] := by
        rw [read_calls_cons, (io_read_walk_none_covers chm addr rest v tr hnone).2]
        simp [hresp]
      rw [hcalls]
      by_cases hvalid : d.io_source_valid = 0
      · rw [io_read_walk_invalid chm addr d rest v tr hresp hvalid,
          (io_read_walk_none_covers chm addr rest _ _ hnone).1]
        exact Or.inr ⟨_, rfl, Or.inl hv⟩
      · by_cases hhigh : d.io_source_prio = IO_PRIO_HIGH
        · rw [io_read_walk_high chm addr d rest v tr hresp hvalid hhigh]
          exact Or.inl ⟨_, rfl⟩
        · rw [io_read_walk_first chm addr d rest v tr hresp hvalid hhigh hv,
            (io_read_walk_none_covers chm addr rest _ _ hnone).1]
          refine Or.inr ⟨_, rfl, Or.inr ?_⟩
          simp only [io_read_vars.first_valid, hcnt]
          split <;> omega

/-- The deferred store callback, when the walk of `io_store` has one, is that of a device of
the list that accepts the write, called with its masked address. -/
theorem io_store_walk_deferred_mem (addr value : Nat) (full l : List io_source_t)
    (v : io_store_vars) (tr : List Event) (hsub : ∀ x ∈ l, x ∈ full)
    (hv : ∀ d, v.store = some d → d ∈ full ∧ d.accepts addr = true ∧ v.addy = d.masked addr) :
    ∀ d, (io_store_walk addr value l v tr).1.store = some d →
      d ∈ full ∧ d.accepts addr = true ∧
        (io_store_walk addr value l v tr).1.addy = d.masked addr := by
  induction l generalizing v tr with
  | nil => simpa [io_store_walk] using hv
  | cons p rest ih =>
    have hrest : ∀ x ∈ rest, x ∈ full := fun x hx => hsub x (List.mem_cons_of_mem _ hx)
    rw [io_store_walk]
    by_cases hs : p.store = true
    · by_cases hc : p.covers addr
      · by_cases hp : p.io_source_prio = IO_PRIO_LOW
        · simp only [hs, hc, hp, if_true, ne_eq, not_true_eq_false, if_false]
          refine ih _ _ hrest ?_
          intro d hd
          simp only [Option.some.injEq] at hd
          subst hd
          exact ⟨hsub _ (List.mem_cons_self _ _), by simp [io_source_t.accepts, hs, hc], rfl⟩
        · simp only [hs, hc, hp, if_true, ne_eq, not_false_eq_true]
          exact ih _ _ hrest hv
      · simp only [hs, hc, if_true, if_false]
        exact ih _ _ hrest hv
    · simp only [hs, Bool.false_eq_true, if_false]
      exact ih _ _ hrest hv

/-- With pairwise disjoint ranges one device at most passes a test that implies covering the
address. -/
theorem filter_covering_disjoint (addr : Nat) (q : io_source_t → Bool) (l : List io_source_t)
    (hq : ∀ d, q d = true → d.covers addr)
    (hdisj : l.Pairwise (fun a b => ∀ x, ¬ (a.covers x ∧ b.covers x))) :
    (l.filter q).length ≤ 1 := by
  induction l with
  | nil => simp
  | cons d rest ih =>
    by_cases hd : q d = true
    · have hnone := disjoint_tail_not_covers d rest addr hdisj (hq d hd)
      have h0 : rest.filter q = [] := by
        rw [List.filter_eq_nil_iff]
        intro x hx hqx
        exact hnone x hx (hq x hqx)
      simp [List.filter_cons, hd, h0]
    · simpa [List.filter_cons, hd] using ih (List.Pairwise.of_cons hdisj)

/-- Every call of `io_store` is the store callback of a device of the list that covers the
address, with the masked address and the value. -/
theorem io_store_calls_mem (l : List io_source_t) (addr value : Nat) :
    ∀ e ∈ io_store l addr value,
      ∃ d ∈ l, d.covers addr ∧ e = Event.store d (d.masked addr) value := by
  have hcalls := io_store_walk_calls addr value l io_store_vars.init []
  have hmem := io_store_walk_deferred_mem addr value l l io_store_vars.init []
    (fun _ h => h) (by intro d hd; simp [io_store_vars.init] at hd)
  have hwalk : ∀ e ∈ (io_store_walk addr value l io_store_vars.init []).2,
      ∃ d ∈ l, d.covers addr ∧ e = Event.store d (d.masked addr) value := by
    intro e he
    rw [hcalls] at he
    simp only [List.nil_append, List.mem_map, List.mem_filter, Bool.and_eq_true,
      decide_eq_true_eq, io_source_t.accepts] at he
    obtain ⟨d, ⟨hd, ⟨_, hc⟩, _⟩, rfl⟩ := he
    exact ⟨d, hd, hc, rfl⟩
  intro e he
  rw [io_store_eq] at he
  split at he
  · rename_i d hd
    obtain ⟨hdl, hacc, haddy⟩ := hmem d hd
    split at he
    · rcases List.mem_append.1 he with h | h
      · exact hwalk e h
      · simp only [List.mem_singleton] at h
        refine ⟨d, hdl, ?_, by rw [h, haddy]⟩
        simp only [io_source_t.accepts, Bool.and_eq_true, decide_eq_true_eq] at hacc
        exact hacc.2
    · exact hwalk e he
  · exact hwalk e he

/-- With pairwise disjoint ranges `io_store` calls one store callback at most. -/
theorem io_store_calls_disjoint (l : List io_source_t) (addr value : Nat)
    (hdisj : l.Pairwise (fun a b => ∀ x, ¬ (a.covers x ∧ b.covers x))) :
    (io_store l addr value).length ≤ 1 := by
  have hcalls := io_store_walk_calls addr value l io_store_vars.init []
  have hwrites := io_store_walk_writes addr value l io_store_vars.init []
  have hlen := filter_covering_disjoint addr
    (fun d => d.accepts addr && decide (d.io_source_prio ≠ IO_PRIO_LOW)) l
    (by
      intro d hd
      simp only [io_source_t.accepts, Bool.and_eq_true, decide_eq_true_eq] at hd
      exact hd.1.2) hdisj
  rw [io_store_eq]
  split
  · split
    · rename_i h
      have h0 : (l.filter
          (fun d => d.accepts addr && decide (d.io_source_prio ≠ IO_PRIO_LOW))).length = 0 := by
        have := h.1
        rw [hwrites] at this
        simp only [io_store_vars.init] at this
        omega
      rw [hcalls, List.length_eq_zero.1 h0]
      simp
    · rw [hcalls]; simpa using hlen
  · rw [hcalls]; simpa using hlen

/-- C13: when the ranges of the devices of the list are pairwise disjoint, `io_read` returns a
byte having called the read callbacks of the responding devices only, one at most (no collision
handler: no detach action, no message), and `io_store` calls one store callback at most; every
callback called is that of a device that covers the address. -/
theorem io_disjoint_ranges_C13 (read_unused : Nat → Nat) (chm : Int) (l : List io_source_t)
    (addr value : Nat)
    (hdisj : l.Pairwise (fun a b => ∀ x, ¬ (a.covers x ∧ b.covers x))) :
    (∃ byte, io_read read_unused chm l addr = some (byte, read_calls l addr)) ∧
      (read_calls l addr).length ≤ 1 ∧
      (io_store l addr value).length ≤ 1 ∧
      ∀ e ∈ io_store l addr value,
        ∃ d ∈ l, d.covers addr ∧ e = Event.store d (d.masked addr) value := by
  refine ⟨?_, read_calls_disjoint addr l hdisj, io_store_calls_disjoint l addr value hdisj,
    io_store_calls_mem l addr value⟩
  unfold io_read
  rcases io_read_walk_disjoint chm addr l io_read_vars.init [] hdisj rfl rfl with
    ⟨r, hr⟩ | ⟨v1, hv1, hcase⟩
  · rw [hr]; exact ⟨r, by simp⟩
  · rw [hv1]
    by_cases h0 : v1.io_source_valid = 0
    · exact ⟨read_unused addr % 256, by simp [h0]⟩
    · have h1 : ¬ v1.io_source_counter > 1 := by
        have := hcase.resolve_left h0
        omega
      exact ⟨v1.retval, by simp [h0, h1]⟩

/-- C13 at a device of $FD10-$FD1F and a device of the $FE00 page. -/
theorem io_disjoint_ranges_C13_witness :
    [sample_peekable "P" 0x55, sample_fe00_device "F" 0x66].Pairwise
        (fun a b => ∀ x, ¬ (a.covers x ∧ b.covers x)) ∧
      ((∃ byte, io_read sample_unused IO_COLLISION_METHOD_DETACH_ALL
          [sample_peekable "P" 0x55, sample_fe00_device "F" 0x66] 0xfe13 =
          some (byte, read_calls [sample_peekable "P" 0x55, sample_fe00_device "F" 0x66] 0xfe13)) ∧
        (read_calls [sample_peekable "P" 0x55, sample_fe00_device "F" 0x66] 0xfe13).length ≤ 1 ∧
        (io_store [sample_peekable "P" 0x55, sample_fe00_device "F" 0x66] 0xfe13 7).length ≤ 1 ∧
        ∀ e ∈ io_store [sample_peekable "P" 0x55, sample_fe00_device "F" 0x66] 0xfe13 7,
          ∃ d ∈ [sample_peekable "P" 0x55, sample_fe00_device "F" 0x66],
            d.covers 0xfe13 ∧ e = Event.store d (d.masked 0xfe13) 7) := by
  have hd : [sample_peekable "P" 0x55, sample_fe00_device "F" 0x66].Pairwise
      (fun a b => ∀ x, ¬ (a.covers x ∧ b.covers x)) := by
    simp only [List.pairwise_cons, List.mem_singleton, List.not_mem_nil, forall_eq,
      List.Pairwise.nil, and_true, IsEmpty.forall_iff, implies_true]
    intro x h
    simp only [io_source_t.covers, sample_peekable, sample_fe00_device] at h
    omega
  exact ⟨hd, io_disjoint_ranges_C13 sample_unused IO_COLLISION_METHOD_DETACH_ALL _ 0xfe13 7 hd⟩

/-! ## Reads under the AND-wires method -/

/-- The callbacks of the walk of `io_read`: the read callbacks of the responding devices of
the part of the list walked through, in order. -/
theorem io_read_walk_calls (chm : Int) (addr : Nat) (l : List io_source_t)
    (v : io_read_vars) (tr : List Event) :
    (io_read_walk chm addr l v tr).calls = tr ++ read_calls (io_read_walked addr l) addr := by
  induction l generalizing v tr with
  | nil => simp [io_read_walk, io_read_walk_result.calls, io_read_walked, read_calls_nil]
  | cons d rest ih =>
    cases hresp : d.responds addr with
    | false =>
      rw [io_read_walk_skip chm addr d rest v tr hresp, io_read_walked]
      simp only [hresp, Bool.false_eq_true, false_and, if_false]
      rw [read_calls_cons, ih]
      simp [hresp]
    | true =>
      by_cases hvalid : d.io_source_valid = 0
      · rw [io_read_walk_invalid chm addr d rest v tr hresp hvalid, io_read_walked]
        simp only [hvalid, ne_eq, not_true_eq_false, false_and, and_false, if_false]
        rw [read_calls_cons, ih]
        simp [hresp]
      · by_cases hhigh : d.io_source_prio = IO_PRIO_HIGH
        · rw [io_read_walk_high chm addr d rest v tr hresp hvalid hhigh, io_read_walked]
          simp [hresp, hvalid, hhigh, io_read_walk_result.calls, read_calls_cons, read_calls_nil]
        · have hw : io_read_walked addr (d :: rest) = d :: io_read_walked addr rest := by
            rw [io_read_walked]; simp [hhigh]
          rw [hw, read_calls_cons]
          simp only [hresp, if_true]
          rw [io_read_walk]
          cases hr : d.read with
          | none => simp [io_source_t.responds, hr] at hresp
          | some f =>
            have hc : d.covers addr := responds_covers d addr hresp
            simp only [hc, if_true, ne_eq, hvalid, not_false_eq_true, hhigh, if_false]
            split <;> rw [ih] <;> simp

/-- What `io_source_log_collisions` does: nothing, or one call of `log_message`. -/
theorem io_source_log_collisions_calls (addr : Nat) (amount : Int) (l : List io_source_t) :
    ∃ ev, io_source_log_collisions addr amount l = some ev ∧
      (ev = [] ∨ ∃ m, ev = [Event.log_message m addr]) := by
  obtain ⟨v1, hv1, hv2⟩ := io_source_log_collisions_walk_some addr amount l msg_vars.init
    (Or.inl rfl)
  unfold io_source_log_collisions
  rw [hv1]
  by_cases h0 : v1.found = 0
  · exact ⟨[], by simp [h0], Or.inl rfl⟩
  · obtain ⟨m, hm⟩ := Option.isSome_iff_exists.1 (hv2.resolve_left h0)
    exact ⟨[Event.log_message m addr], by simp [h0, hm], Or.inr ⟨m, rfl⟩⟩

/-- Under the AND-wires method `io_read` returns a byte; it calls read callbacks and,
at most, `log_message` once. -/
theorem io_read_and_wires_calls (read_unused : Nat → Nat) (list : List io_source_t)
    (addr : Nat) :
    ∃ byte msgs, io_read read_unused IO_COLLISION_METHOD_AND_WIRES list addr =
        some (byte, read_calls (io_read_walked addr list) addr ++ msgs) ∧
      (msgs = [] ∨ ∃ m, msgs = [Event.log_message m addr]) := by
  have hcalls := io_read_walk_calls IO_COLLISION_METHOD_AND_WIRES addr list io_read_vars.init []
  unfold io_read
  cases hw : io_read_walk IO_COLLISION_METHOD_AND_WIRES addr list io_read_vars.init [] with
  | returned r t =>
    rw [hw] at hcalls
    simp only [io_read_walk_result.calls, List.nil_append] at hcalls
    exact ⟨r, [], by simp [hcalls], Or.inl rfl⟩
  | finished v1 t =>
    rw [hw] at hcalls
    simp only [io_read_walk_result.calls, List.nil_append] at hcalls
    subst hcalls
    by_cases h0 : v1.io_source_valid = 0
    · exact ⟨read_unused addr % 256, [], by simp [h0], Or.inl rfl⟩
    · by_cases h1 : v1.io_source_counter > 1
      · obtain ⟨ev, hev, hshape⟩ := io_source_log_collisions_calls addr v1.io_source_counter list
        refine ⟨v1.realval, ev, ?_, hshape⟩
        simp [h0, h1, hev, IO_COLLISION_METHOD_AND_WIRES, IO_COLLISION_METHOD_DETACH_ALL,
          IO_COLLISION_METHOD_DETACH_LAST]
      · exact ⟨v1.retval, [], by simp [h0, h1], Or.inl rfl⟩

/-- C14: under the AND-wires method a read of either page returns a byte, calls read callbacks
and at most one `log_message` (no detach action, no `ui_error`), and leaves the region lists,
the order counter and the collision method as they are; a second read of the same address
gives the same result. -/
theorem io_read_and_wires_frame_C14 (read_unused : Nat → Nat) (s : io_state) (addr : Nat)
    (hs : s.io_source_collision_handling = IO_COLLISION_METHOD_AND_WIRES) :
    (∃ byte msgs, plus4io_fd00_read read_unused s addr =
        some ((byte, read_calls (io_read_walked addr s.plus4io_fd00_head) addr ++ msgs), s) ∧
      (msgs = [] ∨ ∃ m, msgs = [Event.log_message m addr])) ∧
    (∃ byte msgs, plus4io_fe00_read read_unused s addr =
        some ((byte, read_calls (io_read_walked addr s.plus4io_fe00_head) addr ++ msgs), s) ∧
      (msgs = [] ∨ ∃ m, msgs = [Event.log_message m addr])) ∧
    (∀ r1 s1, plus4io_fd00_read read_unused s addr = some (r1, s1) →
      plus4io_fd00_read read_unused s1 addr = some (r1, s1)) ∧
    (∀ r1 s1, plus4io_fe00_read read_unused s addr = some (r1, s1) →
      plus4io_fe00_read read_unused s1 addr = some (r1, s1)) := by
  refine ⟨?_, ?_, ?_, ?_⟩
  · obtain ⟨byte, msgs, h, hshape⟩ :=
      io_read_and_wires_calls read_unused s.plus4io_fd00_head addr
    exact ⟨byte, msgs, by simp [plus4io_fd00_read, hs, h], hshape⟩
  · obtain ⟨byte, msgs, h, hshape⟩ :=
      io_read_and_wires_calls read_unused s.plus4io_fe00_head addr
    exact ⟨byte, msgs, by simp [plus4io_fe00_read, hs, h], hshape⟩
  · intro r1 s1 h
    have hs1 : s1 = s := by
      unfold plus4io_fd00_read at h
      split at h
      · exact absurd h (by simp)
      · simp only [Option.some.injEq, Prod.mk.injEq] at h
        exact h.2.symm
    rw [hs1] at h ⊢
    exact h
  · intro r1 s1 h
    have hs1 : s1 = s := by
      unfold plus4io_fe00_read at h
      split at h
      · exact absurd h (by simp)
      · simp only [Option.some.injEq, Prod.mk.injEq] at h
        exact h.2.symm
    rw [hs1] at h ⊢
    exact h

/-- C14 at two colliding devices of the $FD00 page. -/
theorem io_read_and_wires_frame_C14_witness :
    (sample_state IO_COLLISION_METHOD_AND_WIRES).io_source_collision_handling =
        IO_COLLISION_METHOD_AND_WIRES ∧
      ∃ byte msgs,
        plus4io_fd00_read sample_unused (sample_state IO_COLLISION_METHOD_AND_WIRES) 0xfd13 =
          some ((byte, read_calls (io_read_walked 0xfd13
            (sample_state IO_COLLISION_METHOD_AND_WIRES).plus4io_fd00_head) 0xfd13 ++ msgs),
            sample_state IO_COLLISION_METHOD_AND_WIRES) ∧
        (msgs = [] ∨ ∃ m, msgs = [Event.log_message m 0xfd13]) :=
  ⟨rfl, (io_read_and_wires_frame_C14 sample_unused
    (sample_state IO_COLLISION_METHOD_AND_WIRES) 0xfd13 rfl).1⟩

/-! ## The registry -/

/-- A list is its element at a position followed by the rest, up to the order of elements. -/
theorem perm_cons_eraseIdx (l : List io_source_t) (i : Nat) (d : io_source_t)
    (h : l.get? i = some d) : l.Perm (d :: l.eraseIdx i) := by
  induction l generalizing i with
  | nil => simp at h
  | cons x xs ih =>
    cases i with
    | zero =>
      simp only [List.get?_cons_zero, Option.some.injEq] at h
      subst h
      exact List.Perm.refl _
    | succ i =>
      simp only [List.get?_cons_succ] at h
      simp only [List.eraseIdx_cons_succ]
      exact (List.Perm.cons x (ih i h)).trans (List.Perm.swap d x _)

/-- The registered devices after a registration: the ones before and the new node, which
carries the counter as its order. -/
theorem io_source_register_devices (s s1 : io_state) (device : io_source_t)
    (node : io_source_list_t) (h : io_source_register s device = some (node, s1)) :
    s1.devices.Perm ({ device with order := s.order } :: s.devices) ∧
      s1.order = (s.order + 1) % 4294967296 := by
  unfold io_source_register at h
  split at h
  · simp only [Option.some.injEq, Prod.mk.injEq] at h
    obtain ⟨_, rfl⟩ := h
    refine ⟨?_, rfl⟩
    simp only [io_state.devices, List.append_assoc, List.singleton_append]
    exact List.perm_middle
  · split at h
    · simp only [Option.some.injEq, Prod.mk.injEq] at h
      obtain ⟨_, rfl⟩ := h
      refine ⟨?_, rfl⟩
      simp only [io_state.devices]
      rw [← List.append_assoc]
      exact List.perm_append_singleton _ _
    · exact absurd h (by simp)

/-- The registered devices before an unregistration: the node removed and the ones that
stay. -/
theorem io_source_unregister_devices (s s1 : io_state) (node : io_source_list_t)
    (h : io_source_unregister s node = some s1) :
    ∃ d, s.node_at node d ∧ s.devices.Perm (d :: s1.devices) ∧
      s1.order = order_after_unregister s.order d.order := by
  unfold io_source_unregister at h
  split at h
  · rename_i hreg
    split at h
    · exact absurd h (by simp)
    · rename_i d hd
      simp only [Option.some.injEq] at h
      subst h
      refine ⟨d, Or.inl ⟨hreg, hd⟩, ?_, rfl⟩
      simp only [io_state.devices]
      exact (List.Perm.append_right _ (perm_cons_eraseIdx _ _ d hd))
  · split at h
    · rename_i hreg
      split at h
      · exact absurd h (by simp)
      · rename_i d hd
        simp only [Option.some.injEq] at h
        subst h
        refine ⟨d, Or.inr ⟨hreg, hd⟩, ?_, rfl⟩
        simp only [io_state.devices]
        exact (List.Perm.append_left _ (perm_cons_eraseIdx _ _ d hd)).trans List.perm_middle
    · exact absurd h (by simp)

/-- The node a pointer designates is unique. -/
theorem node_at_unique (s : io_state) (node : io_source_list_t) (d1 d2 : io_source_t)
    (h1 : s.node_at node d1) (h2 : s.node_at node d2) : d1 = d2 := by
  rcases h1 with ⟨r1, g1⟩ | ⟨r1, g1⟩ <;> rcases h2 with ⟨r2, g2⟩ | ⟨r2, g2⟩
  · rw [g1] at g2; exact Option.some.inj g2
  · rw [r1] at r2; exact absurd r2 (by decide)
  · rw [r1] at r2; exact absurd r2 (by decide)
  · rw [g1] at g2; exact Option.some.inj g2

/-- The invariant of the registry while the counter has not wrapped around: every registered
order is below the counter, the orders are pairwise distinct, the counter fits 32 bits. -/
theorem registry_invariant_step (s s1 : io_state) (op : registry_op)
    (hbelow : ∀ d ∈ s.devices, d.order < s.order) (hdist : s.orders_distinct)
    (hfit : s.order < 4294967296)
    (hwrap : ∀ device, op = .register device → s.order < 0xffffffff)
    (hop : apply_op s op = some s1) :
    (∀ d ∈ s1.devices, d.order < s1.order) ∧ s1.orders_distinct ∧ s1.order < 4294967296 := by
  cases op with
  | register device =>
    have hlt : s.order < 0xffffffff := hwrap device rfl
    simp only [apply_op] at hop
    split at hop
    · exact absurd hop (by simp)
    · rename_i node s2 hreg
      simp only [Option.some.injEq] at hop
      subst hop
      obtain ⟨hperm, hord⟩ := io_source_register_devices s s2 device node hreg
      have hord1 : s2.order = s.order + 1 := by rw [hord]; omega
      refine ⟨?_, ?_, by omega⟩
      · intro d hd
        rcases List.mem_cons.1 (hperm.mem_iff.1 hd) with h | h
        · rw [h, hord1]; simp
        · have := hbelow d h; omega
      · unfold io_state.orders_distinct at hdist ⊢
        rw [(hperm.map _).nodup_iff]
        simp only [List.map_cons, List.nodup_cons]
        refine ⟨?_, hdist⟩
        intro hmem
        obtain ⟨x, hx, hxo⟩ := List.mem_map.1 hmem
        have := hbelow x hx
        omega
  | unregister node =>
    simp only [apply_op] at hop
    obtain ⟨d, _, hperm, hord⟩ := io_source_unregister_devices s s1 node hop
    unfold io_state.orders_distinct at hdist ⊢
    rw [(hperm.map _).nodup_iff] at hdist
    simp only [List.map_cons, List.nodup_cons] at hdist
    have hd : d.order < s.order := hbelow d (hperm.mem_iff.2 (List.mem_cons_self _ _))
    have hle : s1.order ≤ s.order := by
      rw [hord]; unfold order_after_unregister
      split
      · split <;> omega
      · omega
    refine ⟨?_, hdist.2, by omega⟩
    intro x hx
    have hxs : x.order < s.order := hbelow x (hperm.mem_iff.2 (List.mem_cons_of_mem _ hx))
    have hne : x.order ≠ d.order := by
      intro h
      exact hdist.1 (List.mem_map.2 ⟨x, hx, h⟩)
    rw [hord]; unfold order_after_unregister
    split
    · rename_i heq
      split
      · omega
      · omega
    · omega

theorem run_ops_append (s : io_state) (ops1 ops2 : List registry_op) :
    run_ops s (ops1 ++ ops2) =
      match run_ops s ops1 with
      | none => none
      | some s1 => run_ops s1 ops2 := by
  induction ops1 generalizing s with
  | nil => simp [run_ops]
  | cons op rest ih =>
    simp only [List.cons_append, run_ops]
    cases apply_op s op with
    | none => rfl
    | some s1 => exact ih s1

/-- The invariant holds after every history in which the counter does not wrap around. -/
theorem registry_invariant (s0 s : io_state) (ops : List registry_op)
    (hbelow : ∀ d ∈ s0.devices, d.order < s0.order) (hdist : s0.orders_distinct)
    (hfit : s0.order < 4294967296)
    (hwrap : counter_never_wraps s0 ops = true) (hrun : run_ops s0 ops = some s) :
    (∀ d ∈ s.devices, d.order < s.order) ∧ s.orders_distinct ∧ s.order < 4294967296 := by
  induction ops generalizing s0 with
  | nil =>
    simp only [run_ops, Option.some.injEq] at hrun
    subst hrun
    exact ⟨hbelow, hdist, hfit⟩
  | cons op rest ih =>
    simp only [run_ops] at hrun
    cases hop : apply_op s0 op with
    | none => rw [hop] at hrun; exact absurd hrun (by simp)
    | some s1 =>
      rw [hop] at hrun
      simp only [counter_never_wraps, hop, Bool.and_eq_true] at hwrap
      have hstep := registry_invariant_step s0 s1 op hbelow hdist hfit
        (by
          intro device hdev
          have h1 := hwrap.1
          rw [hdev] at h1
          simpa using h1) hop
      exact ih s1 hstep.1 hstep.2.1 hstep.2.2 hwrap.2 hrun


/-- C15: `set_io_source_collision_handling(val)` returns 0 if and only if `val` is one of
`IO_COLLISION_METHOD_DETACH_ALL`, `IO_COLLISION_METHOD_DETACH_LAST`,
`IO_COLLISION_METHOD_AND_WIRES`, and then the collision method is `val` and nothing else
changes; for every other `val` it returns -1 and leaves every variable as it was. -/
theorem set_io_source_collision_handling_C15 (s : io_state) (val : Int) :
    ((set_io_source_collision_handling s val).1 = 0 ↔
      (val = IO_COLLISION_METHOD_DETACH_ALL ∨ val = IO_COLLISION_METHOD_DETACH_LAST ∨
        val = IO_COLLISION_METHOD_AND_WIRES)) ∧
    ((val = IO_COLLISION_METHOD_DETACH_ALL ∨ val = IO_COLLISION_METHOD_DETACH_LAST ∨
        val = IO_COLLISION_METHOD_AND_WIRES) →
      set_io_source_collision_handling s val =
        (0, { s with io_source_collision_handling := val })) ∧
    (¬ (val = IO_COLLISION_METHOD_DETACH_ALL ∨ val = IO_COLLISION_METHOD_DETACH_LAST ∨
        val = IO_COLLISION_METHOD_AND_WIRES) →
      set_io_source_collision_handling s val = (-1, s)) := by
  unfold set_io_source_collision_handling
  by_cases h : val = IO_COLLISION_METHOD_DETACH_ALL ∨ val = IO_COLLISION_METHOD_DETACH_LAST ∨
      val = IO_COLLISION_METHOD_AND_WIRES
  · simp [h]
  · simp [h]

/-- C16: for every state and every descriptor `d` whose start address lies in the page $FD00 or
$FE00, `io_source_register(d)` appends `d`, with `order` set to the counter before the call, at
the tail of the list of that page and leaves the other list and the collision method as they
are; the counter is incremented by one (as an `unsigned int`: modulo 2^32), whichever the
page. -/
theorem io_source_register_C16 (s : io_state) (d : io_source_t)
    (hpage : d.start_address &&& 0xff00 = 0xfd00 ∨ d.start_address &&& 0xff00 = 0xfe00) :
    ∃ node s1, io_source_register s d = some (node, s1) ∧
      s1.order = (s.order + 1) % 4294967296 ∧
      (s.order < 0xffffffff → s1.order = s.order + 1) ∧
      s1.io_source_collision_handling = s.io_source_collision_handling ∧
      (d.start_address &&& 0xff00 = 0xfd00 →
        s1.plus4io_fd00_head = s.plus4io_fd00_head ++ [{ d with order := s.order }] ∧
        s1.plus4io_fe00_head = s.plus4io_fe00_head) ∧
      (d.start_address &&& 0xff00 = 0xfe00 →
        s1.plus4io_fe00_head = s.plus4io_fe00_head ++ [{ d with order := s.order }] ∧
        s1.plus4io_fd00_head = s.plus4io_fd00_head) := by
  have hmod : s.order < 0xffffffff → (s.order + 1) % 4294967296 = s.order + 1 := by
    intro h; omega
  rcases hpage with h | h
  · refine ⟨{ region := 0xfd00, index := s.plus4io_fd00_head.length },
      { s with
        plus4io_fd00_head := s.plus4io_fd00_head ++ [{ d with order := s.order }],
        order := (s.order + 1) % 4294967296 },
      by simp [io_source_register, h], rfl, hmod, rfl, fun _ => ⟨rfl, rfl⟩, ?_⟩
    intro h2; rw [h] at h2; exact absurd h2 (by decide)
  · have hne : ¬ d.start_address &&& 0xff00 = 0xfd00 := by rw [h]; decide
    refine ⟨{ region := 0xfe00, index := s.plus4io_fe00_head.length },
      { s with
        plus4io_fe00_head := s.plus4io_fe00_head ++ [{ d with order := s.order }],
        order := (s.order + 1) % 4294967296 },
      by simp [io_source_register, h], rfl, hmod, rfl, ?_, fun _ => ⟨rfl, rfl⟩⟩
    intro h2; exact absurd h2 hne

/-- C16 at the registration of a device of the $FE00 page. -/
theorem io_source_register_C16_witness :
    ((sample_fe00_device "G" 0x77).start_address &&& 0xff00 = 0xfd00 ∨
        (sample_fe00_device "G" 0x77).start_address &&& 0xff00 = 0xfe00) ∧
      ∃ node s1, io_source_register (sample_state 0) (sample_fe00_device "G" 0x77) =
          some (node, s1) ∧
        s1.order = ((sample_state 0).order + 1) % 4294967296 ∧
        ((sample_state 0).order < 0xffffffff → s1.order = (sample_state 0).order + 1) ∧
        s1.io_source_collision_handling = (sample_state 0).io_source_collision_handling ∧
        ((sample_fe00_device "G" 0x77).start_address &&& 0xff00 = 0xfd00 →
          s1.plus4io_fd00_head = (sample_state 0).plus4io_fd00_head ++
            [{ sample_fe00_device "G" 0x77 with order := (sample_state 0).order }] ∧
          s1.plus4io_fe00_head = (sample_state 0).plus4io_fe00_head) ∧
        ((sample_fe00_device "G" 0x77).start_address &&& 0xff00 = 0xfe00 →
          s1.plus4io_fe00_head = (sample_state 0).plus4io_fe00_head ++
            [{ sample_fe00_device "G" 0x77 with order := (sample_state 0).order }] ∧
          s1.plus4io_fd00_head = (sample_state 0).plus4io_fd00_head) :=
  ⟨by decide, io_source_register_C16 (sample_state 0) (sample_fe00_device "G" 0x77) (by decide)⟩

/-- The counter after an unregistration, when the order removed is below a counter that fits
32 bits. -/
theorem order_after_unregister_eq (c r : Nat) (hc : c < 4294967296) (hr : r < c) :
    order_after_unregister c r = if r + 1 = c then c - 1 else c := by
  unfold order_after_unregister
  have h1 : (c + 4294967295) % 4294967296 = c - 1 := by omega
  rw [h1]
  by_cases h : r + 1 = c
  · have h2 : r = c - 1 := by omega
    have h3 : c ≠ 0 := by omega
    rw [if_pos h2, if_pos h3, if_pos h]
  · have h2 : r ≠ c - 1 := by omega
    rw [if_neg h2, if_neg h]

/-- C17, as amended: in every state reached from the empty registry by registrations and
unregistrations during which the counter did not wrap around, unregistering a registered
device succeeds and decrements the counter by one when the order of the device is the counter
minus one, and leaves the counter unchanged otherwise; in particular it leaves the counter
unchanged when a device of higher order (registered later) is still present. -/
theorem io_source_unregister_counter_C17 (ops : List registry_op) (s : io_state)
    (node : io_source_list_t) (d : io_source_t)
    (hrun : run_ops io_state.init ops = some s)
    (hwrap : counter_never_wraps io_state.init ops = true)
    (hnode : s.node_at node d) :
    ∃ s1, io_source_unregister s node = some s1 ∧
      (d.order + 1 = s.order → s1.order = s.order - 1) ∧
      (d.order + 1 ≠ s.order → s1.order = s.order) ∧
      ((∃ x ∈ s.devices, d.order < x.order) → s1.order = s.order) := by
  obtain ⟨hbelow, _, hfit⟩ := registry_invariant io_state.init s ops
    (by simp [io_state.devices, io_state.init]) (by simp [io_state.orders_distinct,
      io_state.devices, io_state.init]) (by simp [io_state.init]) hwrap hrun
  have hd : d.order < s.order := by
    apply hbelow
    rcases hnode with ⟨_, hget⟩ | ⟨_, hget⟩
    · exact List.mem_append_left _ (List.get?_mem hget)
    · exact List.mem_append_right _ (List.get?_mem hget)
  have hun : ∃ s1, io_source_unregister s node = some s1 ∧
      s1.order = order_after_unregister s.order d.order := by
    rcases hnode with ⟨hreg, hget⟩ | ⟨hreg, hget⟩
    · refine ⟨{ s with
        plus4io_fd00_head := s.plus4io_fd00_head.eraseIdx node.index,
        order := order_after_unregister s.order d.order }, ?_, rfl⟩
      unfold io_source_unregister
      rw [if_pos hreg, hget]
    · refine ⟨{ s with
        plus4io_fe00_head := s.plus4io_fe00_head.eraseIdx node.index,
        order := order_after_unregister s.order d.order }, ?_, rfl⟩
      unfold io_source_unregister
      rw [if_neg (by rw [hreg]; decide), if_pos hreg, hget]
  obtain ⟨s1, hs1, hord⟩ := hun
  rw [order_after_unregister_eq s.order d.order hfit hd] at hord
  refine ⟨s1, hs1, ?_, ?_, ?_⟩
  · intro h
    rw [hord, if_pos h]
  · intro h
    rw [hord, if_neg h]
  · rintro ⟨x, hx, hlt⟩
    have := hbelow x hx
    rw [hord, if_neg (by omega)]

/-- C17 as amended, at the unregistration of the third of three devices. -/
theorem io_source_unregister_counter_C17_witness :
    run_ops io_state.init (sample_hole_history.take 3) = some sample_three_state ∧
      ∃ s1, io_source_unregister sample_three_state { region := 0xfd00, index := 2 } = some s1 ∧
        ((sample_device "C" 1 IO_PRIO_NORMAL 2 0x56).order + 1 = sample_three_state.order →
          s1.order = sample_three_state.order - 1) ∧
        ((sample_device "C" 1 IO_PRIO_NORMAL 2 0x56).order + 1 ≠ sample_three_state.order →
          s1.order = sample_three_state.order) ∧
        ((∃ x ∈ sample_three_state.devices,
            (sample_device "C" 1 IO_PRIO_NORMAL 2 0x56).order < x.order) →
          s1.order = sample_three_state.order) :=
  ⟨rfl, io_source_unregister_counter_C17 (sample_hole_history.take 3) sample_three_state
    { region := 0xfd00, index := 2 } (sample_device "C" 1 IO_PRIO_NORMAL 2 0x56)
    rfl (by decide) (Or.inl ⟨rfl, rfl⟩)⟩

/-- C17 as stated fails: after A, B, C are registered and B, then C, unregistered, the counter
is 2 and A (order 0) is the only device present, hence the most recently registered one still
present; unregistering it leaves the counter at 2. -/
theorem io_source_unregister_hole_C17_counterexample :
    counter_never_wraps io_state.init sample_hole_history = true ∧
      (run_ops io_state.init sample_hole_history).map
          (fun s => (s.order, s.devices.map (fun d => (d.name, d.order)))) =
        some (2, [("A", 0)]) ∧
      (run_ops io_state.init
          (sample_hole_history ++ [.unregister { region := 0xfd00, index := 0 }])).map
          (fun s => (s.order, s.devices.length)) =
        some (2, 0) := by
  decide

/-- C18, as amended: in every state reached from the empty registry with counter 0 by
registrations and unregistrations during which the counter did not wrap around, the orders of
the registered devices are pairwise distinct across both regions. -/
theorem registry_orders_distinct_C18 (ops : List registry_op) (s : io_state)
    (hrun : run_ops io_state.init ops = some s)
    (hwrap : counter_never_wraps io_state.init ops = true) :
    s.orders_distinct :=
  (registry_invariant io_state.init s ops
    (by simp [io_state.devices, io_state.init]) (by simp [io_state.orders_distinct,
      io_state.devices, io_state.init]) (by simp [io_state.init]) hwrap hrun).2.1

/-- C18 as amended, at the history that leaves one device of three. -/
theorem registry_orders_distinct_C18_witness :
    run_ops io_state.init sample_hole_history = some sample_one_state ∧
      counter_never_wraps io_state.init sample_hole_history = true ∧
      sample_one_state.orders_distinct :=
  ⟨rfl, by decide,
    registry_orders_distinct_C18 sample_hole_history sample_one_state rfl (by decide)⟩

/-! ## A history that wraps the counter around -/

/-- One repetition of the long history. -/
theorem churn_round (n : Nat) :
    run_ops (churn_state n)
        [.register (churn_device (n + 1)), .unregister { region := 0xfd00, index := 1 }] =
      some (churn_state (n + 1)) := by
  have h1 : ((n + 2) % 4294967296 + 1) % 4294967296 = (n + 1 + 2) % 4294967296 := by omega
  have h2 : ¬ (n + 1) % 4294967296 =
      (((n + 2) % 4294967296 + 1) % 4294967296 + 4294967295) % 4294967296 := by omega
  have hpage : (churn_device (n + 1)).start_address &&& 0xff00 = 0xfd00 := by
    show (0xfd00 : Nat) &&& 0xff00 = 0xfd00
    decide
  have hreg : io_source_register (churn_state n) (churn_device (n + 1)) =
      some ({ region := 0xfd00, index := 2 },
        { io_source_collision_handling := 0,
          order := ((n + 2) % 4294967296 + 1) % 4294967296,
          plus4io_fd00_head :=
            [sample_device "Keep" 1 IO_PRIO_NORMAL 0 0x12,
              { churn_device n with order := (n + 1) % 4294967296 },
              { churn_device (n + 1) with order := (n + 2) % 4294967296 }],
          plus4io_fe00_head := [] }) := by
    unfold io_source_register
    rw [if_pos hpage]
    rfl
  have hun : io_source_unregister
      { io_source_collision_handling := 0,
        order := ((n + 2) % 4294967296 + 1) % 4294967296,
        plus4io_fd00_head :=
          [sample_device "Keep" 1 IO_PRIO_NORMAL 0 0x12,
            { churn_device n with order := (n + 1) % 4294967296 },
            { churn_device (n + 1) with order := (n + 2) % 4294967296 }],
        plus4io_fe00_head := [] }
      { region := 0xfd00, index := 1 } =
      some { io_source_collision_handling := 0,
             order := order_after_unregister (((n + 2) % 4294967296 + 1) % 4294967296)
               ((n + 1) % 4294967296),
             plus4io_fd00_head :=
               [sample_device "Keep" 1 IO_PRIO_NORMAL 0 0x12,
                 { churn_device (n + 1) with order := (n + 2) % 4294967296 }],
             plus4io_fe00_head := [] } := by
    unfold io_source_unregister
    rw [if_pos rfl]
    rfl
  have hord : order_after_unregister (((n + 2) % 4294967296 + 1) % 4294967296)
      ((n + 1) % 4294967296) = (n + 1 + 2) % 4294967296 := by
    unfold order_after_unregister
    rw [if_neg h2, h1]
  rw [run_ops, apply_op, hreg]
  simp only []
  rw [run_ops, apply_op, hun]
  simp only []
  rw [run_ops, hord]
  rfl

/-- The repetitions of the long history. -/
theorem churn_run (n : Nat) :
    run_ops (churn_state 0) (churn_history n) = some (churn_state n) := by
  induction n with
  | zero => rfl
  | succ n ih =>
    rw [churn_history, run_ops_append, ih]
    exact churn_round n

/-- The long history, whatever the number of repetitions. -/
theorem wrap_run (n : Nat) :
    run_ops io_state.init (wrap_history n) = some (wrap_state n) := by
  have hstart : run_ops io_state.init
      [.register (sample_device "Keep" 1 IO_PRIO_NORMAL 0 0x12), .register (churn_device 0)] =
      some (churn_state 0) := rfl
  have hpage : ¬ (sample_fe00_device "Last" 0x34).start_address &&& 0xff00 = 0xfd00 := by
    decide
  have hend : run_ops (churn_state n) [.register (sample_fe00_device "Last" 0x34)] =
      some (wrap_state n) := by
    rw [run_ops, apply_op, io_source_register, if_neg hpage, if_pos (by decide)]
    rfl
  rw [wrap_history, run_ops_append, run_ops_append, hstart]
  simp only [churn_run n]
  exact hend

/-- C18 as stated fails once the counter wraps around: after 2^32 + 1 registrations, with one
device kept from the start and each other one unregistered once its successor is registered,
the device kept and the device registered last both have order 0. -/
theorem registry_orders_wrap_C18_counterexample :
    run_ops io_state.init (wrap_history 4294967294) = some (wrap_state 4294967294) ∧
      ¬ (wrap_state 4294967294).orders_distinct :=
  ⟨wrap_run 4294967294, by decide⟩

/-! ## Shutdown and detach -/

/-- The loop of `cartio_shutdown` over the $FD00 list ends, with enough iterations allowed,
having unregistered every node of the list once, first to last. -/
theorem cartio_shutdown_loop_fd00 (fuel : Nat) (s : io_state)
    (h : s.plus4io_fd00_head.length ≤ fuel) :
    ∃ s1, cartio_shutdown_loop 0xfd00 fuel s = some (s1, s.plus4io_fd00_head) ∧
      s1.plus4io_fd00_head = [] ∧ s1.plus4io_fe00_head = s.plus4io_fe00_head ∧
      s1.io_source_collision_handling = s.io_source_collision_handling := by
  induction fuel generalizing s with
  | zero =>
    have hnil : s.plus4io_fd00_head = [] := List.length_eq_zero.1 (Nat.le_zero.1 h)
    exact ⟨s, by unfold cartio_shutdown_loop; simp [hnil], hnil, rfl, rfl⟩
  | succ fuel ih =>
    cases hl : s.plus4io_fd00_head with
    | nil => exact ⟨s, by unfold cartio_shutdown_loop; simp [hl], hl, rfl, rfl⟩
    | cons d rest =>
      have hun : io_source_unregister s { region := 0xfd00, index := 0 } =
          some { s with plus4io_fd00_head := rest,
                        order := order_after_unregister s.order d.order } := by
        unfold io_source_unregister
        simp [hl]
      obtain ⟨s1, hs1, hfd, hfe, hpol⟩ := ih
        { s with plus4io_fd00_head := rest,
                 order := order_after_unregister s.order d.order }
        (by rw [hl] at h; simp at h ⊢; omega)
      refine ⟨s1, ?_, hfd, hfe, hpol⟩
      rw [cartio_shutdown_loop]
      simp only [if_true, hl, hun, hs1]

/-- The loop of `cartio_shutdown` over the $FE00 list. -/
theorem cartio_shutdown_loop_fe00 (fuel : Nat) (s : io_state)
    (h : s.plus4io_fe00_head.length ≤ fuel) :
    ∃ s1, cartio_shutdown_loop 0xfe00 fuel s = some (s1, s.plus4io_fe00_head) ∧
      s1.plus4io_fe00_head = [] ∧ s1.plus4io_fd00_head = s.plus4io_fd00_head ∧
      s1.io_source_collision_handling = s.io_source_collision_handling := by
  have hne : ¬ ((0xfe00 : Nat) = 0xfd00) := by decide
  induction fuel generalizing s with
  | zero =>
    have hnil : s.plus4io_fe00_head = [] := List.length_eq_zero.1 (Nat.le_zero.1 h)
    exact ⟨s, by unfold cartio_shutdown_loop; simp [hnil], hnil, rfl, rfl⟩
  | succ fuel ih =>
    cases hl : s.plus4io_fe00_head with
    | nil => exact ⟨s, by unfold cartio_shutdown_loop; simp [hl], hl, rfl, rfl⟩
    | cons d rest =>
      have hun : io_source_unregister s { region := 0xfe00, index := 0 } =
          some { s with plus4io_fe00_head := rest,
                        order := order_after_unregister s.order d.order } := by
        unfold io_source_unregister
        simp [hl]
      obtain ⟨s1, hs1, hfe, hfd, hpol⟩ := ih
        { s with plus4io_fe00_head := rest,
                 order := order_after_unregister s.order d.order }
        (by rw [hl] at h; simp at h ⊢; omega)
      refine ⟨s1, ?_, hfe, hfd, hpol⟩
      rw [cartio_shutdown_loop]
      simp only [hne, if_false, hl, hun, hs1]

/-- C19: `cartio_shutdown` ends (it returns once each loop is allowed as many iterations as its
list has nodes), having handed every node to `io_source_unregister` exactly once, those of the
$FD00 list first, and afterwards both lists are empty. -/
theorem cartio_shutdown_C19 (fuel : Nat) (s : io_state)
    (hfd : s.plus4io_fd00_head.length ≤ fuel) (hfe : s.plus4io_fe00_head.length ≤ fuel) :
    ∃ s1, cartio_shutdown fuel s =
        some (s1, s.plus4io_fd00_head ++ s.plus4io_fe00_head) ∧
      s1.plus4io_fd00_head = [] ∧ s1.plus4io_fe00_head = [] := by
  obtain ⟨s1, hs1, h1fd, h1fe, _⟩ := cartio_shutdown_loop_fd00 fuel s hfd
  obtain ⟨s2, hs2, h2fe, h2fd, _⟩ := cartio_shutdown_loop_fe00 fuel s1 (by rw [h1fe]; exact hfe)
  refine ⟨s2, ?_, by rw [h2fd, h1fd], h2fe⟩
  unfold cartio_shutdown
  rw [hs1]
  simp only [hs2, h1fe]

/-- C19 at a state with two devices in the $FD00 list and one in the $FE00 list. -/
theorem cartio_shutdown_C19_witness :
    (sample_state 0).plus4io_fd00_head.length ≤ 2 ∧
      (sample_state 0).plus4io_fe00_head.length ≤ 2 ∧
      ∃ s1, cartio_shutdown 2 (sample_state 0) =
          some (s1, (sample_state 0).plus4io_fd00_head ++ (sample_state 0).plus4io_fe00_head) ∧
        s1.plus4io_fd00_head = [] ∧ s1.plus4io_fe00_head = [] :=
  ⟨by decide, by decide, cartio_shutdown_C19 2 (sample_state 0) (by decide) (by decide)⟩

/-- C20: `io_source_detach` does one thing at most: for `IO_DETACH_RESOURCE` it calls
`resources_set_int(det_name, 0)` and nothing else; for `IO_DETACH_CART` with a cartridge id that
is neither `CARTRIDGE_NONE` nor (the asserted precondition) `CARTRIDGE_CRT` it calls
`cartridge_detach_image(det_cartid)` and nothing else; for `IO_DETACH_CART` with
`CARTRIDGE_NONE` it does nothing. -/
theorem io_source_detach_C20 (source : io_source_detach_t) :
    (source.det_id = IO_DETACH_RESOURCE →
      io_source_detach source = some [Event.resources_set_int source.det_name 0]) ∧
    (source.det_id = IO_DETACH_CART → source.det_cartid ≠ CARTRIDGE_NONE →
      source.det_cartid ≠ CARTRIDGE_CRT →
      io_source_detach source = some [Event.cartridge_detach_image source.det_cartid]) ∧
    (source.det_id = IO_DETACH_CART → source.det_cartid = CARTRIDGE_NONE →
      io_source_detach source = some []) := by
  refine ⟨?_, ?_, ?_⟩
  · intro h
    have hne : ¬ source.det_id = IO_DETACH_CART := by rw [h]; decide
    unfold io_source_detach
    rw [if_neg hne, if_pos h]
  · intro h h1 h2
    simp [io_source_detach, h, h1, h2]
  · intro h h1
    simp [io_source_detach, h, h1]

/-- C20 at a resource record, a cartridge record and a record with `CARTRIDGE_NONE`. -/
theorem io_source_detach_C20_witness :
    io_source_detach sample_detach_resource =
        some [Event.resources_set_int sample_detach_resource.det_name 0] ∧
      io_source_detach (sample_detach_cart 5) =
        some [Event.cartridge_detach_image (sample_detach_cart 5).det_cartid] ∧
      io_source_detach (sample_detach_cart CARTRIDGE_NONE) = some [] :=
  ⟨(io_source_detach_C20 sample_detach_resource).1 rfl,
    (io_source_detach_C20 (sample_detach_cart 5)).2.1 rfl (by decide) (by decide),
    (io_source_detach_C20 (sample_detach_cart CARTRIDGE_NONE)).2.2 rfl rfl⟩

/-! ## Lemmas on the collision handlers -/


theorem conflicts_iff (d : io_source_t) (addr : Nat) :
    d.conflicts addr = true ↔
      (d.io_source_valid ≠ 0 ∧ d.covers addr ∧ d.io_source_prio = IO_PRIO_NORMAL) := by
  simp [io_source_t.conflicts, and_assoc]

/-- The message after the first device found. -/
theorem msg_step_first (amount : Int) (name : String) (suffix : List (Option String))
    (new_msg : Option String) (h : (0 : Int) ≠ amount - 1) :
    msg_step 0 amount name suffix new_msg =
      some (some ("I/O read collision at %X from " ++ name)) := by
  unfold msg_step
  simp only [if_true, ne_eq, not_true_eq_false, and_false, if_false, h, util_concat]

/-- The message after a device found that is neither the first nor the last. -/
theorem msg_step_middle (found amount : Int) (name : String) (suffix : List (Option String))
    (m : String) (h0 : found ≠ 0) (h1 : found ≠ amount - 1) :
    msg_step found amount name suffix (some m) = some (some (m ++ ", " ++ name)) := by
  unfold msg_step
  simp only [h0, if_false, ne_eq, h1, not_false_eq_true, and_self, if_true, util_concat]

/-- The message after the last device found. -/
theorem msg_step_last (found amount : Int) (name : String) (suffix : List (Option String))
    (m : String) (h0 : found ≠ 0) (h1 : found = amount - 1) :
    msg_step found amount name suffix (some m) =
      some (some (util_concat m ([some " and ", some name] ++ suffix))) := by
  subst h1
  unfold msg_step
  simp only [h0, if_false, ne_eq, not_true_eq_false, false_and, if_true]

/-- The text `util_concat` builds at the end of the message of `io_source_msg_detach_last`. -/
theorem util_concat_detach_last (m name : String) (fc : Option String) :
    util_concat m ([some " and ", some name] ++
        [some ".\nAll devices except ", fc, some " will be detached."]) =
      m ++ " and " ++ name ++ detach_last_suffix fc := by
  cases fc with
  | none => simp [util_concat, detach_last_suffix, String.append_assoc]
  | some k => simp [util_concat, detach_last_suffix, String.append_assoc]

/-- The walk of `io_source_msg_detach_last` only looks at the devices that pass its test. -/
theorem io_source_msg_detach_last_walk_filter (addr : Nat) (amount : Int) (lowest : Nat)
    (l : List io_source_t) (v : msg_vars) :
    io_source_msg_detach_last_walk addr amount lowest l v =
      io_source_msg_detach_last_walk addr amount lowest
        (l.filter (fun d => d.conflicts addr)) v := by
  induction l generalizing v with
  | nil => rfl
  | cons d rest ih =>
    by_cases hc : d.conflicts addr = true
    · have hc2 := (conflicts_iff d addr).1 hc
      simp only [List.filter_cons, hc, if_true]
      rw [io_source_msg_detach_last_walk, io_source_msg_detach_last_walk, if_pos hc2, if_pos hc2]
      by_cases hb : 0 ≤ v.found ∧ v.found < amount
      · rw [if_pos hb, if_pos hb]
        dsimp only
        split
        · rfl
        · by_cases h2 : v.found + 1 = amount
          · rw [if_pos h2, if_pos h2]
          · rw [if_neg h2, if_neg h2]
            exact ih _
      · rw [if_neg hb, if_neg hb]
    · have hc2 : ¬ (d.io_source_valid ≠ 0 ∧ d.covers addr ∧
          d.io_source_prio = IO_PRIO_NORMAL) := fun h => hc ((conflicts_iff d addr).2 h)
      simp only [List.filter_cons, hc, if_false]
      rw [io_source_msg_detach_last_walk, if_neg hc2]
      exact ih v

/-- The middle names and the last one, for `io_source_msg_detach_last`. -/
theorem io_source_msg_detach_last_walk_rest (addr : Nat) (amount : Int) (lowest : Nat)
    (mids : List io_source_t) (ck : io_source_t) (more : List io_source_t) (v : msg_vars)
    (m : String)
    (hc : ∀ d ∈ mids ++ [ck], d.conflicts addr = true)
    (hfound : 1 ≤ v.found) (hamount : v.found + mids.length + 1 = amount)
    (hmsg : v.new_msg = some m) :
    io_source_msg_detach_last_walk addr amount lowest (mids ++ ck :: more) v =
      some
        { found := amount,
          new_msg := some (mids.foldl (fun acc d => acc ++ ", " ++ d.name) m ++ " and " ++
            ck.name ++ detach_last_suffix ((mids ++ [ck]).foldl
              (fun fc d => if d.order = lowest then some d.name else fc) v.first_cart)),
          first_cart := (mids ++ [ck]).foldl
            (fun fc d => if d.order = lowest then some d.name else fc) v.first_cart,
          detach_list := v.detach_list ++
            (mids ++ [ck]).map (fun d => d.detach_entry d.order) } := by
  induction mids generalizing v m with
  | nil =>
    have hck := (conflicts_iff ck addr).1 (hc ck (by simp))
    have h1 : v.found = amount - 1 := by simp at hamount; omega
    have h0 : v.found ≠ 0 := by omega
    have hb : 0 ≤ v.found ∧ v.found < amount := by omega
    have h2 : v.found + 1 = amount := by omega
    simp only [List.nil_append, List.foldl_cons, List.foldl_nil, List.map_cons, List.map_nil]
    rw [io_source_msg_detach_last_walk, if_pos hck, if_pos hb, hmsg]
    simp only []
    rw [msg_step_last _ _ _ _ _ h0 h1, util_concat_detach_last]
    simp only []
    rw [if_pos h2, h2]
    rfl
  | cons c mids ih =>
    have hcc := (conflicts_iff c addr).1 (hc c (by simp))
    have hlen : v.found + mids.length + 2 = amount := by
      simp only [List.length_cons, Nat.cast_add, Nat.cast_one] at hamount; omega
    have h1 : v.found ≠ amount - 1 := by omega
    have h0 : v.found ≠ 0 := by omega
    have hb : 0 ≤ v.found ∧ v.found < amount := by omega
    have h2 : ¬ v.found + 1 = amount := by omega
    rw [List.cons_append, io_source_msg_detach_last_walk, if_pos hcc, if_pos hb, hmsg]
    simp only []
    rw [msg_step_middle _ _ _ _ _ h0 h1]
    simp only []
    rw [if_neg h2, ih _ (m ++ ", " ++ c.name) (fun d hd => hc d (by simp at hd ⊢; tauto))
      (by simp; omega) (by simp; omega) rfl]
    simp [io_source_t.detach_entry]

/-- The text `util_concat` builds at the end of the message of `io_source_msg_detach_all`. -/
theorem util_concat_detach_all (m name : String) :
    util_concat m ([some " and ", some name] ++
        [some ".\nAll the named devices will be detached."]) =
      m ++ " and " ++ name ++ ".\nAll the named devices will be detached." := by
  simp [util_concat, String.append_assoc]

/-- The text `util_concat` builds at the end of the message of `io_source_log_collisions`. -/
theorem util_concat_log_collisions (m name : String) :
    util_concat m ([some " and ", some name] ++ []) = m ++ " and " ++ name ++ "" := by
  simp [util_concat, String.append_assoc]

/-- The walk of `io_source_msg_detach_all` only looks at the devices that pass its test. -/
theorem io_source_msg_detach_all_walk_filter (addr : Nat) (amount : Int)
    (l : List io_source_t) (v : msg_vars) :
    io_source_msg_detach_all_walk addr amount l v =
      io_source_msg_detach_all_walk addr amount (l.filter (fun d => d.conflicts addr)) v := by
  induction l generalizing v with
  | nil => rfl
  | cons d rest ih =>
    by_cases hc : d.conflicts addr = true
    · have hc2 := (conflicts_iff d addr).1 hc
      simp only [List.filter_cons, hc, if_true]
      rw [io_source_msg_detach_all_walk, io_source_msg_detach_all_walk, if_pos hc2, if_pos hc2]
      by_cases hb : 0 ≤ v.found ∧ v.found < amount
      · rw [if_pos hb, if_pos hb]
        dsimp only
        split
        · rfl
        · by_cases h2 : v.found + 1 = amount
          · rw [if_pos h2, if_pos h2]
          · rw [if_neg h2, if_neg h2]
            exact ih _
      · rw [if_neg hb, if_neg hb]
    · have hc2 : ¬ (d.io_source_valid ≠ 0 ∧ d.covers addr ∧
          d.io_source_prio = IO_PRIO_NORMAL) := fun h => hc ((conflicts_iff d addr).2 h)
      simp only [List.filter_cons, hc, if_false]
      rw [io_source_msg_detach_all_walk, if_neg hc2]
      exact ih v

/-- The walk of `io_source_log_collisions` only looks at the devices that pass its test. -/
theorem io_source_log_collisions_walk_filter (addr : Nat) (amount : Int)
    (l : List io_source_t) (v : msg_vars) :
    io_source_log_collisions_walk addr amount l v =
      io_source_log_collisions_walk addr amount (l.filter (fun d => d.conflicts addr)) v := by
  induction l generalizing v with
  | nil => rfl
  | cons d rest ih =>
    by_cases hc : d.conflicts addr = true
    · have hc2 := (conflicts_iff d addr).1 hc
      simp only [List.filter_cons, hc, if_true]
      rw [io_source_log_collisions_walk, io_source_log_collisions_walk, if_pos hc2, if_pos hc2]
      split
      · rfl
      · dsimp only
        by_cases h2 : v.found + 1 = amount
        · rw [if_pos h2, if_pos h2]
        · rw [if_neg h2, if_neg h2]
          exact ih _
    · have hc2 : ¬ (d.io_source_valid ≠ 0 ∧ d.covers addr ∧
          d.io_source_prio = IO_PRIO_NORMAL) := fun h => hc ((conflicts_iff d addr).2 h)
      simp only [List.filter_cons, hc, if_false]
      rw [io_source_log_collisions_walk, if_neg hc2]
      exact ih v

/-- The middle names and the last one, for `io_source_msg_detach_all`. -/
theorem io_source_msg_detach_all_walk_rest (addr : Nat) (amount : Int)
    (mids : List io_source_t) (ck : io_source_t) (more : List io_source_t) (v : msg_vars)
    (m : String)
    (hc : ∀ d ∈ mids ++ [ck], d.conflicts addr = true)
    (hfound : 1 ≤ v.found) (hamount : v.found + mids.length + 1 = amount)
    (hmsg : v.new_msg = some m) :
    io_source_msg_detach_all_walk addr amount (mids ++ ck :: more) v =
      some
        { found := amount,
          new_msg := some (mids.foldl (fun acc d => acc ++ ", " ++ d.name) m ++ " and " ++
            ck.name ++ ".\nAll the named devices will be detached."),
          first_cart := v.first_cart,
          detach_list := v.detach_list ++ (mids ++ [ck]).map (fun d => d.detach_entry 0) } := by
  induction mids generalizing v m with
  | nil =>
    have hck := (conflicts_iff ck addr).1 (hc ck (by simp))
    have h1 : v.found = amount - 1 := by simp at hamount; omega
    have h0 : v.found ≠ 0 := by omega
    have hb : 0 ≤ v.found ∧ v.found < amount := by omega
    have h2 : v.found + 1 = amount := by omega
    simp only [List.nil_append, List.foldl_nil, List.map_cons, List.map_nil]
    rw [io_source_msg_detach_all_walk, if_pos hck, if_pos hb, hmsg]
    rw [msg_step_last _ _ _ _ _ h0 h1, util_concat_detach_all]
    simp only []
    rw [if_pos h2, h2]
    rfl
  | cons c mids ih =>
    have hcc := (conflicts_iff c addr).1 (hc c (by simp))
    have hlen : v.found + mids.length + 2 = amount := by
      simp only [List.length_cons, Nat.cast_add, Nat.cast_one] at hamount; omega
    have h1 : v.found ≠ amount - 1 := by omega
    have h0 : v.found ≠ 0 := by omega
    have hb : 0 ≤ v.found ∧ v.found < amount := by omega
    have h2 : ¬ v.found + 1 = amount := by omega
    rw [List.cons_append, io_source_msg_detach_all_walk, if_pos hcc, if_pos hb, hmsg]
    rw [msg_step_middle _ _ _ _ _ h0 h1]
    simp only []
    rw [if_neg h2, ih _ (m ++ ", " ++ c.name) (fun d hd => hc d (by simp at hd ⊢; tauto))
      (by simp; omega) (by simp; omega) rfl]
    simp [io_source_t.detach_entry]

/-- The middle names and the last one, for `io_source_log_collisions`. -/
theorem io_source_log_collisions_walk_rest (addr : Nat) (amount : Int)
    (mids : List io_source_t) (ck : io_source_t) (more : List io_source_t) (v : msg_vars)
    (m : String)
    (hc : ∀ d ∈ mids ++ [ck], d.conflicts addr = true)
    (hfound : 1 ≤ v.found) (hamount : v.found + mids.length + 1 = amount)
    (hmsg : v.new_msg = some m) :
    io_source_log_collisions_walk addr amount (mids ++ ck :: more) v =
      some
        { found := amount,
          new_msg := some (mids.foldl (fun acc d => acc ++ ", " ++ d.name) m ++ " and " ++
            ck.name ++ ""),
          first_cart := v.first_cart,
          detach_list := v.detach_list } := by
  induction mids generalizing v m with
  | nil =>
    have hck := (conflicts_iff ck addr).1 (hc ck (by simp))
    have h1 : v.found = amount - 1 := by simp at hamount; omega
    have h0 : v.found ≠ 0 := by omega
    have h2 : v.found + 1 = amount := by omega
    simp only [List.nil_append, List.foldl_nil]
    rw [io_source_log_collisions_walk, if_pos hck, hmsg]
    rw [msg_step_last _ _ _ _ _ h0 h1, util_concat_log_collisions]
    simp only []
    rw [if_pos h2, h2]
  | cons c mids ih =>
    have hcc := (conflicts_iff c addr).1 (hc c (by simp))
    have hlen : v.found + mids.length + 2 = amount := by
      simp only [List.length_cons, Nat.cast_add, Nat.cast_one] at hamount; omega
    have h1 : v.found ≠ amount - 1 := by omega
    have h0 : v.found ≠ 0 := by omega
    have h2 : ¬ v.found + 1 = amount := by omega
    rw [List.cons_append, io_source_log_collisions_walk, if_pos hcc, hmsg]
    rw [msg_step_middle _ _ _ _ _ h0 h1]
    simp only []
    rw [if_neg h2, ih _ (m ++ ", " ++ c.name) (fun d hd => hc d (by simp at hd ⊢; tauto))
      (by simp; omega) (by simp; omega) rfl]
    simp

/-- A list of two elements or more is a first element, middle ones and a last one. -/
theorem list_first_middle_last (n : List io_source_t) (h : 2 ≤ n.length) :
    ∃ c1 mids ck, n = c1 :: (mids ++ [ck]) ∧ mids.length + 2 = n.length := by
  cases n with
  | nil => simp at h
  | cons c1 t =>
    have ht : t ≠ [] := by
      intro h0; subst h0; simp at h
    refine ⟨c1, t.dropLast, t.getLast ht, ?_, ?_⟩
    · rw [List.dropLast_append_getLast ht]
    · simp only [List.length_dropLast, List.length_cons]
      have : 1 ≤ t.length := by simp only [List.length_cons] at h; omega
      omega

/-- The message of a first name, middle names and a last name, as built along the list. -/
theorem collision_message_of_eq (c1 : io_source_t) (mids : List io_source_t)
    (ck : io_source_t) (suffix : String) :
    collision_message_of ((c1 :: (mids ++ [ck])).map (fun d => d.name)) suffix =
      mids.foldl (fun acc d => acc ++ ", " ++ d.name)
        ("I/O read collision at %X from " ++ c1.name) ++ " and " ++ ck.name ++ suffix := by
  simp only [collision_message_of, List.map_cons, List.map_append, List.map_nil,
    collision_message]
  rw [List.dropLast_concat, List.getLastD_concat, List.foldl_map]

/-- The walk of `io_source_msg_detach_all` when the list holds `k` devices or more that pass
its test: it finds the first `k` of them and builds the whole message. -/
theorem io_source_msg_detach_all_walk_eq (addr : Nat) (k : Nat) (l : List io_source_t)
    (hk : 2 ≤ k) (hlen : k ≤ (l.filter (fun d => d.conflicts addr)).length) :
    io_source_msg_detach_all_walk addr k l msg_vars.init =
      some (detach_all_vars (named_devices l addr k)) := by
  have hn : (named_devices l addr k).length = k := by
    simp only [named_devices, List.length_take]; omega
  obtain ⟨c1, mids, ck, hdec, hmid⟩ := list_first_middle_last (named_devices l addr k)
    (by omega)
  have hsplit : l.filter (fun d => d.conflicts addr) =
      c1 :: (mids ++ ck :: (l.filter (fun d => d.conflicts addr)).drop k) := by
    conv_lhs => rw [← List.take_append_drop k (l.filter (fun d => d.conflicts addr))]
    have : (l.filter (fun d => d.conflicts addr)).take k = c1 :: (mids ++ [ck]) := hdec
    rw [this]; simp
  have hall : ∀ d ∈ c1 :: (mids ++ [ck]), d.conflicts addr = true := by
    intro d hd
    rw [← hdec] at hd
    have := List.mem_of_mem_take hd
    simpa using (List.mem_filter.1 this).2
  have hc1 := (conflicts_iff c1 addr).1 (hall c1 (by simp))
  have hkk : (mids.length : Int) + 2 = k := by rw [hn] at hmid; exact_mod_cast hmid
  rw [io_source_msg_detach_all_walk_filter, hsplit, io_source_msg_detach_all_walk,
    if_pos hc1]
  simp only [msg_vars.init]
  rw [if_pos (by omega), msg_step_first _ _ _ _ (by omega)]
  simp only []
  rw [if_neg (by omega), io_source_msg_detach_all_walk_rest addr k mids ck _ _
    ("I/O read collision at %X from " ++ c1.name)
    (fun d hd => hall d (List.mem_cons_of_mem _ hd)) (by simp) (by simp; omega) rfl]
  rw [detach_all_vars, hdec, collision_message_of_eq, hn.symm.trans (by rw [hdec])]
  simp [io_source_t.detach_entry]

/-- The walk of `io_source_msg_detach_last` when the list holds `k` devices or more that pass
its test: it finds the first `k` of them and builds the message, up to a NULL `first_cart`. -/
theorem io_source_msg_detach_last_walk_eq (addr : Nat) (k lowest : Nat) (l : List io_source_t)
    (hk : 2 ≤ k) (hlen : k ≤ (l.filter (fun d => d.conflicts addr)).length) :
    io_source_msg_detach_last_walk addr k lowest l msg_vars.init =
      some (detach_last_vars lowest (named_devices l addr k)) := by
  have hn : (named_devices l addr k).length = k := by
    simp only [named_devices, List.length_take]; omega
  obtain ⟨c1, mids, ck, hdec, hmid⟩ := list_first_middle_last (named_devices l addr k)
    (by omega)
  have hsplit : l.filter (fun d => d.conflicts addr) =
      c1 :: (mids ++ ck :: (l.filter (fun d => d.conflicts addr)).drop k) := by
    conv_lhs => rw [← List.take_append_drop k (l.filter (fun d => d.conflicts addr))]
    have : (l.filter (fun d => d.conflicts addr)).take k = c1 :: (mids ++ [ck]) := hdec
    rw [this]; simp
  have hall : ∀ d ∈ c1 :: (mids ++ [ck]), d.conflicts addr = true := by
    intro d hd
    rw [← hdec] at hd
    have := List.mem_of_mem_take hd
    simpa using (List.mem_filter.1 this).2
  have hc1 := (conflicts_iff c1 addr).1 (hall c1 (by simp))
  have hkk : (mids.length : Int) + 2 = k := by rw [hn] at hmid; exact_mod_cast hmid
  rw [io_source_msg_detach_last_walk_filter, hsplit, io_source_msg_detach_last_walk,
    if_pos hc1]
  simp only [msg_vars.init]
  rw [if_pos (by omega), msg_step_first _ _ _ _ (by omega)]
  simp only []
  rw [if_neg (by omega), io_source_msg_detach_last_walk_rest addr k lowest mids ck _ _
    ("I/O read collision at %X from " ++ c1.name)
    (fun d hd => hall d (List.mem_cons_of_mem _ hd)) (by simp) (by simp; omega) rfl]
  rw [detach_last_vars, hdec, collision_message_of_eq, hn.symm.trans (by rw [hdec])]
  simp [io_source_t.detach_entry, first_cart_of]

/-- The walk of `io_source_log_collisions` when the list holds `k` devices or more that pass
its test: it finds the first `k` of them and builds the whole message. -/
theorem io_source_log_collisions_walk_eq (addr : Nat) (k : Nat) (l : List io_source_t)
    (hk : 2 ≤ k) (hlen : k ≤ (l.filter (fun d => d.conflicts addr)).length) :
    io_source_log_collisions_walk addr k l msg_vars.init =
      some (log_collisions_vars (named_devices l addr k)) := by
  have hn : (named_devices l addr k).length = k := by
    simp only [named_devices, List.length_take]; omega
  obtain ⟨c1, mids, ck, hdec, hmid⟩ := list_first_middle_last (named_devices l addr k)
    (by omega)
  have hsplit : l.filter (fun d => d.conflicts addr) =
      c1 :: (mids ++ ck :: (l.filter (fun d => d.conflicts addr)).drop k) := by
    conv_lhs => rw [← List.take_append_drop k (l.filter (fun d => d.conflicts addr))]
    have : (l.filter (fun d => d.conflicts addr)).take k = c1 :: (mids ++ [ck]) := hdec
    rw [this]; simp
  have hall : ∀ d ∈ c1 :: (mids ++ [ck]), d.conflicts addr = true := by
    intro d hd
    rw [← hdec] at hd
    have := List.mem_of_mem_take hd
    simpa using (List.mem_filter.1 this).2
  have hc1 := (conflicts_iff c1 addr).1 (hall c1 (by simp))
  have hkk : (mids.length : Int) + 2 = k := by rw [hn] at hmid; exact_mod_cast hmid
  rw [io_source_log_collisions_walk_filter, hsplit, io_source_log_collisions_walk,
    if_pos hc1]
  simp only [msg_vars.init]
  rw [msg_step_first _ _ _ _ (by omega)]
  simp only []
  rw [if_neg (by omega), io_source_log_collisions_walk_rest addr k mids ck _ _
    ("I/O read collision at %X from " ++ c1.name)
    (fun d hd => hall d (List.mem_cons_of_mem _ hd)) (by simp) (by simp; omega) rfl]
  rw [log_collisions_vars, hdec, collision_message_of_eq, hn.symm.trans (by rw [hdec])]

/-! ## The walk of `io_read` as a fold -/

/-- A later valid response of a device that is not HIGH priority. -/
theorem io_read_walk_next_valid (chm : Int) (addr : Nat) (d : io_source_t)
    (rest : List io_source_t) (v : io_read_vars) (tr : List Event)
    (h : d.responds addr = true) (hv : d.io_source_valid ≠ 0)
    (hp : d.io_source_prio ≠ IO_PRIO_HIGH) (h0 : v.io_source_valid ≠ 0) :
    io_read_walk chm addr (d :: rest) v tr =
      io_read_walk chm addr rest (v.next_valid chm d addr)
        (tr ++ [Event.read d (d.masked addr)]) := by
  rw [io_read_walk, io_read_vars.next_valid]
  cases hr : d.read with
  | none => simp [io_source_t.responds, hr] at h
  | some f =>
    have hc : d.covers addr := by
      simpa [io_source_t.responds, hr] using h
    simp [hc, hv, hp, h0, io_source_t.read_byte, hr]

/-- A walk that reaches the end of the list has met no valid HIGH priority responder, and its
variables are the ones the turns of the loop give one after the other. -/
theorem io_read_walk_finished_fold (chm : Int) (addr : Nat) (l : List io_source_t)
    (v v1 : io_read_vars) (tr calls : List Event)
    (h : io_read_walk chm addr l v tr = .finished v1 calls) :
    v1 = l.foldl (io_read_vars.step chm addr) v ∧
      ∀ d ∈ l, ¬ (d.valid_responder addr = true ∧ d.io_source_prio = IO_PRIO_HIGH) := by
  induction l generalizing v tr with
  | nil =>
    simp only [io_read_walk, io_read_walk_result.finished.injEq] at h
    exact ⟨h.1.symm, by simp⟩
  | cons d rest ih =>
    cases hresp : d.responds addr with
    | false =>
      rw [io_read_walk_skip chm addr d rest v tr hresp] at h
      obtain ⟨h1, h2⟩ := ih v tr h
      refine ⟨?_, ?_⟩
      · rw [List.foldl_cons, io_read_vars.step]
        simpa [hresp] using h1
      · intro x hx
        rcases List.mem_cons.1 hx with hx | hx
        · subst hx; simp [io_source_t.valid_responder, hresp]
        · exact h2 x hx
    | true =>
      by_cases hvalid : d.io_source_valid = 0
      · rw [io_read_walk_invalid chm addr d rest v tr hresp hvalid] at h
        obtain ⟨h1, h2⟩ := ih _ _ h
        refine ⟨?_, ?_⟩
        · rw [List.foldl_cons, io_read_vars.step]
          simpa [hresp, hvalid] using h1
        · intro x hx
          rcases List.mem_cons.1 hx with hx | hx
          · subst hx; simp [io_source_t.valid_responder, hvalid]
          · exact h2 x hx
      · by_cases hhigh : d.io_source_prio = IO_PRIO_HIGH
        · rw [io_read_walk_high chm addr d rest v tr hresp hvalid hhigh] at h
          exact absurd h (by simp)
        · have hmem : ∀ x ∈ d :: rest, (∀ y ∈ rest,
              ¬ (y.valid_responder addr = true ∧ y.io_source_prio = IO_PRIO_HIGH)) →
              ¬ (x.valid_responder addr = true ∧ x.io_source_prio = IO_PRIO_HIGH) := by
            intro x hx h2
            rcases List.mem_cons.1 hx with hx | hx
            · subst hx; exact fun hh => hhigh hh.2
            · exact h2 x hx
          by_cases h0 : v.io_source_valid = 0
          · rw [io_read_walk_first chm addr d rest v tr hresp hvalid hhigh h0] at h
            obtain ⟨h1, h2⟩ := ih _ _ h
            refine ⟨?_, fun x hx => hmem x hx h2⟩
            rw [List.foldl_cons, io_read_vars.step]
            simpa [hresp, hvalid, h0] using h1
          · rw [io_read_walk_next_valid chm addr d rest v tr hresp hvalid hhigh h0] at h
            obtain ⟨h1, h2⟩ := ih _ _ h
            refine ⟨?_, fun x hx => hmem x hx h2⟩
            rw [List.foldl_cons, io_read_vars.step]
            simpa [hresp, hvalid, h0] using h1

/-- The loop counts devices that pass the test of the collision handlers only. -/
theorem io_read_step_counter (chm : Int) (addr : Nat) (v : io_read_vars) (d : io_source_t)
    (hp : d.prio_ok)
    (hh : ¬ (d.valid_responder addr = true ∧ d.io_source_prio = IO_PRIO_HIGH)) :
    (v.step chm addr d).io_source_counter ≤
      v.io_source_counter + (if d.conflicts addr = true then 1 else 0) := by
  unfold io_read_vars.step
  by_cases hresp : d.responds addr = true
  · by_cases hvalid : d.io_source_valid = 0
    · simp only [hresp, if_true, hvalid, ne_eq, not_true_eq_false, if_false]
      split <;> omega
    · have hnh : d.io_source_prio ≠ IO_PRIO_HIGH := by
        intro hp2
        exact hh ⟨by simp [io_source_t.valid_responder, hresp, hvalid], hp2⟩
      by_cases hlow : d.io_source_prio = IO_PRIO_LOW
      · simp only [hresp, if_true, ne_eq, hvalid, not_false_eq_true]
        split
        · simp only [io_read_vars.first_valid, hlow, ne_eq, not_true_eq_false, if_false]
          split <;> omega
        · simp only [io_read_vars.next_valid, hlow, ne_eq, not_true_eq_false, if_false]
          split <;> omega
      · have hnorm : d.io_source_prio = IO_PRIO_NORMAL := by
          rcases hp with h | h | h
          · exact absurd h hlow
          · exact h
          · exact absurd h hnh
        have hc : d.conflicts addr = true :=
          (conflicts_iff d addr).2 ⟨hvalid, responds_covers d addr hresp, hnorm⟩
        simp only [hresp, if_true, ne_eq, hvalid, not_false_eq_true, hc]
        split
        · simp only [io_read_vars.first_valid, hlow, ne_eq, not_false_eq_true, if_true]
          omega
        · simp only [io_read_vars.next_valid, hlow, ne_eq, not_false_eq_true, if_true,
            if_false]
          split <;> omega
  · rw [if_neg hresp]
    split <;> omega

/-- The counter at the end of the loop is at most the number of devices of the list that pass
the test of the collision handlers. -/
theorem io_read_fold_counter (chm : Int) (addr : Nat) (l : List io_source_t)
    (v : io_read_vars) (hp : ∀ d ∈ l, d.prio_ok)
    (hh : ∀ d ∈ l, ¬ (d.valid_responder addr = true ∧ d.io_source_prio = IO_PRIO_HIGH)) :
    (l.foldl (io_read_vars.step chm addr) v).io_source_counter ≤
      v.io_source_counter + ((l.filter (fun d => d.conflicts addr)).length : Int) := by
  induction l generalizing v with
  | nil => simp
  | cons d rest ih =>
    have h1 := io_read_step_counter chm addr v d (hp d (by simp)) (hh d (by simp))
    have h2 := ih (v.step chm addr d) (fun x hx => hp x (List.mem_cons_of_mem _ hx))
      (fun x hx => hh x (List.mem_cons_of_mem _ hx))
    rw [List.foldl_cons]
    by_cases hc : d.conflicts addr = true
    · simp only [List.filter_cons, hc, if_true, List.length_cons, Nat.cast_add,
        Nat.cast_one] at h1 ⊢
      omega
    · simp only [List.filter_cons, hc, if_false] at h1 ⊢
      simp only [Bool.false_eq_true, if_false] at h1 ⊢
      omega

/-- When `io_read` goes on to a collision handler, the counter it hands over is a number
`k ≥ 2` and the list holds `k` devices or more that pass the test of the handlers. -/
theorem io_read_collides_amount (chm : Int) (l : List io_source_t) (addr : Nat)
    (v : io_read_vars) (calls : List Event) (hp : ∀ d ∈ l, d.prio_ok)
    (hcol : io_read_collides chm l addr v calls) :
    ∃ k : Nat, (k : Int) = v.io_source_counter ∧ 2 ≤ k ∧
      k ≤ (l.filter (fun d => d.conflicts addr)).length := by
  obtain ⟨hw, _, hc⟩ := hcol
  obtain ⟨hfold, hh⟩ := io_read_walk_finished_fold chm addr l _ _ _ _ hw
  have hb := io_read_fold_counter chm addr l io_read_vars.init hp hh
  rw [← hfold] at hb
  simp only [io_read_vars.init, zero_add] at hb
  refine ⟨v.io_source_counter.toNat, ?_, ?_, ?_⟩
  · exact Int.toNat_of_nonneg (by omega)
  · omega
  · omega

/-! ## The collision handlers return -/

/-- The detach loop returns when no entry trips the `assert` of `io_source_detach`, and it
calls no device callback. -/
theorem detach_each_some (keep : io_source_detach_t → Bool) (es : List io_source_detach_t)
    (h : ∀ e ∈ es, ¬ (e.det_id = IO_DETACH_CART ∧ e.det_cartid = CARTRIDGE_CRT)) :
    ∃ evs, detach_each keep es = some evs ∧ ∀ x ∈ evs, x.isCallback = false := by
  induction es with
  | nil => exact ⟨[], rfl, by simp⟩
  | cons e rest ih =>
    obtain ⟨evs, hevs, hcb⟩ := ih (fun x hx => h x (List.mem_cons_of_mem _ hx))
    have he := h e (List.mem_cons_self _ _)
    rw [detach_each]
    by_cases hk : keep e = true
    · rw [if_pos hk]; exact ⟨evs, hevs, hcb⟩
    · rw [if_neg hk, hevs]
      unfold io_source_detach
      by_cases h1 : e.det_id = IO_DETACH_CART
      · have h2 : e.det_cartid ≠ CARTRIDGE_CRT := fun h2 => he ⟨h1, h2⟩
        by_cases h3 : e.det_cartid ≠ CARTRIDGE_NONE
        · rw [if_pos h1, if_pos h3, if_pos h2]
          refine ⟨_, rfl, ?_⟩
          intro x hx
          rcases List.mem_append.1 hx with hx | hx
          · simp only [List.mem_singleton] at hx; subst hx; rfl
          · exact hcb x hx
        · rw [if_pos h1, if_neg h3]
          exact ⟨_, rfl, by simpa using hcb⟩
      · by_cases h4 : e.det_id = IO_DETACH_RESOURCE
        · rw [if_neg h1, if_pos h4]
          refine ⟨_, rfl, ?_⟩
          intro x hx
          rcases List.mem_append.1 hx with hx | hx
          · simp only [List.mem_singleton] at hx; subst hx; rfl
          · exact hcb x hx
        · rw [if_neg h1, if_neg h4]
          exact ⟨_, rfl, by simpa using hcb⟩

/-! ## What `io_read` calls, under every method -/

/-- Without a valid HIGH priority responder the walk goes through the whole list. -/
theorem io_read_walked_all (addr : Nat) (l : List io_source_t)
    (h : ∀ d ∈ l, ¬ (d.valid_responder addr = true ∧ d.io_source_prio = IO_PRIO_HIGH)) :
    io_read_walked addr l = l := by
  induction l with
  | nil => rfl
  | cons d rest ih =>
    have hd := h d (List.mem_cons_self _ _)
    have hn : ¬ (d.responds addr = true ∧ d.io_source_valid ≠ 0 ∧
        d.io_source_prio = IO_PRIO_HIGH) := by
      intro ⟨h1, h2, h3⟩
      exact hd ⟨by simp [io_source_t.valid_responder, h1, h2], h3⟩
    rw [io_read_walked, if_neg hn, ih (fun x hx => h x (List.mem_cons_of_mem _ hx))]

/-! ## The lowest order met by the walk of `io_read` -/

theorem valid_responder_iff (d : io_source_t) (addr : Nat) :
    d.valid_responder addr = true ↔ (d.responds addr = true ∧ d.io_source_valid ≠ 0) := by
  simp [io_source_t.valid_responder]

/-- A turn of the loop on a device that is not a valid responder leaves `io_source_valid`,
`lowest_order` and `realval` as they are. -/
theorem io_read_step_other (chm : Int) (addr : Nat) (v : io_read_vars) (d : io_source_t)
    (h : ¬ d.valid_responder addr = true) :
    (v.step chm addr d).io_source_valid = v.io_source_valid ∧
      (v.step chm addr d).lowest_order = v.lowest_order ∧
      (v.step chm addr d).realval = v.realval := by
  unfold io_read_vars.step
  by_cases hresp : d.responds addr = true
  · have hv : ¬ d.io_source_valid ≠ 0 := fun hv => h ((valid_responder_iff d addr).2 ⟨hresp, hv⟩)
    rw [if_pos hresp, if_neg hv]
    exact ⟨rfl, rfl, rfl⟩
  · rw [if_neg hresp]
    exact ⟨rfl, rfl, rfl⟩

/-! ## Orders that increase along the list -/

/-- After the first valid response, devices whose orders are not below `lowest_order` leave
`lowest_order` as it is, under every method, and `realval` under the detach-last method. -/
theorem io_read_fold_increasing (chm : Int) (addr : Nat) (l : List io_source_t)
    (v : io_read_vars) (hv : v.io_source_valid ≠ 0)
    (hord : ∀ d ∈ l, v.lowest_order ≤ d.order) :
    (l.foldl (io_read_vars.step chm addr) v).lowest_order = v.lowest_order ∧
      (l.foldl (io_read_vars.step chm addr) v).io_source_valid ≠ 0 ∧
      (chm = IO_COLLISION_METHOD_DETACH_LAST →
        (l.foldl (io_read_vars.step chm addr) v).realval = v.realval) := by
  induction l generalizing v with
  | nil => exact ⟨rfl, hv, fun _ => rfl⟩
  | cons d rest ih =>
    have hd : ¬ d.order < v.lowest_order := by
      have := hord d (List.mem_cons_self _ _); omega
    have hstep : (v.step chm addr d).io_source_valid ≠ 0 ∧
        (v.step chm addr d).lowest_order = v.lowest_order ∧
        (chm = IO_COLLISION_METHOD_DETACH_LAST → (v.step chm addr d).realval = v.realval) := by
      by_cases hvr : d.valid_responder addr = true
      · obtain ⟨hresp, hvalid⟩ := (valid_responder_iff d addr).1 hvr
        have hs : v.step chm addr d = v.next_valid chm d addr := by
          unfold io_read_vars.step
          rw [if_pos hresp, if_pos hvalid, if_neg hv]
        rw [hs]
        refine ⟨hv, ?_, ?_⟩
        · simp [io_read_vars.next_valid, hd]
        · intro hc
          simp [io_read_vars.next_valid, hd, hc]
      · obtain ⟨h1, h2, h3⟩ := io_read_step_other chm addr v d hvr
        exact ⟨by rw [h1]; exact hv, h2, fun _ => h3⟩
    obtain ⟨h1, h2, h3⟩ := ih (v.step chm addr d) hstep.1
      (fun x hx => by rw [hstep.2.1]; exact hord x (List.mem_cons_of_mem _ hx))
    rw [List.foldl_cons]
    exact ⟨h1.trans hstep.2.1, h2, fun hc => (h3 hc).trans (hstep.2.2 hc)⟩

/-- When the orders increase along the list, the walk ends with `lowest_order` the order of
the first valid responder (and, under the detach-last method, `realval` its byte). -/
theorem io_read_fold_increasing_start (chm : Int) (addr : Nat) (l : List io_source_t)
    (v : io_read_vars) (hv : v.io_source_valid = 0) (hinc : orders_increasing l)
    (hw : (l.foldl (io_read_vars.step chm addr) v).io_source_valid ≠ 0) :
    ∃ f, first_valid_responder l addr = some f ∧
      (l.foldl (io_read_vars.step chm addr) v).lowest_order = f.order ∧
      (chm = IO_COLLISION_METHOD_DETACH_LAST →
        (l.foldl (io_read_vars.step chm addr) v).realval = f.read_byte addr) := by
  induction l generalizing v with
  | nil => exact absurd hv hw
  | cons d rest ih =>
    unfold orders_increasing at hinc
    rw [List.pairwise_cons] at hinc
    by_cases hvr : d.valid_responder addr = true
    · obtain ⟨hresp, hvalid⟩ := (valid_responder_iff d addr).1 hvr
      have hstep : v.step chm addr d = v.first_valid d addr := by
        unfold io_read_vars.step
        rw [if_pos hresp, if_pos hvalid, if_pos hv]
      have hfirst : first_valid_responder (d :: rest) addr = some d := by
        simp [first_valid_responder, List.find?_cons, hvr]
      obtain ⟨h1, _, h3⟩ := io_read_fold_increasing chm addr rest (v.first_valid d addr)
        (by simp [io_read_vars.first_valid])
        (fun x hx => by
          have := hinc.1 x hx
          simp only [io_read_vars.first_valid]; omega)
      refine ⟨d, hfirst, ?_, ?_⟩
      · rw [List.foldl_cons, hstep]; exact h1
      · intro hc; rw [List.foldl_cons, hstep]; exact h3 hc
    · obtain ⟨h1, _, _⟩ := io_read_step_other chm addr v d hvr
      have hfirst : first_valid_responder (d :: rest) addr = first_valid_responder rest addr := by
        simp [first_valid_responder, List.find?_cons, hvr]
      obtain ⟨f, hf, hlo, hre⟩ := ih (v.step chm addr d) (by rw [h1]; exact hv) hinc.2
        (by rw [List.foldl_cons] at hw; exact hw)
      refine ⟨f, by rw [hfirst]; exact hf, ?_, ?_⟩
      · rw [List.foldl_cons]; exact hlo
      · intro hc; rw [List.foldl_cons]; exact hre hc

/-- Devices whose orders are not below the order of `b` leave `b` the lowest. -/
theorem lowest_fold_keep (b : io_source_t) (l : List io_source_t)
    (h : ∀ d ∈ l, b.order ≤ d.order) :
    l.foldl
        (fun best d =>
          match best with
          | none => some d
          | some b => if d.order < b.order then some d else some b) (some b) = some b := by
  induction l with
  | nil => rfl
  | cons d rest ih =>
    have hd : ¬ d.order < b.order := by
      have := h d (List.mem_cons_self _ _); omega
    rw [List.foldl_cons]
    simp only [hd, if_false]
    exact ih (fun x hx => h x (List.mem_cons_of_mem _ hx))

/-- When the orders increase along the list, the valid responder with the smallest order is
the first valid responder. -/
theorem lowest_responder_increasing (l : List io_source_t) (addr : Nat)
    (hinc : orders_increasing l) :
    lowest_responder l addr = first_valid_responder l addr := by
  induction l with
  | nil => rfl
  | cons d rest ih =>
    unfold orders_increasing at hinc
    rw [List.pairwise_cons] at hinc
    by_cases hvr : d.valid_responder addr = true
    · simp only [lowest_responder, first_valid_responder, List.filter_cons, hvr, if_true,
        List.foldl_cons, List.find?_cons]
      exact lowest_fold_keep d _ (fun x hx => by
        have := hinc.1 x (List.mem_filter.1 hx).1; omega)
    · have h1 : lowest_responder (d :: rest) addr = lowest_responder rest addr := by
        simp only [lowest_responder, List.filter_cons, hvr, Bool.false_eq_true, if_false]
      have h2 : first_valid_responder (d :: rest) addr = first_valid_responder rest addr := by
        simp [first_valid_responder, List.find?_cons, hvr]
      rw [h1, h2]
      exact ih hinc.2

/-- A registration or an unregistration keeps the orders increasing along each region list,
while the counter does not wrap around. -/
theorem registry_increasing_step (s s1 : io_state) (op : registry_op)
    (hbelow : ∀ d ∈ s.devices, d.order < s.order)
    (h1 : orders_increasing s.plus4io_fd00_head) (h2 : orders_increasing s.plus4io_fe00_head)
    (hop : apply_op s op = some s1) :
    orders_increasing s1.plus4io_fd00_head ∧ orders_increasing s1.plus4io_fe00_head := by
  have happ : ∀ (l : List io_source_t) (device : io_source_t), orders_increasing l →
      (∀ d ∈ l, d.order < s.order) →
      orders_increasing (l ++ [{ device with order := s.order }]) := by
    intro l device hl hb
    unfold orders_increasing at hl ⊢
    rw [List.pairwise_append]
    refine ⟨hl, List.pairwise_singleton _ _, ?_⟩
    intro a ha b hb2
    simp only [List.mem_singleton] at hb2
    subst hb2
    exact hb a ha
  have hfd : ∀ d ∈ s.plus4io_fd00_head, d.order < s.order :=
    fun d hd => hbelow d (List.mem_append_left _ hd)
  have hfe : ∀ d ∈ s.plus4io_fe00_head, d.order < s.order :=
    fun d hd => hbelow d (List.mem_append_right _ hd)
  cases op with
  | register device =>
    simp only [apply_op] at hop
    split at hop
    · exact absurd hop (by simp)
    · rename_i node s2 hreg
      simp only [Option.some.injEq] at hop
      subst hop
      unfold io_source_register at hreg
      split at hreg
      · simp only [Option.some.injEq, Prod.mk.injEq] at hreg
        obtain ⟨_, rfl⟩ := hreg
        exact ⟨happ _ device h1 hfd, h2⟩
      · split at hreg
        · simp only [Option.some.injEq, Prod.mk.injEq] at hreg
          obtain ⟨_, rfl⟩ := hreg
          exact ⟨h1, happ _ device h2 hfe⟩
        · exact absurd hreg (by simp)
  | unregister node =>
    simp only [apply_op] at hop
    unfold io_source_unregister at hop
    split at hop
    · split at hop
      · exact absurd hop (by simp)
      · simp only [Option.some.injEq] at hop
        subst hop
        exact ⟨List.Pairwise.sublist (List.eraseIdx_sublist _ _) h1, h2⟩
    · split at hop
      · split at hop
        · exact absurd hop (by simp)
        · simp only [Option.some.injEq] at hop
          subst hop
          exact ⟨h1, List.Pairwise.sublist (List.eraseIdx_sublist _ _) h2⟩
      · exact absurd hop (by simp)

/-- The orders increase along each region list after every history in which the counter does
not wrap around. -/
theorem registry_increasing (s0 s : io_state) (ops : List registry_op)
    (hbelow : ∀ d ∈ s0.devices, d.order < s0.order) (hdist : s0.orders_distinct)
    (hfit : s0.order < 4294967296)
    (h1 : orders_increasing s0.plus4io_fd00_head) (h2 : orders_increasing s0.plus4io_fe00_head)
    (hwrap : counter_never_wraps s0 ops = true) (hrun : run_ops s0 ops = some s) :
    orders_increasing s.plus4io_fd00_head ∧ orders_increasing s.plus4io_fe00_head := by
  induction ops generalizing s0 with
  | nil =>
    simp only [run_ops, Option.some.injEq] at hrun
    subst hrun
    exact ⟨h1, h2⟩
  | cons op rest ih =>
    simp only [run_ops] at hrun
    cases hop : apply_op s0 op with
    | none => rw [hop] at hrun; exact absurd hrun (by simp)
    | some s1 =>
      rw [hop] at hrun
      simp only [counter_never_wraps, hop, Bool.and_eq_true] at hwrap
      have hstep := registry_invariant_step s0 s1 op hbelow hdist hfit
        (by
          intro device hdev
          have h1 := hwrap.1
          rw [hdev] at h1
          simpa using h1) hop
      have hinc := registry_increasing_step s0 s1 op hbelow h1 h2 hop
      exact ih s1 hstep.1 hstep.2.1 hstep.2.2 hinc.1 hinc.2 hwrap.2 hrun

/-! ## Claims on the collision messages and on the monitor list -/

/-- C21, at a failing input: the list holds the valid LOW device L (order 0) followed by the
valid NORMAL devices A, B and C (orders 1, 2, 3), all covering $FD13 and driving different
bytes. Under the detach-last method the three NORMAL devices are named, but the message
logged ends at "All devices except ": `lowest_order` is the order of L, no named device has
it, `first_cart` stays NULL and ends the argument list of `util_concat`, so neither a kept
name nor " will be detached." follows. -/
theorem io_read_detach_last_C21_failing_input :
    io_read sample_unused IO_COLLISION_METHOD_DETACH_LAST
        [sample_low "L" 0 1, sample_normal "A" 1 2, sample_normal "B" 2 3,
          sample_normal "C" 3 4] 0xfd13 =
      some (1,
        [Event.read (sample_low "L" 0 1) 3, Event.read (sample_normal "A" 1 2) 3,
          Event.read (sample_normal "B" 2 3) 3, Event.read (sample_normal "C" 3 4) 3,
          Event.log_message "I/O read collision at %X from A, B and C.\nAll devices except "
            0xfd13,
          Event.ui_error "I/O read collision at %X from A, B and C.\nAll devices except "
            0xfd13,
          Event.resources_set_int "AEnabled" 0, Event.resources_set_int "BEnabled" 0,
          Event.resources_set_int "CEnabled" 0]) := rfl

/-- The call of `mon_ioreg_add_list` for each node of a list whose end addresses fit 16
bits. -/
theorem ioreg_onelist_eq (l : List io_source_t) (h : ∀ d ∈ l, d.end_address < 65536) :
    io_source_ioreg_add_onelist l = l.map clamped_ioreg_call := by
  induction l with
  | nil => rfl
  | cons d rest ih =>
    have hd := h d (List.mem_cons_self _ _)
    have hend : ioreg_end d = min d.end_address (d.start_address + d.address_mask) := by
      unfold ioreg_end
      rw [Nat.mod_eq_of_lt hd]
      split
      · rw [Nat.mod_eq_of_lt (by omega)]; omega
      · omega
    rw [io_source_ioreg_add_onelist, ih (fun x hx => h x (List.mem_cons_of_mem _ hx)), hend]
    rfl

/-- C22: `io_source_ioreg_add_list` makes one call of `mon_ioreg_add_list` for every
registered device (whose `end_address` is a 16-bit value), the devices of the $FD00 list in
registration order and then those of the $FE00 list in registration order, each with the name
of the device, its `start_address` and the end address
`min(end_address, start_address + address_mask)`, the sum taken without wrap-around; the end
reported never exceeds `end_address`. -/
theorem io_source_ioreg_add_list_C22 (s : io_state)
    (h : ∀ d ∈ s.devices, d.end_address < 65536) :
    io_source_ioreg_add_list s =
        (s.plus4io_fd00_head ++ s.plus4io_fe00_head).map clamped_ioreg_call ∧
      ∀ d ∈ s.devices, (clamped_ioreg_call d).name = d.name ∧
        (clamped_ioreg_call d).start = d.start_address ∧
        (clamped_ioreg_call d).end_address =
          min d.end_address (d.start_address + d.address_mask) ∧
        (clamped_ioreg_call d).end_address ≤ d.end_address := by
  refine ⟨?_, fun d _ => ⟨rfl, rfl, rfl, Nat.min_le_left _ _⟩⟩
  unfold io_source_ioreg_add_list
  rw [ioreg_onelist_eq _ (fun d hd => h d (List.mem_append_left _ hd)),
    ioreg_onelist_eq _ (fun d hd => h d (List.mem_append_right _ hd)), List.map_append]

/-- C22 at two devices of the $FD00 page and one of the $FE00 page. -/
theorem io_source_ioreg_add_list_C22_witness :
    (∀ d ∈ (sample_state 0).devices, d.end_address < 65536) ∧
      io_source_ioreg_add_list (sample_state 0) =
        ((sample_state 0).plus4io_fd00_head ++ (sample_state 0).plus4io_fe00_head).map
          clamped_ioreg_call :=
  ⟨by decide, (io_source_ioreg_add_list_C22 (sample_state 0) (by decide)).1⟩

/-! ## Claims on the devices the handlers act upon -/

/-- The handlers act on the first `amount` devices that pass their test, not on the devices
counted: the valid NORMAL devices A, B and C cover $FD13; A and B drive $01, C drives $02.
`io_read` counts two conflicting sources (A and C) and, under the detach-all method,
`io_source_msg_detach_all` names and detaches A and B; C, whose byte differs, is neither named
nor detached. -/
theorem io_read_detach_all_first_two_named :
    io_read sample_unused IO_COLLISION_METHOD_DETACH_ALL
        [sample_normal "A" 0 1, sample_normal "B" 1 1, sample_normal "C" 2 2] 0xfd13 =
      some (0xee,
        [Event.read (sample_normal "A" 0 1) 3, Event.read (sample_normal "B" 1 1) 3,
          Event.read (sample_normal "C" 2 2) 3,
          Event.log_message
            "I/O read collision at %X from A and B.\nAll the named devices will be detached."
            0xfd13,
          Event.ui_error
            "I/O read collision at %X from A and B.\nAll the named devices will be detached."
            0xfd13,
          Event.resources_set_int "AEnabled" 0, Event.resources_set_int "BEnabled" 0]) ∧
      (sample_normal "C" 2 2).valid_responder 0xfd13 = true ∧
      (sample_normal "C" 2 2).io_source_prio = IO_PRIO_NORMAL :=
  ⟨rfl, rfl, rfl⟩

/-- C24, at a failing input: the valid NORMAL devices A, B and C cover $FD13; A and B drive
$01, C drives $02. B, whose byte equals the first valid response, is not counted (the counter
is 2), but under the detach-last method `io_source_msg_detach_last` names A and B and
detaches B; C, whose byte differs, is not acted upon. -/
theorem io_read_detach_last_C24_failing_input :
    io_read sample_unused IO_COLLISION_METHOD_DETACH_LAST
        [sample_normal "A" 0 1, sample_normal "B" 1 1, sample_normal "C" 2 2] 0xfd13 =
      some (1,
        [Event.read (sample_normal "A" 0 1) 3, Event.read (sample_normal "B" 1 1) 3,
          Event.read (sample_normal "C" 2 2) 3,
          Event.log_message
            "I/O read collision at %X from A and B.\nAll devices except A will be detached."
            0xfd13,
          Event.ui_error
            "I/O read collision at %X from A and B.\nAll devices except A will be detached."
            0xfd13,
          Event.resources_set_int "BEnabled" 0]) ∧
      (sample_normal "B" 1 1).read_byte 0xfd13 = (sample_normal "A" 0 1).read_byte 0xfd13 ∧
      (sample_normal "C" 2 2).read_byte 0xfd13 ≠ (sample_normal "A" 0 1).read_byte 0xfd13 :=
  ⟨rfl, rfl, by decide⟩

/-! ## The device kept under the detach-last method -/

/-- C26, at a failing input: the valid LOW device L (order 0) is followed by the valid NORMAL
devices A and B (orders 1 and 2), all covering $FD13 and driving different bytes. Under the
detach-last method the message names A and B, and both are detached: `lowest_order` is the
order of L, which no named device has, so no named device is kept and no name follows "All
devices except ". Two devices named, two detach actions. -/
theorem io_read_detach_last_C26_failing_input :
    io_read sample_unused IO_COLLISION_METHOD_DETACH_LAST
        [sample_low "L" 0 1, sample_normal "A" 1 2, sample_normal "B" 2 3] 0xfd13 =
      some (1,
        [Event.read (sample_low "L" 0 1) 3, Event.read (sample_normal "A" 1 2) 3,
          Event.read (sample_normal "B" 2 3) 3,
          Event.log_message "I/O read collision at %X from A and B.\nAll devices except "
            0xfd13,
          Event.ui_error "I/O read collision at %X from A and B.\nAll devices except "
            0xfd13,
          Event.resources_set_int "AEnabled" 0, Event.resources_set_int "BEnabled" 0]) := rfl

/-! ## LOW priority devices around one NORMAL device -/

/-- C27, at a failing input: the valid devices covering $FD13 are L1 (LOW, byte $01), N
(NORMAL, byte $02) and L2 (LOW, byte $03), in this order. No collision is counted, but
`io_read` returns $01 under the detach-all and detach-last methods and $00 under the AND-wires
method, not the $02 of N: at L2 the loop assigns `retval = realval`, and `realval` still holds
the byte of L1 (its AND with the byte of N under AND-wires). -/
theorem io_read_low_normal_low_C27_failing_input :
    io_read sample_unused IO_COLLISION_METHOD_DETACH_ALL
        [sample_low "L1" 0 1, sample_normal "N" 1 2, sample_low "L2" 2 3] 0xfd13 =
      some (1, [Event.read (sample_low "L1" 0 1) 3, Event.read (sample_normal "N" 1 2) 3,
        Event.read (sample_low "L2" 2 3) 3]) ∧
    io_read sample_unused IO_COLLISION_METHOD_DETACH_LAST
        [sample_low "L1" 0 1, sample_normal "N" 1 2, sample_low "L2" 2 3] 0xfd13 =
      some (1, [Event.read (sample_low "L1" 0 1) 3, Event.read (sample_normal "N" 1 2) 3,
        Event.read (sample_low "L2" 2 3) 3]) ∧
    io_read sample_unused IO_COLLISION_METHOD_AND_WIRES
        [sample_low "L1" 0 1, sample_normal "N" 1 2, sample_low "L2" 2 3] 0xfd13 =
      some (0, [Event.read (sample_low "L1" 0 1) 3, Event.read (sample_normal "N" 1 2) 3,
        Event.read (sample_low "L2" 2 3) 3]) ∧
    (sample_normal "N" 1 2).read_byte 0xfd13 = 2 ∧
    (sample_low "L1" 0 1).read_byte 0xfd13 = 1 :=
  ⟨rfl, rfl, rfl, rfl, rfl⟩

/-! ## Orders along the region lists -/

/-- C29: in every state reached from the empty registry with counter 0 by registrations and
unregistrations during which the counter does not wrap around, the order of every registered
device is below the counter and the orders increase strictly along each region list. So, when
the walk of `io_read` over a region list reaches its end with a valid response, the valid
responder with the smallest order is the first valid responder of the list, `lowest_order` is
its order and, under the detach-last method, `realval` is its byte. -/
theorem registry_orders_increasing_C29 (ops : List registry_op) (s : io_state)
    (hrun : run_ops io_state.init ops = some s)
    (hwrap : counter_never_wraps io_state.init ops = true) :
    (∀ d ∈ s.devices, d.order < s.order) ∧
      orders_increasing s.plus4io_fd00_head ∧ orders_increasing s.plus4io_fe00_head ∧
      ∀ l, (l = s.plus4io_fd00_head ∨ l = s.plus4io_fe00_head) →
        ∀ chm addr v calls,
          io_read_walk chm addr l io_read_vars.init [] = .finished v calls →
          v.io_source_valid ≠ 0 →
          ∃ f, first_valid_responder l addr = some f ∧ lowest_responder l addr = some f ∧
            v.lowest_order = f.order ∧
            (chm = IO_COLLISION_METHOD_DETACH_LAST → v.realval = f.read_byte addr) := by
  have h0 : ∀ d ∈ io_state.init.devices, d.order < io_state.init.order := by
    simp [io_state.devices, io_state.init]
  have h1 : io_state.init.orders_distinct := by
    simp [io_state.orders_distinct, io_state.devices, io_state.init]
  have h2 : io_state.init.order < 4294967296 := by simp [io_state.init]
  have hinv := registry_invariant io_state.init s ops h0 h1 h2 hwrap hrun
  have hinc := registry_increasing io_state.init s ops h0 h1 h2
    (by simp [orders_increasing, io_state.init]) (by simp [orders_increasing, io_state.init])
    hwrap hrun
  refine ⟨hinv.1, hinc.1, hinc.2, ?_⟩
  intro l hl chm addr v calls hw hvalid
  have hlinc : orders_increasing l := by
    rcases hl with rfl | rfl
    · exact hinc.1
    · exact hinc.2
  obtain ⟨hfold, _⟩ := io_read_walk_finished_fold chm addr l _ _ _ _ hw
  obtain ⟨f, hf, hlo, hre⟩ := io_read_fold_increasing_start chm addr l io_read_vars.init rfl
    hlinc (by rw [← hfold]; exact hvalid)
  rw [← hfold] at hlo hre
  exact ⟨f, hf, by rw [lowest_responder_increasing l addr hlinc]; exact hf, hlo, hre⟩

/-- C29 at the history that registers three devices and unregisters two of them. -/
theorem registry_orders_increasing_C29_witness :
    run_ops io_state.init sample_hole_history = some sample_one_state ∧
      counter_never_wraps io_state.init sample_hole_history = true ∧
      (∀ d ∈ sample_one_state.devices, d.order < sample_one_state.order) ∧
      orders_increasing sample_one_state.plus4io_fd00_head ∧
      orders_increasing sample_one_state.plus4io_fe00_head ∧
      ∀ l, (l = sample_one_state.plus4io_fd00_head ∨ l = sample_one_state.plus4io_fe00_head) →
        ∀ chm addr v calls,
          io_read_walk chm addr l io_read_vars.init [] = .finished v calls →
          v.io_source_valid ≠ 0 →
          ∃ f, first_valid_responder l addr = some f ∧ lowest_responder l addr = some f ∧
            v.lowest_order = f.order ∧
            (chm = IO_COLLISION_METHOD_DETACH_LAST → v.realval = f.read_byte addr) :=
  ⟨rfl, by decide,
    registry_orders_increasing_C29 sample_hole_history sample_one_state rfl (by decide)⟩

/-! ## The amount handed to the collision handlers -/

/-- C30: for a list whose devices have priority LOW, NORMAL or HIGH, when `io_read` goes on to
a collision handler (end of the list reached, a valid response, counter above 1), the counter
it hands over as `amount` is a number `k ≥ 2` and the list holds `k` devices or more that pass
the handlers' test (valid, in range, NORMAL). The walk of each of the three handlers then ends
with `found = k`, without a store outside the `k` entries of `detach_list` and without a NULL
message (either would be the result `none`): the devices found are the first `k` that pass
the test, `detach_list` holds one entry for each, and the message is "I/O read collision at
%X from ", the first name, ", " and each middle name, " and " and the last name, then the
text of the method. -/
theorem io_read_handler_amount_C30 (chm : Int) (l : List io_source_t) (addr : Nat)
    (v : io_read_vars) (calls : List Event) (hp : ∀ d ∈ l, d.prio_ok)
    (hcol : io_read_collides chm l addr v calls) :
    ∃ k : Nat, (k : Int) = v.io_source_counter ∧ 2 ≤ k ∧
      (named_devices l addr k).length = k ∧
      (∀ d ∈ named_devices l addr k, d.conflicts addr = true) ∧
      io_source_msg_detach_all_walk addr v.io_source_counter l msg_vars.init =
        some (detach_all_vars (named_devices l addr k)) ∧
      io_source_msg_detach_last_walk addr v.io_source_counter v.lowest_order l msg_vars.init =
        some (detach_last_vars v.lowest_order (named_devices l addr k)) ∧
      io_source_log_collisions_walk addr v.io_source_counter l msg_vars.init =
        some (log_collisions_vars (named_devices l addr k)) ∧
      (detach_all_vars (named_devices l addr k)).found = v.io_source_counter ∧
      (detach_all_vars (named_devices l addr k)).detach_list.length = k ∧
      (detach_last_vars v.lowest_order (named_devices l addr k)).detach_list.length = k := by
  obtain ⟨k, hk, h2, hlen⟩ := io_read_collides_amount chm l addr v calls hp hcol
  have hn : (named_devices l addr k).length = k := by
    simp only [named_devices, List.length_take]; omega
  refine ⟨k, hk, h2, hn, ?_, ?_, ?_, ?_, ?_, ?_, ?_⟩
  · intro d hd
    have := List.mem_of_mem_take hd
    simpa using (List.mem_filter.1 this).2
  · rw [← hk]; exact io_source_msg_detach_all_walk_eq addr k l h2 hlen
  · rw [← hk]; exact io_source_msg_detach_last_walk_eq addr k v.lowest_order l h2 hlen
  · rw [← hk]; exact io_source_log_collisions_walk_eq addr k l h2 hlen
  · simp only [detach_all_vars, hn]; exact hk
  · simp [detach_all_vars, hn]
  · simp [detach_last_vars, hn]

/-- C30 at the three colliding devices of `sample_three_state`, under the detach-last
method: the handlers find the three of them. -/
theorem io_read_handler_amount_C30_witness :
    (∀ d ∈ sample_three_state.plus4io_fd00_head, d.prio_ok) ∧
      io_read_collides IO_COLLISION_METHOD_DETACH_LAST sample_three_state.plus4io_fd00_head
        0xfd13 sample_three_vars (read_calls sample_three_state.plus4io_fd00_head 0xfd13) ∧
      ∃ k : Nat, (k : Int) = sample_three_vars.io_source_counter ∧ 2 ≤ k ∧
        (named_devices sample_three_state.plus4io_fd00_head 0xfd13 k).length = k ∧
        io_source_msg_detach_last_walk 0xfd13 sample_three_vars.io_source_counter
            sample_three_vars.lowest_order sample_three_state.plus4io_fd00_head
            msg_vars.init =
          some (detach_last_vars sample_three_vars.lowest_order
            (named_devices sample_three_state.plus4io_fd00_head 0xfd13 k)) :=
  ⟨by decide, ⟨rfl, by decide, by decide⟩,
    (io_read_handler_amount_C30 IO_COLLISION_METHOD_DETACH_LAST
      sample_three_state.plus4io_fd00_head 0xfd13 sample_three_vars
      (read_calls sample_three_state.plus4io_fd00_head 0xfd13) (by decide)
      ⟨rfl, by decide, by decide⟩).imp
      (fun _ h => ⟨h.1, h.2.1, h.2.2.1, h.2.2.2.2.2.1⟩)⟩

/-! ## The devices the loop of `io_read` counts -/

/-- A turn of the loop on a device that is not a valid responder leaves the counter and
`firstval` as they are. -/
theorem io_read_step_other_counter (chm : Int) (addr : Nat) (v : io_read_vars)
    (d : io_source_t) (h : ¬ d.valid_responder addr = true) :
    (v.step chm addr d).io_source_counter = v.io_source_counter ∧
      (v.step chm addr d).firstval = v.firstval := by
  unfold io_read_vars.step
  by_cases hresp : d.responds addr = true
  · have hv : ¬ d.io_source_valid ≠ 0 := fun hv => h ((valid_responder_iff d addr).2 ⟨hresp, hv⟩)
    rw [if_pos hresp, if_neg hv]
    exact ⟨rfl, rfl⟩
  · rw [if_neg hresp]
    exact ⟨rfl, rfl⟩

/-- The counter at the end of the loop is the number of devices counted. -/
theorem io_read_fold_counted (chm : Int) (addr : Nat) (l : List io_source_t)
    (v : io_read_vars) :
    (l.foldl (io_read_vars.step chm addr) v).io_source_counter =
      v.io_source_counter + ((io_read_counted addr l v.io_source_valid v.firstval).length : Int) := by
  induction l generalizing v with
  | nil => simp [io_read_counted]
  | cons d rest ih =>
    rw [List.foldl_cons, ih, io_read_counted]
    by_cases hvr : d.valid_responder addr = true
    · obtain ⟨hresp, hvalid⟩ := (valid_responder_iff d addr).1 hvr
      rw [if_pos hvr]
      by_cases h0 : v.io_source_valid = 0
      · have hstep : v.step chm addr d = v.first_valid d addr := by
          unfold io_read_vars.step
          rw [if_pos hresp, if_pos hvalid, if_pos h0]
        rw [hstep, if_pos h0]
        by_cases hlow : d.io_source_prio = IO_PRIO_LOW
        · simp [io_read_vars.first_valid, hlow]
        · simp [io_read_vars.first_valid, hlow]
          omega
      · have hstep : v.step chm addr d = v.next_valid chm d addr := by
          unfold io_read_vars.step
          rw [if_pos hresp, if_pos hvalid, if_neg h0]
        rw [hstep, if_neg h0]
        by_cases hlow : d.io_source_prio = IO_PRIO_LOW
        · simp [io_read_vars.next_valid, hlow]
        · by_cases hne : d.read_byte addr = v.firstval
          · simp [io_read_vars.next_valid, hlow, hne]
          · simp [io_read_vars.next_valid, hlow, hne]
            omega
    · obtain ⟨h1, _, _⟩ := io_read_step_other chm addr v d hvr
      obtain ⟨h2, h3⟩ := io_read_step_other_counter chm addr v d hvr
      rw [if_neg hvr, h1, h2, h3]

/-- When the walk of `io_read` reaches the end of the list, the counter is the number of the
devices counted. -/
theorem io_read_walk_counted (chm : Int) (addr : Nat) (l : List io_source_t)
    (v : io_read_vars) (calls : List Event)
    (h : io_read_walk chm addr l io_read_vars.init [] = .finished v calls) :
    v.io_source_counter = ((counted_devices l addr).length : Int) := by
  obtain ⟨hfold, _⟩ := io_read_walk_finished_fold chm addr l _ _ _ _ h
  rw [hfold, io_read_fold_counted]
  simp [io_read_vars.init, counted_devices]

/-! ## The detach loop -/

/-- The detach loop calls no device callback. -/
theorem detach_each_events (keep : io_source_detach_t → Bool) (es : List io_source_detach_t)
    (evs : List Event) (h : detach_each keep es = some evs) :
    ∀ x ∈ evs, x.isCallback = false := by
  induction es generalizing evs with
  | nil =>
    simp only [detach_each, Option.some.injEq] at h
    subst h; simp
  | cons e rest ih =>
    rw [detach_each] at h
    by_cases hk : keep e = true
    · rw [if_pos hk] at h; exact ih evs h
    · rw [if_neg hk] at h
      cases h1 : io_source_detach e with
      | none => rw [h1] at h; exact absurd h (by simp)
      | some ev =>
        rw [h1] at h
        cases h2 : detach_each keep rest with
        | none => rw [h2] at h; exact absurd h (by simp)
        | some evs1 =>
          rw [h2] at h
          simp only [Option.some.injEq] at h
          subst h
          intro x hx
          rcases List.mem_append.1 hx with hx | hx
          · unfold io_source_detach at h1
            split at h1
            · split at h1
              · split at h1
                · simp only [Option.some.injEq] at h1
                  subst h1
                  simp only [List.mem_singleton] at hx; subst hx; rfl
                · exact absurd h1 (by simp)
              · simp only [Option.some.injEq] at h1
                subst h1; simp at hx
            · split at h1
              · simp only [Option.some.injEq] at h1
                subst h1
                simp only [List.mem_singleton] at hx; subst hx; rfl
              · simp only [Option.some.injEq] at h1
                subst h1; simp at hx
          · exact ih evs1 h2 x hx

/-- The detach loop returns when no entry it detaches trips the `assert` of
`io_source_detach`. -/
theorem detach_each_kept_some (keep : io_source_detach_t → Bool) (es : List io_source_detach_t)
    (h : ∀ e ∈ es, keep e = false →
      ¬ (e.det_id = IO_DETACH_CART ∧ e.det_cartid = CARTRIDGE_CRT)) :
    ∃ evs, detach_each keep es = some evs := by
  induction es with
  | nil => exact ⟨[], rfl⟩
  | cons e rest ih =>
    obtain ⟨evs, hevs⟩ := ih (fun x hx => h x (List.mem_cons_of_mem _ hx))
    rw [detach_each]
    by_cases hk : keep e = true
    · rw [if_pos hk]; exact ⟨evs, hevs⟩
    · have he := h e (List.mem_cons_self _ _) (by simpa using hk)
      obtain ⟨ev1, hev1, _⟩ := detach_each_some (fun _ => false) [e] (by
        intro x hx
        simp only [List.mem_singleton] at hx
        subst hx; exact he)
      have hd : ∃ ev, io_source_detach e = some ev := by
        simp only [detach_each, Bool.false_eq_true, if_false] at hev1
        cases h1 : io_source_detach e with
        | none => rw [h1] at hev1; exact absurd hev1 (by simp)
        | some ev => exact ⟨ev, rfl⟩
      obtain ⟨ev, hev⟩ := hd
      rw [if_neg hk, hev, hevs]
      exact ⟨_, rfl⟩

/-! ## The entries of `detach_list`, whatever the list -/

/-- The walk of `io_source_msg_detach_last` over devices that pass its test: it returns, and
the entries it writes are those of the first `amount - found` devices. -/
theorem io_source_msg_detach_last_walk_entries (addr : Nat) (amount : Int) (lowest : Nat)
    (cs : List io_source_t) (v : msg_vars) (hc : ∀ d ∈ cs, d.conflicts addr = true)
    (hb : 0 ≤ v.found ∧ v.found < amount)
    (hm : v.found = 0 ∨ v.new_msg.isSome = true) :
    ∃ w, io_source_msg_detach_last_walk addr amount lowest cs v = some w ∧
      (w.found = 0 ∨ w.new_msg.isSome = true) ∧
      w.detach_list = v.detach_list ++
        (cs.take (amount - v.found).toNat).map (fun d => d.detach_entry d.order) ∧
      w.found = v.found + ((cs.take (amount - v.found).toNat).length : Int) := by
  induction cs generalizing v with
  | nil => exact ⟨v, rfl, hm, by simp, by simp⟩
  | cons d rest ih =>
    have hcd := (conflicts_iff d addr).1 (hc d (List.mem_cons_self _ _))
    obtain ⟨m, hmsg⟩ := msg_step_some v.found amount d.name
      [some ".\nAll devices except ",
        if d.order = lowest then some d.name else v.first_cart,
        some " will be detached."] v.new_msg hm
    rw [io_source_msg_detach_last_walk, if_pos hcd, if_pos hb]
    dsimp only
    rw [hmsg]
    dsimp only
    have hsucc : (amount - v.found).toNat = (amount - (v.found + 1)).toNat + 1 := by omega
    by_cases h2 : v.found + 1 = amount
    · rw [if_pos h2]
      have h1 : (amount - v.found).toNat = 1 := by omega
      refine ⟨_, rfl, Or.inr rfl, ?_, ?_⟩
      · rw [h1]; simp [io_source_t.detach_entry]
      · rw [h1]; simp
    · rw [if_neg h2]
      obtain ⟨w, hw, hw1, hw2, hw3⟩ := ih
        { found := v.found + 1, new_msg := some m,
          first_cart := if d.order = lowest then some d.name else v.first_cart,
          detach_list := v.detach_list ++
            [{ det_id := d.detach_id, det_name := d.resource_name, det_devname := d.name,
               det_cartid := d.cart_id, order := d.order }] }
        (fun x hx => hc x (List.mem_cons_of_mem _ hx))
        (by dsimp only; omega) (Or.inr rfl)
      refine ⟨w, hw, hw1, ?_, ?_⟩
      · rw [hw2, hsucc]
        simp [io_source_t.detach_entry]
      · rw [hw3, hsucc]
        simp only [List.take_succ_cons, List.length_cons, Nat.cast_add, Nat.cast_one]
        omega

/-- The walk of `io_source_msg_detach_all` over devices that pass its test: it returns, and
the entries it writes are those of the first `amount - found` devices. -/
theorem io_source_msg_detach_all_walk_entries (addr : Nat) (amount : Int)
    (cs : List io_source_t) (v : msg_vars) (hc : ∀ d ∈ cs, d.conflicts addr = true)
    (hb : 0 ≤ v.found ∧ v.found < amount)
    (hm : v.found = 0 ∨ v.new_msg.isSome = true) :
    ∃ w, io_source_msg_detach_all_walk addr amount cs v = some w ∧
      (w.found = 0 ∨ w.new_msg.isSome = true) ∧
      w.detach_list = v.detach_list ++
        (cs.take (amount - v.found).toNat).map (fun d => d.detach_entry 0) ∧
      w.found = v.found + ((cs.take (amount - v.found).toNat).length : Int) := by
  induction cs generalizing v with
  | nil => exact ⟨v, rfl, hm, by simp, by simp⟩
  | cons d rest ih =>
    have hcd := (conflicts_iff d addr).1 (hc d (List.mem_cons_self _ _))
    obtain ⟨m, hmsg⟩ := msg_step_some v.found amount d.name
      [some ".\nAll the named devices will be detached."] v.new_msg hm
    rw [io_source_msg_detach_all_walk, if_pos hcd, if_pos hb, hmsg]
    dsimp only
    have hsucc : (amount - v.found).toNat = (amount - (v.found + 1)).toNat + 1 := by omega
    by_cases h2 : v.found + 1 = amount
    · rw [if_pos h2]
      have h1 : (amount - v.found).toNat = 1 := by omega
      refine ⟨_, rfl, Or.inr rfl, ?_, ?_⟩
      · rw [h1]; simp [io_source_t.detach_entry]
      · rw [h1]; simp
    · rw [if_neg h2]
      obtain ⟨w, hw, hw1, hw2, hw3⟩ := ih
        { found := v.found + 1, new_msg := some m, first_cart := v.first_cart,
          detach_list := v.detach_list ++
            [{ det_id := d.detach_id, det_name := d.resource_name, det_devname := d.name,
               det_cartid := d.cart_id, order := 0 }] }
        (fun x hx => hc x (List.mem_cons_of_mem _ hx))
        (by dsimp only; omega) (Or.inr rfl)
      refine ⟨w, hw, hw1, ?_, ?_⟩
      · rw [hw2, hsucc]
        simp [io_source_t.detach_entry]
      · rw [hw3, hsucc]
        simp only [List.take_succ_cons, List.length_cons, Nat.cast_add, Nat.cast_one]
        omega

/-- What `io_source_msg_detach_last` does, whatever the list: at most the two calls that
carry the message, then the detach loop over the entries of the devices it found, the first
`amount` devices that pass its test. -/
theorem io_source_msg_detach_last_eq (addr : Nat) (amount : Int) (lowest : Nat)
    (l : List io_source_t) (ha : 1 ≤ amount) :
    ∃ msgs, (∀ x ∈ msgs, x.isCallback = false) ∧
      io_source_msg_detach_last addr amount l lowest =
        (detach_each (fun r => decide (r.order = lowest))
          ((named_devices l addr amount.toNat).map (fun d => d.detach_entry d.order))).map
          (fun evs => msgs ++ evs) := by
  obtain ⟨w, hw, hw1, hw2, hw3⟩ := io_source_msg_detach_last_walk_entries addr amount lowest
    (l.filter (fun d => d.conflicts addr)) msg_vars.init
    (fun d hd => by simpa using (List.mem_filter.1 hd).2)
    (by simp only [msg_vars.init]; omega) (Or.inl rfl)
  rw [← io_source_msg_detach_last_walk_filter] at hw
  simp only [msg_vars.init, sub_zero, List.nil_append, zero_add] at hw2 hw3
  unfold io_source_msg_detach_last
  rw [hw]
  by_cases h0 : w.found = 0
  · have hnil : named_devices l addr amount.toNat = [] := by
      rw [h0] at hw3
      exact List.length_eq_zero.1 (by exact_mod_cast hw3.symm)
    refine ⟨[], by simp, ?_⟩
    rw [hnil]
    simp [h0, detach_each]
  · obtain ⟨m, hm⟩ := Option.isSome_iff_exists.1 (hw1.resolve_left h0)
    refine ⟨[Event.log_message m addr, Event.ui_error m addr], ?_, ?_⟩
    · intro x hx
      simp only [List.mem_cons, List.mem_singleton, List.not_mem_nil, or_false] at hx
      rcases hx with hx | hx <;> subst hx <;> rfl
    · simp only [ne_eq, h0, not_false_eq_true, if_true, hm, hw2, named_devices]
      cases detach_each (fun r => decide (r.order = lowest))
        (List.map (fun d => d.detach_entry d.order)
          (List.take amount.toNat (List.filter (fun d => d.conflicts addr) l))) <;> rfl

/-- What `io_source_msg_detach_all` does, whatever the list. -/
theorem io_source_msg_detach_all_eq (addr : Nat) (amount : Int) (l : List io_source_t)
    (ha : 1 ≤ amount) :
    ∃ msgs, (∀ x ∈ msgs, x.isCallback = false) ∧
      io_source_msg_detach_all addr amount l =
        (detach_each (fun _ => false)
          ((named_devices l addr amount.toNat).map (fun d => d.detach_entry 0))).map
          (fun evs => msgs ++ evs) := by
  obtain ⟨w, hw, hw1, hw2, hw3⟩ := io_source_msg_detach_all_walk_entries addr amount
    (l.filter (fun d => d.conflicts addr)) msg_vars.init
    (fun d hd => by simpa using (List.mem_filter.1 hd).2)
    (by simp only [msg_vars.init]; omega) (Or.inl rfl)
  rw [← io_source_msg_detach_all_walk_filter] at hw
  simp only [msg_vars.init, sub_zero, List.nil_append, zero_add] at hw2 hw3
  unfold io_source_msg_detach_all
  rw [hw]
  by_cases h0 : w.found = 0
  · have hnil : named_devices l addr amount.toNat = [] := by
      rw [h0] at hw3
      exact List.length_eq_zero.1 (by exact_mod_cast hw3.symm)
    refine ⟨[], by simp, ?_⟩
    rw [hnil]
    simp [h0, detach_each]
  · obtain ⟨m, hm⟩ := Option.isSome_iff_exists.1 (hw1.resolve_left h0)
    refine ⟨[Event.log_message m addr, Event.ui_error m addr], ?_, ?_⟩
    · intro x hx
      simp only [List.mem_cons, List.mem_singleton, List.not_mem_nil, or_false] at hx
      rcases hx with hx | hx <;> subst hx <;> rfl
    · simp only [ne_eq, h0, not_false_eq_true, if_true, hm, hw2, named_devices]
      cases detach_each (fun _ => false)
        (List.map (fun d => d.detach_entry 0)
          (List.take amount.toNat (List.filter (fun d => d.conflicts addr) l))) <;> rfl

/-- The devices found by a handler pass its test and are devices of the list. -/
theorem named_devices_mem (l : List io_source_t) (addr : Nat) (k : Nat) (d : io_source_t)
    (h : d ∈ named_devices l addr k) : d ∈ l ∧ d.conflicts addr = true := by
  have := List.mem_filter.1 (List.mem_of_mem_take h)
  exact ⟨this.1, by simpa using this.2⟩

/-! ## The byte of the lowest order -/

/-- Detach-last, after the first valid response: `lowest_order` is the order of the valid
responder with the smallest order so far, and `realval` is its byte when it is not of LOW
priority. -/
theorem io_read_fold_lowest_real (addr : Nat) (l : List io_source_t) (v : io_read_vars)
    (b : io_source_t)
    (hv : v.io_source_valid ≠ 0) (hlo : v.lowest_order = b.order)
    (hre : b.io_source_prio ≠ IO_PRIO_LOW → v.realval = b.read_byte addr) :
    ∃ b1, (l.filter (fun d => d.valid_responder addr)).foldl
        (fun best d =>
          match best with
          | none => some d
          | some b => if d.order < b.order then some d else some b) (some b) = some b1 ∧
      (l.foldl (io_read_vars.step IO_COLLISION_METHOD_DETACH_LAST addr) v).lowest_order =
        b1.order ∧
      (b1.io_source_prio ≠ IO_PRIO_LOW →
        (l.foldl (io_read_vars.step IO_COLLISION_METHOD_DETACH_LAST addr) v).realval =
          b1.read_byte addr) := by
  induction l generalizing v b with
  | nil => exact ⟨b, rfl, hlo, hre⟩
  | cons d rest ih =>
    by_cases hvr : d.valid_responder addr = true
    · obtain ⟨hresp, hvalid⟩ := (valid_responder_iff d addr).1 hvr
      have hstep : v.step IO_COLLISION_METHOD_DETACH_LAST addr d =
          v.next_valid IO_COLLISION_METHOD_DETACH_LAST d addr := by
        unfold io_read_vars.step
        rw [if_pos hresp, if_pos hvalid, if_neg hv]
      simp only [List.filter_cons, hvr, if_true, List.foldl_cons]
      rw [hstep]
      by_cases hlt : d.order < b.order
      · rw [if_pos hlt]
        exact ih (v.next_valid IO_COLLISION_METHOD_DETACH_LAST d addr) d hv
          (by simp [io_read_vars.next_valid, hlo, hlt])
          (fun hnlow => by simp [io_read_vars.next_valid, hlo, hlt, hnlow])
      · rw [if_neg hlt]
        exact ih (v.next_valid IO_COLLISION_METHOD_DETACH_LAST d addr) b hv
          (by simp [io_read_vars.next_valid, hlo, hlt])
          (fun hnlow => by simp [io_read_vars.next_valid, hlo, hlt, hre hnlow])
    · obtain ⟨h1, h2, h3⟩ := io_read_step_other IO_COLLISION_METHOD_DETACH_LAST addr v d hvr
      simp only [List.filter_cons, hvr, Bool.false_eq_true, if_false, List.foldl_cons]
      exact ih (v.step IO_COLLISION_METHOD_DETACH_LAST addr d) b (by rw [h1]; exact hv)
        (by rw [h2]; exact hlo) (fun hnlow => by rw [h3]; exact hre hnlow)

/-- Detach-last, from the start of the walk: at the end `lowest_order` is the order of the
valid responder with the smallest order, and `realval` is its byte when it is not of LOW
priority. -/
theorem io_read_fold_lowest_real_start (addr : Nat) (l : List io_source_t)
    (v : io_read_vars) (hv : v.io_source_valid = 0)
    (hw : (l.foldl (io_read_vars.step IO_COLLISION_METHOD_DETACH_LAST addr) v).io_source_valid
      ≠ 0) :
    ∃ b, lowest_responder l addr = some b ∧
      (l.foldl (io_read_vars.step IO_COLLISION_METHOD_DETACH_LAST addr) v).lowest_order =
        b.order ∧
      (b.io_source_prio ≠ IO_PRIO_LOW →
        (l.foldl (io_read_vars.step IO_COLLISION_METHOD_DETACH_LAST addr) v).realval =
          b.read_byte addr) := by
  induction l generalizing v with
  | nil => exact absurd hv hw
  | cons d rest ih =>
    by_cases hvr : d.valid_responder addr = true
    · obtain ⟨hresp, hvalid⟩ := (valid_responder_iff d addr).1 hvr
      have hstep : v.step IO_COLLISION_METHOD_DETACH_LAST addr d = v.first_valid d addr := by
        unfold io_read_vars.step
        rw [if_pos hresp, if_pos hvalid, if_pos hv]
      obtain ⟨b1, hb1, hlo1, hre1⟩ := io_read_fold_lowest_real addr rest
        (v.first_valid d addr) d (by simp [io_read_vars.first_valid]) rfl (fun _ => rfl)
      refine ⟨b1, ?_, ?_, ?_⟩
      · simp only [lowest_responder, List.filter_cons, hvr, if_true, List.foldl_cons]
        exact hb1
      · rw [List.foldl_cons, hstep]; exact hlo1
      · rw [List.foldl_cons, hstep]; exact hre1
    · obtain ⟨h1, _, _⟩ := io_read_step_other IO_COLLISION_METHOD_DETACH_LAST addr v d hvr
      obtain ⟨b, hb, hlo, hre⟩ := ih (v.step IO_COLLISION_METHOD_DETACH_LAST addr d)
        (by rw [h1]; exact hv) (by rw [List.foldl_cons] at hw; exact hw)
      refine ⟨b, ?_, ?_, ?_⟩
      · simp only [lowest_responder, List.filter_cons, hvr, Bool.false_eq_true, if_false]
        exact hb
      · rw [List.foldl_cons]; exact hlo
      · rw [List.foldl_cons]; exact hre

/-- The devices counted by `io_read` are valid responders. -/
theorem io_read_counted_mem (addr : Nat) (l : List io_source_t) (valid : Int) (firstval : Nat)
    (d : io_source_t) (h : d ∈ io_read_counted addr l valid firstval) :
    d ∈ l ∧ d.valid_responder addr = true ∧ d.io_source_prio ≠ IO_PRIO_LOW := by
  induction l generalizing valid firstval with
  | nil => simp [io_read_counted] at h
  | cons x rest ih =>
    rw [io_read_counted] at h
    by_cases hvr : x.valid_responder addr = true
    · rw [if_pos hvr] at h
      by_cases h0 : valid = 0
      · rw [if_pos h0] at h
        by_cases hlow : x.io_source_prio ≠ IO_PRIO_LOW
        · rw [if_pos hlow] at h
          rcases List.mem_cons.1 h with h | h
          · subst h; exact ⟨List.mem_cons_self _ _, hvr, hlow⟩
          · obtain ⟨h1, h2⟩ := ih _ _ h
            exact ⟨List.mem_cons_of_mem _ h1, h2⟩
        · rw [if_neg hlow] at h
          obtain ⟨h1, h2⟩ := ih _ _ h
          exact ⟨List.mem_cons_of_mem _ h1, h2⟩
      · rw [if_neg h0] at h
        by_cases hc : x.io_source_prio ≠ IO_PRIO_LOW ∧ x.read_byte addr ≠ firstval
        · rw [if_pos hc] at h
          rcases List.mem_cons.1 h with h | h
          · subst h; exact ⟨List.mem_cons_self _ _, hvr, hc.1⟩
          · obtain ⟨h1, h2⟩ := ih _ _ h
            exact ⟨List.mem_cons_of_mem _ h1, h2⟩
        · rw [if_neg hc] at h
          obtain ⟨h1, h2⟩ := ih _ _ h
          exact ⟨List.mem_cons_of_mem _ h1, h2⟩
    · rw [if_neg hvr] at h
      obtain ⟨h1, h2⟩ := ih _ _ h
      exact ⟨List.mem_cons_of_mem _ h1, h2⟩

/-! ## What `io_read` does after its loop, whatever the list -/

/-- `io_read` is the callbacks of its loop followed by calls of collaborators only; it
returns unless a device that passes the handlers' test trips the `assert` of
`io_source_detach`. -/
theorem io_read_shape (read_unused : Nat → Nat) (chm : Int) (l : List io_source_t)
    (addr : Nat) :
    ∃ tail : Option (Nat × List Event),
      io_read read_unused chm l addr =
        tail.map (fun p => (p.1, read_calls (io_read_walked addr l) addr ++ p.2)) ∧
      (∀ p, tail = some p → ∀ x ∈ p.2, x.isCallback = false) ∧
      ((∀ d ∈ l, d.conflicts addr = true → d.detach_ok) → tail.isSome = true) := by
  have hcalls := io_read_walk_calls chm addr l io_read_vars.init []
  unfold io_read
  cases hw : io_read_walk chm addr l io_read_vars.init [] with
  | returned r t =>
    rw [hw] at hcalls
    simp only [io_read_walk_result.calls, List.nil_append] at hcalls
    exact ⟨some (r, []), by simp [hcalls], by simp, fun _ => rfl⟩
  | finished v1 t =>
    rw [hw] at hcalls
    simp only [io_read_walk_result.calls, List.nil_append] at hcalls
    subst hcalls
    by_cases h0 : v1.io_source_valid = 0
    · exact ⟨some (read_unused addr % 256, []), by simp [h0], by simp, fun _ => rfl⟩
    · by_cases h1 : v1.io_source_counter > 1
      · by_cases hall : chm = IO_COLLISION_METHOD_DETACH_ALL
        · obtain ⟨msgs, hmsgs, heq⟩ := io_source_msg_detach_all_eq addr v1.io_source_counter l
            (by omega)
          subst hall
          refine ⟨(detach_each (fun _ => false)
            ((named_devices l addr v1.io_source_counter.toNat).map
              (fun d => d.detach_entry 0))).map
            (fun evs => (read_unused addr % 256, msgs ++ evs)), ?_, ?_, ?_⟩
          · simp only [h0, if_false, h1, not_true_eq_false, if_true, heq]
            cases detach_each (fun _ => false)
              ((named_devices l addr v1.io_source_counter.toNat).map
                (fun d => d.detach_entry 0)) <;> rfl
          · intro p hp x hx
            cases hde : detach_each (fun _ => false)
              ((named_devices l addr v1.io_source_counter.toNat).map
                (fun d => d.detach_entry 0)) with
            | none => rw [hde] at hp; exact absurd hp (by simp)
            | some evs =>
              rw [hde] at hp
              simp only [Option.map_some', Option.some.injEq] at hp
              subst hp
              rcases List.mem_append.1 hx with hx | hx
              · exact hmsgs x hx
              · exact detach_each_events _ _ _ hde x hx
          · intro hd
            obtain ⟨evs, hevs⟩ := detach_each_kept_some (fun _ => false)
              ((named_devices l addr v1.io_source_counter.toNat).map
                (fun d => d.detach_entry 0)) (by
              intro e he _
              obtain ⟨d, hdm, rfl⟩ := List.mem_map.1 he
              obtain ⟨hl, hc⟩ := named_devices_mem l addr _ d hdm
              exact hd d hl hc)
            rw [hevs]; rfl
        · by_cases hlast : chm = IO_COLLISION_METHOD_DETACH_LAST
          · obtain ⟨msgs, hmsgs, heq⟩ := io_source_msg_detach_last_eq addr
              v1.io_source_counter v1.lowest_order l (by omega)
            subst hlast
            refine ⟨(detach_each (fun r => decide (r.order = v1.lowest_order))
              ((named_devices l addr v1.io_source_counter.toNat).map
                (fun d => d.detach_entry d.order))).map
              (fun evs => (v1.realval, msgs ++ evs)), ?_, ?_, ?_⟩
            · simp only [h0, if_false, h1, not_true_eq_false, if_true, heq,
                IO_COLLISION_METHOD_DETACH_LAST, IO_COLLISION_METHOD_DETACH_ALL]
              cases detach_each (fun r => decide (r.order = v1.lowest_order))
                ((named_devices l addr v1.io_source_counter.toNat).map
                  (fun d => d.detach_entry d.order)) <;> simp
            · intro p hp x hx
              cases hde : detach_each (fun r => decide (r.order = v1.lowest_order))
                ((named_devices l addr v1.io_source_counter.toNat).map
                  (fun d => d.detach_entry d.order)) with
              | none => rw [hde] at hp; exact absurd hp (by simp)
              | some evs =>
                rw [hde] at hp
                simp only [Option.map_some', Option.some.injEq] at hp
                subst hp
                rcases List.mem_append.1 hx with hx | hx
                · exact hmsgs x hx
                · exact detach_each_events _ _ _ hde x hx
            · intro hd
              obtain ⟨evs, hevs⟩ := detach_each_kept_some
                (fun r => decide (r.order = v1.lowest_order))
                ((named_devices l addr v1.io_source_counter.toNat).map
                  (fun d => d.detach_entry d.order)) (by
                intro e he _
                obtain ⟨d, hdm, rfl⟩ := List.mem_map.1 he
                obtain ⟨hl, hc⟩ := named_devices_mem l addr _ d hdm
                exact hd d hl hc)
              rw [hevs]; rfl
          · by_cases hand : chm = IO_COLLISION_METHOD_AND_WIRES
            · obtain ⟨ev, hev, hshape⟩ :=
                io_source_log_collisions_calls addr v1.io_source_counter l
              subst hand
              refine ⟨some (v1.realval, ev), by simp [h0, h1, hev,
                IO_COLLISION_METHOD_AND_WIRES, IO_COLLISION_METHOD_DETACH_LAST,
                IO_COLLISION_METHOD_DETACH_ALL], ?_, fun _ => rfl⟩
              intro p hp x hx
              simp only [Option.some.injEq] at hp
              subst hp
              rcases hshape with h | ⟨m, h⟩
              · rw [h] at hx; simp at hx
              · rw [h] at hx; simp only [List.mem_singleton] at hx; subst hx; rfl
            · exact ⟨some (read_unused addr % 256, []), by simp [h0, h1, hall, hlast, hand],
                by simp, fun _ => rfl⟩
      · exact ⟨some (v1.retval, []), by simp [h0, h1], by simp, fun _ => rfl⟩

/-! ## The devices named and detached under the detach-all method -/

/-- C23 as stated fails: the valid NORMAL devices A, C and B cover $FD13; A drives $01, C
drives $02 and B, registered last, drives $01 as A does. Under the detach-all method `io_read`
counts A and C, and the handler names and detaches A and C: B, a valid NORMAL device that
responded, is neither named nor detached, because its byte equals the first valid response
and so is not seen as a conflict. -/
theorem io_read_same_byte_kept_C23_counterexample :
    io_read sample_unused IO_COLLISION_METHOD_DETACH_ALL
        [sample_normal "A" 0 1, sample_normal "C" 1 2, sample_normal "B" 2 1] 0xfd13 =
      some (0xee,
        [Event.read (sample_normal "A" 0 1) 3, Event.read (sample_normal "C" 1 2) 3,
          Event.read (sample_normal "B" 2 1) 3,
          Event.log_message
            "I/O read collision at %X from A and C.\nAll the named devices will be detached."
            0xfd13,
          Event.ui_error
            "I/O read collision at %X from A and C.\nAll the named devices will be detached."
            0xfd13,
          Event.resources_set_int "AEnabled" 0, Event.resources_set_int "CEnabled" 0]) ∧
      (sample_normal "B" 2 1).valid_responder 0xfd13 = true ∧
      (sample_normal "B" 2 1).io_source_prio = IO_PRIO_NORMAL :=
  ⟨rfl, rfl, rfl⟩

/-- C23, amended: when `io_read` takes the collision path under the detach-all method (end of
the list reached, a valid response, counter above 1) and the first devices of the list that
pass the handler's test (valid, in range, NORMAL) are exactly the devices the loop counted
(the first valid responder, and every later valid responder whose byte differs from the first
valid response), then the counted devices are valid NORMAL responders, the message names them
all, in the order of the list, and the detach coordinator is called for each of them, in this
order, after `log_message` and `ui_error`; `io_read` then returns `read_unused(addr)`. Valid
NORMAL responders that are not counted are not acted upon. -/
theorem io_read_detach_all_counted_C23 (read_unused : Nat → Nat) (l : List io_source_t)
    (addr : Nat) (v : io_read_vars) (calls : List Event)
    (hcol : io_read_collides IO_COLLISION_METHOD_DETACH_ALL l addr v calls)
    (hsame : named_devices l addr (counted_devices l addr).length = counted_devices l addr) :
    v.io_source_counter = ((counted_devices l addr).length : Int) ∧
      (∀ d ∈ counted_devices l addr, d ∈ l ∧ d.valid_responder addr = true ∧
        d.io_source_prio = IO_PRIO_NORMAL) ∧
      io_read read_unused IO_COLLISION_METHOD_DETACH_ALL l addr =
        (detach_each (fun _ => false)
          ((counted_devices l addr).map (fun d => d.detach_entry 0))).map
          (fun evs => (read_unused addr % 256,
            calls ++
              [Event.log_message
                  (collision_message_of ((counted_devices l addr).map (fun d => d.name))
                    ".\nAll the named devices will be detached.") addr,
                Event.ui_error
                  (collision_message_of ((counted_devices l addr).map (fun d => d.name))
                    ".\nAll the named devices will be detached.") addr] ++ evs)) := by
  obtain ⟨hw, hvalid, hcount⟩ := hcol
  have hk := io_read_walk_counted _ addr l v calls hw
  have h2 : 2 ≤ (counted_devices l addr).length := by omega
  have hlen : (counted_devices l addr).length ≤
      (l.filter (fun d => d.conflicts addr)).length := by
    have h := congrArg List.length hsame
    simp only [named_devices, List.length_take] at h
    omega
  have hwalk := io_source_msg_detach_all_walk_eq addr (counted_devices l addr).length l h2 hlen
  rw [hsame] at hwalk
  refine ⟨hk, ?_, ?_⟩
  · intro d hd
    obtain ⟨h1, h3, _⟩ := io_read_counted_mem addr l 0 0 d hd
    have hc : d.conflicts addr = true := by
      rw [← hsame] at hd
      exact (named_devices_mem l addr _ d hd).2
    exact ⟨h1, h3, ((conflicts_iff d addr).1 hc).2.2⟩
  · unfold io_read
    rw [hw]
    simp only [hvalid, if_false, hcount, not_true_eq_false, if_true]
    unfold io_source_msg_detach_all
    rw [hk, hwalk]
    have hf : (detach_all_vars (counted_devices l addr)).found ≠ 0 := by
      simp only [detach_all_vars]; omega
    simp only [hf, ne_eq, not_false_eq_true, if_true]
    simp only [detach_all_vars]
    cases detach_each (fun _ => false)
      ((counted_devices l addr).map (fun d => d.detach_entry 0)) <;> simp

/-- C23 as amended, at A (byte 1), C (byte 2) and B (byte 1): A and C are counted, named
and detached. -/
theorem io_read_detach_all_counted_C23_witness :
    io_read_collides IO_COLLISION_METHOD_DETACH_ALL
        [sample_normal "A" 0 1, sample_normal "C" 1 2, sample_normal "B" 2 1] 0xfd13
        sample_counted_vars
        (read_calls [sample_normal "A" 0 1, sample_normal "C" 1 2, sample_normal "B" 2 1]
          0xfd13) ∧
      named_devices [sample_normal "A" 0 1, sample_normal "C" 1 2, sample_normal "B" 2 1]
          0xfd13
          (counted_devices [sample_normal "A" 0 1, sample_normal "C" 1 2, sample_normal "B" 2 1]
            0xfd13).length =
        counted_devices [sample_normal "A" 0 1, sample_normal "C" 1 2, sample_normal "B" 2 1]
          0xfd13 ∧
      counted_devices [sample_normal "A" 0 1, sample_normal "C" 1 2, sample_normal "B" 2 1]
          0xfd13 = [sample_normal "A" 0 1, sample_normal "C" 1 2] ∧
      (∀ d ∈ counted_devices
          [sample_normal "A" 0 1, sample_normal "C" 1 2, sample_normal "B" 2 1] 0xfd13,
        d ∈ [sample_normal "A" 0 1, sample_normal "C" 1 2, sample_normal "B" 2 1] ∧
          d.valid_responder 0xfd13 = true ∧ d.io_source_prio = IO_PRIO_NORMAL) ∧
      io_read sample_unused IO_COLLISION_METHOD_DETACH_ALL
          [sample_normal "A" 0 1, sample_normal "C" 1 2, sample_normal "B" 2 1] 0xfd13 =
        (detach_each (fun _ => false)
          ((counted_devices [sample_normal "A" 0 1, sample_normal "C" 1 2,
            sample_normal "B" 2 1] 0xfd13).map (fun d => d.detach_entry 0))).map
          (fun evs => (sample_unused 0xfd13 % 256,
            read_calls [sample_normal "A" 0 1, sample_normal "C" 1 2, sample_normal "B" 2 1]
                0xfd13 ++
              [Event.log_message
                  (collision_message_of ((counted_devices [sample_normal "A" 0 1,
                    sample_normal "C" 1 2, sample_normal "B" 2 1] 0xfd13).map
                      (fun d => d.name))
                    ".\nAll the named devices will be detached.") 0xfd13,
                Event.ui_error
                  (collision_message_of ((counted_devices [sample_normal "A" 0 1,
                    sample_normal "C" 1 2, sample_normal "B" 2 1] 0xfd13).map
                      (fun d => d.name))
                    ".\nAll the named devices will be detached.") 0xfd13] ++ evs)) :=
  ⟨⟨rfl, by decide, by decide⟩, rfl, rfl,
    (io_read_detach_all_counted_C23 sample_unused
      [sample_normal "A" 0 1, sample_normal "C" 1 2, sample_normal "B" 2 1] 0xfd13
      sample_counted_vars _ ⟨rfl, by decide, by decide⟩ rfl).2⟩

/-! ## The byte returned under the detach-last method -/

/-- C25 as stated fails: A (NORMAL, order 5, byte $01), L (LOW, order 1, byte $09) and B
(NORMAL, order 7, byte $02) cover $FD13. L has the smallest order of the valid responders,
but `io_read` under the detach-last method returns $01, the byte of A: the byte read from a
LOW priority device after a valid response is ignored. -/
theorem io_read_low_order_C25_counterexample :
    io_read sample_unused IO_COLLISION_METHOD_DETACH_LAST
        [sample_normal "A" 5 1, sample_low "L" 1 9, sample_normal "B" 7 2] 0xfd13 =
      some (1,
        [Event.read (sample_normal "A" 5 1) 3, Event.read (sample_low "L" 1 9) 3,
          Event.read (sample_normal "B" 7 2) 3,
          Event.log_message "I/O read collision at %X from A and B.\nAll devices except "
            0xfd13,
          Event.ui_error "I/O read collision at %X from A and B.\nAll devices except "
            0xfd13,
          Event.resources_set_int "AEnabled" 0, Event.resources_set_int "BEnabled" 0]) ∧
      lowest_responder [sample_normal "A" 5 1, sample_low "L" 1 9, sample_normal "B" 7 2]
        0xfd13 = some (sample_low "L" 1 9) ∧
      (sample_low "L" 1 9).read_byte 0xfd13 = 9 :=
  ⟨rfl, rfl, rfl⟩

/-- C25, amended: when `io_read` takes the collision path under the detach-last method (end
of the list reached, a valid response, counter above 1) and the valid responder with the
smallest order (the first of them in the list when several have it) is not of LOW priority,
the byte `io_read` returns is the byte read from that responder: `io_read` is the handler
`io_source_msg_detach_last` followed by the return of that byte, and it returns whenever no
device that the handler detaches trips the `assert` of `io_source_detach`. -/
theorem io_read_detach_last_lowest_C25 (read_unused : Nat → Nat) (l : List io_source_t)
    (addr : Nat) (v : io_read_vars) (calls : List Event)
    (hcol : io_read_collides IO_COLLISION_METHOD_DETACH_LAST l addr v calls)
    (hreal : lowest_not_low l addr = true) :
    ∃ b, lowest_responder l addr = some b ∧ b.io_source_prio ≠ IO_PRIO_LOW ∧
      v.lowest_order = b.order ∧
      io_read read_unused IO_COLLISION_METHOD_DETACH_LAST l addr =
        (io_source_msg_detach_last addr v.io_source_counter l v.lowest_order).map
          (fun ev => (b.read_byte addr, calls ++ ev)) ∧
      ((∀ d ∈ named_devices l addr v.io_source_counter.toNat,
          d.order ≠ v.lowest_order → d.detach_ok) →
        ∃ ev, io_read read_unused IO_COLLISION_METHOD_DETACH_LAST l addr =
          some (b.read_byte addr, calls ++ ev)) := by
  obtain ⟨hw, hvalid, hcount⟩ := hcol
  obtain ⟨hfold, _⟩ := io_read_walk_finished_fold _ addr l _ _ _ _ hw
  obtain ⟨b, hb, hlo, hre⟩ := io_read_fold_lowest_real_start addr l io_read_vars.init rfl
    (by rw [← hfold]; exact hvalid)
  rw [← hfold] at hlo hre
  have hnlow : b.io_source_prio ≠ IO_PRIO_LOW := by
    unfold lowest_not_low at hreal
    rw [hb] at hreal
    simpa using hreal
  have hreal2 := hre hnlow
  have hio : io_read read_unused IO_COLLISION_METHOD_DETACH_LAST l addr =
      (io_source_msg_detach_last addr v.io_source_counter l v.lowest_order).map
        (fun ev => (b.read_byte addr, calls ++ ev)) := by
    unfold io_read
    rw [hw]
    simp only [hvalid, if_false, hcount, not_true_eq_false, if_true, hreal2,
      IO_COLLISION_METHOD_DETACH_LAST, IO_COLLISION_METHOD_DETACH_ALL]
    cases io_source_msg_detach_last addr v.io_source_counter l v.lowest_order <;> simp
  refine ⟨b, hb, hnlow, hlo, hio, ?_⟩
  intro hd
  obtain ⟨msgs, _, heq⟩ := io_source_msg_detach_last_eq addr v.io_source_counter
    v.lowest_order l (by omega)
  obtain ⟨evs, hevs⟩ := detach_each_kept_some (fun r => decide (r.order = v.lowest_order))
    ((named_devices l addr v.io_source_counter.toNat).map (fun d => d.detach_entry d.order))
    (by
      intro e he hk
      obtain ⟨d, hdm, rfl⟩ := List.mem_map.1 he
      exact hd d hdm (by simpa [io_source_t.detach_entry] using hk))
  rw [hio, heq, hevs]
  exact ⟨msgs ++ evs, rfl⟩

/-- C25 as amended, at three NORMAL devices, the one registered last with the smallest
order. -/
theorem io_read_detach_last_lowest_C25_witness :
    io_read_collides IO_COLLISION_METHOD_DETACH_LAST
        [sample_normal "A" 5 1, sample_normal "B" 7 2, sample_normal "C" 3 4] 0xfd13
        sample_lowest_vars
        (read_calls [sample_normal "A" 5 1, sample_normal "B" 7 2, sample_normal "C" 3 4]
          0xfd13) ∧
      lowest_not_low [sample_normal "A" 5 1, sample_normal "B" 7 2, sample_normal "C" 3 4]
        0xfd13 = true ∧
      ∃ b,
        lowest_responder [sample_normal "A" 5 1, sample_normal "B" 7 2, sample_normal "C" 3 4]
          0xfd13 = some b ∧
        io_read sample_unused IO_COLLISION_METHOD_DETACH_LAST
          [sample_normal "A" 5 1, sample_normal "B" 7 2, sample_normal "C" 3 4] 0xfd13 =
          (io_source_msg_detach_last 0xfd13 sample_lowest_vars.io_source_counter
            [sample_normal "A" 5 1, sample_normal "B" 7 2, sample_normal "C" 3 4]
            sample_lowest_vars.lowest_order).map
            (fun ev => (b.read_byte 0xfd13,
              read_calls [sample_normal "A" 5 1, sample_normal "B" 7 2, sample_normal "C" 3 4]
                0xfd13 ++ ev)) :=
  ⟨⟨rfl, by decide, by decide⟩, rfl,
    (io_read_detach_last_lowest_C25 sample_unused
      [sample_normal "A" 5 1, sample_normal "B" 7 2, sample_normal "C" 3 4] 0xfd13
      sample_lowest_vars _ ⟨rfl, by decide, by decide⟩ rfl).imp
      (fun _ h => ⟨h.1, h.2.2.2.1⟩)⟩

/-! ## The callbacks `io_read` calls -/

/-- C28 as stated fails: the valid HIGH priority device H is followed by the NORMAL device A;
both have a read callback and cover $FD13. `io_read` calls the read callback of H and returns
its byte at once: the read callback of A is not called. -/
theorem io_read_after_high_C28_counterexample :
    io_read sample_unused IO_COLLISION_METHOD_DETACH_ALL
        [sample_device "H" 1 IO_PRIO_HIGH 0 7, sample_normal "A" 1 2] 0xfd13 =
      some (7, [Event.read (sample_device "H" 1 IO_PRIO_HIGH 0 7) 3]) ∧
      (sample_normal "A" 1 2).responds 0xfd13 = true :=
  ⟨rfl, rfl⟩

/-- C28, amended: for every list, method and address, the loop of `io_read` calls the read
callbacks of the devices that have one and cover the address, among the devices up to and
including the first valid HIGH priority responder (`io_read_walked`: the whole list when there
is none), once each, in registration order, with the argument
`(uint16_t)(addr & address_mask)`, which is `addr & address_mask` for a 16-bit address; it
calls no other callback. Whenever `io_read` returns, its calls are these, followed by calls
of collaborators only, and it returns unless a device that passes the handlers' test trips the
`assert` of `io_source_detach`. -/
theorem io_read_callbacks_C28 (read_unused : Nat → Nat) (chm : Int) (l : List io_source_t)
    (addr : Nat) :
    (io_read_walk chm addr l io_read_vars.init []).calls =
        read_calls (io_read_walked addr l) addr ∧
      (∀ r calls, io_read read_unused chm l addr = some (r, calls) →
        ∃ evs, calls = read_calls (io_read_walked addr l) addr ++ evs ∧
          ∀ x ∈ evs, x.isCallback = false) ∧
      (io_read read_unused chm l addr = none →
        ∃ d ∈ l, d.conflicts addr = true ∧ ¬ d.detach_ok) ∧
      ((∀ d ∈ l, ¬ (d.valid_responder addr = true ∧ d.io_source_prio = IO_PRIO_HIGH)) →
        io_read_walked addr l = l) ∧
      (addr < 65536 → ∀ d ∈ l, d.masked addr = addr &&& d.address_mask) := by
  obtain ⟨tail, heq, hcb, hsome⟩ := io_read_shape read_unused chm l addr
  refine ⟨by simpa using io_read_walk_calls chm addr l io_read_vars.init [], ?_, ?_,
    io_read_walked_all addr l, fun ha d _ => masked_eq d addr ha⟩
  · intro r calls h
    rw [heq] at h
    cases tail with
    | none => exact absurd h (by simp)
    | some p =>
      simp only [Option.map_some', Option.some.injEq, Prod.mk.injEq] at h
      exact ⟨p.2, h.2.symm, hcb p rfl⟩
  · intro h
    by_contra hne
    push_neg at hne
    have := hsome (fun d hd hc => hne d hd hc)
    rw [heq] at h
    cases tail with
    | none => exact absurd this (by simp)
    | some p => exact absurd h (by simp)

/-- C28 as amended, at a NORMAL device, a HIGH priority device and a NORMAL device: the
callbacks of the first two are called. -/
theorem io_read_callbacks_C28_witness :
    io_read sample_unused IO_COLLISION_METHOD_DETACH_ALL
        [sample_normal "A" 0 1, sample_device "H" 1 IO_PRIO_HIGH 1 7, sample_normal "B" 2 2]
        0xfd13 =
        some (7, [Event.read (sample_normal "A" 0 1) 3,
          Event.read (sample_device "H" 1 IO_PRIO_HIGH 1 7) 3]) ∧
      ∃ evs, [Event.read (sample_normal "A" 0 1) 3,
          Event.read (sample_device "H" 1 IO_PRIO_HIGH 1 7) 3] =
        read_calls (io_read_walked 0xfd13
          [sample_normal "A" 0 1, sample_device "H" 1 IO_PRIO_HIGH 1 7, sample_normal "B" 2 2])
          0xfd13 ++ evs ∧
        ∀ x ∈ evs, x.isCallback = false :=
  ⟨rfl, (io_read_callbacks_C28 sample_unused IO_COLLISION_METHOD_DETACH_ALL
    [sample_normal "A" 0 1, sample_device "H" 1 IO_PRIO_HIGH 1 7, sample_normal "B" 2 2]
    0xfd13).2.1 7 _ rfl⟩

end Plus4Bus
